import Mathlib

/-!
# Backoff policies and retry drivers of `pkg/internal/backoff`

A shallow embedding of `backoff.go` (the policies `ZeroBackOff`, `StopBackOff`
and `ConstantBackOff`) together with the retry drivers that consume them and
the policy `ExponentialBackOff`.

* `time.Duration` is an `int64` count of nanoseconds; it is embedded as `Int`.
  The policies of `backoff.go` perform no arithmetic on durations apart from
  the saturating subtraction of two instants inside `time.Since`.
* `time.Time` is embedded as the number of nanoseconds since the zero value
  `time.Time{}` (January 1, year 1, 00:00 UTC).
* `time.Now()` is the ambient system clock.  Every function that reads it
  takes the reading as an explicit argument `now`; for call sequences the
  readings come from a `SysClock`, an infinite sequence with a cursor.
-/

namespace Backoff

/-! ## Durations and instants -/

/-- Go `time.Duration`: nanoseconds, an `int64`. -/
abbrev Duration := Int

/-- Go `time.Time`, as nanoseconds since the zero value `time.Time{}`. -/
abbrev Time := Int

/-- Largest `time.Duration` (`math.MaxInt64`). -/
def maxDuration : Duration := 9223372036854775807

/-- Smallest `time.Duration` (`math.MinInt64`). -/
def minDuration : Duration := -9223372036854775808

/-- One `time.Second` in nanoseconds. -/
def Second : Duration := 1000000000

/-- The zero value `time.Time{}` that a struct field of type `time.Time` holds
until it is assigned. -/
def zeroTime : Time := 0

/-- Go `Time.Sub`: the difference `t - u`, replaced by the largest (smallest)
duration when it does not fit in a `Duration`. -/
def Time.Sub (t u : Time) : Duration :=
  if t - u > maxDuration then maxDuration
  else if t - u < minDuration then minDuration
  else t - u

/-- Go `time.Since(u)`, with the reading `now` of `time.Now()` made explicit. -/
def Since (now u : Time) : Duration := Time.Sub now u

/-- The constant `backoff.Stop`: no more retries should be made. -/
def Stop : Duration := -1

/-! ## The ambient clock as a sequence of readings -/

/-- The system clock seen as the sequence of values that successive calls of
`time.Now()` return, with the position of the next reading. -/
structure SysClock where
  readings : Nat → Time
  pos : Nat

/-- One call of `time.Now()`: the current reading, and the clock advanced. -/
def SysClock.Now (c : SysClock) : Time × SysClock :=
  (c.readings c.pos, { c with pos := c.pos + 1 })

/-! ## The `BackOff` interface -/

/-- The interface `BackOff`: a policy over a state `σ`. `NextBackOff` returns the
duration to wait (or `Stop`) and the new state; `Reset` returns the new state. -/
structure BackOff (σ : Type) where
  NextBackOff : σ → Duration × σ
  Reset : σ → σ

/-- A method call on a policy. -/
inductive Call where
  | next
  | reset
  deriving DecidableEq, Repr

/-- Performs the calls in order; returns the final state and the values the
`NextBackOff` calls returned, in order. -/
def BackOff.exec {σ : Type} (p : BackOff σ) : σ → List Call → σ × List Duration
  | s, [] => (s, [])
  | s, Call.next :: cs =>
    let r := p.NextBackOff s
    let rest := p.exec r.2 cs
    (rest.1, r.1 :: rest.2)
  | s, Call.reset :: cs => p.exec (p.Reset s) cs

/-- The values returned by `n` successive `NextBackOff` calls from state `s`. -/
def BackOff.nexts {σ : Type} (p : BackOff σ) : σ → Nat → List Duration
  | _, 0 => []
  | s, n + 1 => (p.NextBackOff s).1 :: p.nexts (p.NextBackOff s).2 n

/-! ## `ZeroBackOff` and `StopBackOff` -/

/-- The struct `ZeroBackOff` has no fields. -/
structure ZeroBackOff where
  deriving DecidableEq, Repr

/-- `func (b *ZeroBackOff) Reset() {}` -/
def ZeroBackOff.Reset (b : ZeroBackOff) : ZeroBackOff := b

/-- `func (b *ZeroBackOff) NextBackOff() time.Duration { return 0 }` -/
def ZeroBackOff.NextBackOff (_b : ZeroBackOff) : Duration := 0

/-- `ZeroBackOff` as a `BackOff`. -/
def ZeroBackOff.policy : BackOff ZeroBackOff where
  NextBackOff := fun b => (b.NextBackOff, b)
  Reset := fun b => b.Reset

/-- The struct `StopBackOff` has no fields. -/
structure StopBackOff where
  deriving DecidableEq, Repr

/-- `func (b *StopBackOff) Reset() {}` -/
def StopBackOff.Reset (b : StopBackOff) : StopBackOff := b

/-- `func (b *StopBackOff) NextBackOff() time.Duration { return Stop }` -/
def StopBackOff.NextBackOff (_b : StopBackOff) : Duration := Stop

/-- `StopBackOff` as a `BackOff`. -/
def StopBackOff.policy : BackOff StopBackOff where
  NextBackOff := fun b => (b.NextBackOff, b)
  Reset := fun b => b.Reset

/-! ## `ConstantBackOff` -/

/-- The struct `ConstantBackOff`. -/
structure ConstantBackOff where
  Interval : Duration
  MaxElapsedTime : Duration
  startTime : Time
  deriving DecidableEq, Repr

/-- `func (b *ConstantBackOff) Reset() { b.startTime = time.Now() }` -/
def ConstantBackOff.Reset (b : ConstantBackOff) (now : Time) : ConstantBackOff :=
  { b with startTime := now }

/-- `func (b *ConstantBackOff) GetElapsedTime() time.Duration
{ return time.Since(b.startTime) }` -/
def ConstantBackOff.GetElapsedTime (b : ConstantBackOff) (now : Time) : Duration :=
  Since now b.startTime

/-- The method `NextBackOff` of `ConstantBackOff`:
`if b.MaxElapsedTime != 0 && b.GetElapsedTime() > b.MaxElapsedTime { return Stop }`
and otherwise `return b.Interval`. -/
def ConstantBackOff.NextBackOff (b : ConstantBackOff) (now : Time) : Duration :=
  if b.MaxElapsedTime ≠ 0 ∧ b.GetElapsedTime now > b.MaxElapsedTime then Stop
  else b.Interval

/-- `NewConstantBackOff(d)`: `&ConstantBackOff{Interval: d}`; the fields that
are not named keep their zero values. -/
def NewConstantBackOff (d : Duration) : ConstantBackOff :=
  { Interval := d, MaxElapsedTime := 0, startTime := zeroTime }

/-- `RetryEvery(d)` returns `NewConstantBackOff(d)`. -/
def RetryEvery (d : Duration) : ConstantBackOff := NewConstantBackOff d

/-- `func (b *ConstantBackOff) For(maxElapsed)`: sets `b.MaxElapsedTime` and
returns `b`. -/
def ConstantBackOff.For (b : ConstantBackOff) (maxElapsed : Duration) : ConstantBackOff :=
  { b with MaxElapsedTime := maxElapsed }

/-- `Reset` with the reading taken from the clock. -/
def ConstantBackOff.resetC (s : ConstantBackOff × SysClock) : ConstantBackOff × SysClock :=
  let r := s.2.Now
  (s.1.Reset r.1, r.2)

/-- `NextBackOff` with the reading taken from the clock. Go evaluates `&&` left
to right and skips `GetElapsedTime` (hence `time.Now`) when
`MaxElapsedTime == 0`. -/
def ConstantBackOff.nextC (s : ConstantBackOff × SysClock) :
    Duration × (ConstantBackOff × SysClock) :=
  if s.1.MaxElapsedTime ≠ 0 then
    let r := s.2.Now
    (s.1.NextBackOff r.1, (s.1, r.2))
  else (s.1.Interval, s)

/-- `ConstantBackOff` under a system clock, as a `BackOff`. -/
def ConstantBackOff.policy : BackOff (ConstantBackOff × SysClock) where
  NextBackOff := ConstantBackOff.nextC
  Reset := ConstantBackOff.resetC

/-! ## Errors, operations and notifications -/

/-- Go `error` values as far as the drivers tell them apart: the sentinel
`ErrContinue`, compared by identity, and every other error, given by its
message. The nil error is `none : Option Error`. -/
inductive Error where
  | ErrContinue
  | other (msg : String)
  deriving DecidableEq, Repr

/-- `type Operation func() error`: a closure over the caller's state `ω`. -/
abbrev Operation (ω : Type) := ω → Option Error × ω

/-- `type Notify func(error, time.Duration) error`: a closure over the caller's
state `ω`, which it may share with the operation. -/
abbrev Notify (ω : Type) := Error → Duration → ω → Option Error × ω

/-- What a driver does, in order: calls of the operation (with the result),
calls of the policy, calls of the notify function (with its arguments and
result) and sleeps. -/
inductive Event where
  | op (result : Option Error)
  | reset
  | next (d : Duration)
  | notify (e : Error) (d : Duration) (result : Option Error)
  | sleep (d : Duration)
  deriving DecidableEq, Repr

/-- The result of a driver: the returned error (`none` is nil), the final state
of the caller and of the policy, and what was done. -/
structure Outcome (ω σ : Type) where
  err : Option Error
  caller : ω
  policy : σ
  trace : List Event

/-- Puts events in front of the trace of an outcome. -/
def Outcome.after {ω σ : Type} (evs : List Event) (o : Outcome ω σ) : Outcome ω σ :=
  { o with trace := evs ++ o.trace }

/-- Number of invocations of the operation in a trace. -/
def opCount : List Event → Nat
  | [] => 0
  | Event.op _ :: t => opCount t + 1
  | _ :: t => opCount t

/-- Number of calls of the notify function in a trace. -/
def notifyCount : List Event → Nat
  | [] => 0
  | Event.notify _ _ _ :: t => notifyCount t + 1
  | _ :: t => notifyCount t

/-- The durations slept in a trace, in order. -/
def sleeps : List Event → List Duration
  | [] => []
  | Event.sleep d :: t => d :: sleeps t
  | _ :: t => sleeps t

/-- State of the caller after `i` invocations of the operation and nothing
else. -/
def opState {ω : Type} (operation : Operation ω) (w : ω) (i : Nat) : ω :=
  (fun x => (operation x).2)^[i] w

/-- Result of invocation `i + 1` of the operation when only the operation
changes the caller's state. -/
def opResult {ω : Type} (operation : Operation ω) (w : ω) (i : Nat) : Option Error :=
  (operation (opState operation w i)).1

/-- State of the policy after `i` calls of `NextBackOff`. -/
def BackOff.nextState {σ : Type} (b : BackOff σ) (s : σ) (i : Nat) : σ :=
  (fun x => (b.NextBackOff x).2)^[i] s

/-- Value returned by call `i + 1` of `NextBackOff`. -/
def BackOff.nextResult {σ : Type} (b : BackOff σ) (s : σ) (i : Nat) : Duration :=
  (b.NextBackOff (b.nextState s i)).1

/-! ## The retry drivers

`retry.go` is not among the sources; only its tests are. The drivers are
modelled from sections 3, 4.3, 4.4 and 4.5 of the specification. -/

/-- Modelled from the spec: the loop of `RetryNotify` (`retry.go` is missing).
Each round invokes the operation. On nil the loop returns nil. On the Continue
sentinel it calls `Reset` on the policy and invokes the operation again at once,
with no delay and no call of `notify`. On any other error it calls
`NextBackOff`; on `Stop` it returns that error unchanged; otherwise `notify`,
when present, is called with the error and the duration, and a non-nil result
of it ends the loop and is returned; otherwise the loop sleeps for the duration
and goes round again. `fuel` bounds the number of invocations of the operation;
`none` means the bound was reached. -/
def retryLoop {ω σ : Type} (operation : Operation ω) (b : BackOff σ)
    (notify : Option (Notify ω)) : Nat → ω → σ → Option (Outcome ω σ)
  | 0, _, _ => none
  | fuel + 1, w, s =>
    match operation w with
    | (none, w1) => some ⟨none, w1, s, [Event.op none]⟩
    | (some Error.ErrContinue, w1) =>
      (retryLoop operation b notify fuel w1 (b.Reset s)).map
        (Outcome.after [Event.op (some Error.ErrContinue), Event.reset])
    | (some (Error.other m), w1) =>
      let e := Error.other m
      let r := b.NextBackOff s
      if r.1 = Stop then
        some ⟨some e, w1, r.2, [Event.op (some e), Event.next r.1]⟩
      else
        match notify with
        | none =>
          (retryLoop operation b notify fuel w1 r.2).map
            (Outcome.after [Event.op (some e), Event.next r.1, Event.sleep r.1])
        | some n =>
          match n e r.1 w1 with
          | (some e2, w2) =>
            some ⟨some e2, w2, r.2,
              [Event.op (some e), Event.next r.1, Event.notify e r.1 (some e2)]⟩
          | (none, w2) =>
            (retryLoop operation b notify fuel w2 r.2).map
              (Outcome.after [Event.op (some e), Event.next r.1,
                Event.notify e r.1 none, Event.sleep r.1])

/-- Modelled from the spec: `RetryNotify(operation, b, notify)` (`retry.go` is
missing). The policy is reset at the start of the drive (section 3:
"`reset()` being called internally at the start of each drive";
`TestConstantBackOffCompare` hands `Retry` a `ConstantBackOff` that was never
reset and expects at least 8 attempts), then the loop runs. -/
def RetryNotify {ω σ : Type} (operation : Operation ω) (b : BackOff σ)
    (notify : Option (Notify ω)) (fuel : Nat) (w : ω) (s : σ) : Option (Outcome ω σ) :=
  (retryLoop operation b notify fuel w (b.Reset s)).map (Outcome.after [Event.reset])

/-- Modelled from the spec: `Retry(operation, b)` (`retry.go` is missing): the
same loop with no notification hook. -/
def Retry {ω σ : Type} (operation : Operation ω) (b : BackOff σ)
    (fuel : Nat) (w : ω) (s : σ) : Option (Outcome ω σ) :=
  RetryNotify operation b none fuel w s

/-- The argument `inner` of `NotifyContinue`: nothing (nil), a label, a plain
`func(error, time.Duration) error`, or a value of type `Notify`. -/
inductive Inner (ω : Type) where
  | absent
  | label (name : String)
  | func (f : Error → Duration → ω → Option Error × ω)
  | notify (n : Notify ω)

/-- Modelled from the spec: `NotifyContinue(inner)` (`retry.go` is missing). The
callback returns nil at once on the Continue sentinel; otherwise it returns the
error unchanged when `inner` is absent, logs once and returns nil when `inner`
is a label, and returns the result of `inner` when `inner` is a callback.
`logf` is the logger: it records the label, the error and the duration in the
caller's state. -/
def NotifyContinue {ω : Type} (logf : String → Error → Duration → ω → ω)
    (inner : Inner ω) : Notify ω :=
  fun err d w =>
    if err = Error.ErrContinue then (none, w)
    else
      match inner with
      | Inner.absent => (some err, w)
      | Inner.label name => (none, logf name err d w)
      | Inner.func f => f err d w
      | Inner.notify n => n err d w

/-! ## Test fixtures

Closures of the test files, as operations over the state they capture. -/

/-- The operation of `TestRetry` (`retry_test.go`): the captured counter `i` is
incremented, and the call numbered `successOn = 3` returns nil, every other
call an error. -/
def testRetryOp : Operation Nat := fun i =>
  if i + 1 = 3 then (none, i + 1) else (some (Error.other "error"), i + 1)

/-- The operation of `TestConstantBackOffCompare` (`backoff_test.go`), with the
captured index `idx`: it always returns the error "expected error". -/
def alwaysFailOp : Operation Nat := fun idx =>
  (some (Error.other "expected error"), idx + 1)

/-- The operation of `TestNotifyContinue/NotifyContinueWithString`
(`retry_test.go`) over the captured slice `results`: it appends
`len(results)`, then returns `ErrContinue` while fewer than 3 results are
recorded, the error "done" while fewer than 4 are, and nil afterwards. -/
def notifyStringOp : Operation (List Int) := fun results =>
  let r := results ++ [(results.length : Int)]
  if r.length < 3 then (some Error.ErrContinue, r)
  else if r.length < 4 then (some (Error.other "done"), r)
  else (none, r)

/-- The operation of `TestNotifyContinue/NotifyContinueWithNotify`
(`retry_test.go`) over the captured slice `results`: it appends
`len(results)`, then returns `ErrContinue` while fewer than 3 results are
recorded and the error "done" afterwards. -/
def notifyContinueOp : Operation (List Int) := fun results =>
  let r := results ++ [(results.length : Int)]
  if r.length < 3 then (some Error.ErrContinue, r)
  else (some (Error.other "done"), r)

/-- The notify function of `TestNotifyContinue/NotifyContinueWithNotify`: it
appends `-1` to `results` and returns the error "done". -/
def notifyDone : Notify (List Int) := fun _ _ results =>
  (some (Error.other "done"), results ++ [-1])

/-- A logger that leaves the caller's state alone. -/
def noLog {ω : Type} : String → Error → Duration → ω → ω := fun _ _ _ w => w

/-- A reading of the wall clock on 2026-11-03, in nanoseconds since the zero
`time.Time` (the Unix epoch is 62135596800 s after it). -/
def wallClock2026 : Time := 63929260800 * 1000000000

/-! ## Rounds of the loop, as traces -/

/-- Whether a result of the operation is a failure: an error other than the
Continue sentinel. -/
def isFailure : Option Error → Bool
  | some (Error.other _) => true
  | _ => false

/-- The trace of `k` rounds in which the operation fails, the policy is
consulted and the loop sleeps, with no notify function. -/
def failRounds {ω σ : Type} (operation : Operation ω) (b : BackOff σ) :
    ω → σ → Nat → List Event
  | _, _, 0 => []
  | w, s, k + 1 =>
    [Event.op (operation w).1, Event.next (b.NextBackOff s).1,
      Event.sleep (b.NextBackOff s).1]
      ++ failRounds operation b (operation w).2 (b.NextBackOff s).2 k

/-- The trace of `n` rounds in which the operation returns the Continue
sentinel and the policy is reset. -/
def contRounds : Nat → List Event
  | 0 => []
  | n + 1 => [Event.op (some Error.ErrContinue), Event.reset] ++ contRounds n

/-! ## `RetryUntilCancel` and `MustLoop`

Modelled, like the other drivers, from the specification (section 4.6). The
cancellation signal of the context is read off the caller's state by
`cancelled`: the operation and the notify function may raise it (`cancel()`);
a Go context, once cancelled, stays cancelled. -/

/-- Why a cancellable drive ended: the operation returned nil, cancellation was
observed, the policy returned `Stop` after the error `e`, or the notify
function returned the error `e`. -/
inductive Ended where
  | success
  | cancelled
  | stopped (e : Error)
  | vetoed (e : Error)
  deriving DecidableEq, Repr

/-- The result of a cancellable drive: why it ended, the final state of the
caller and of the policy, and what was done. -/
structure CancelOutcome (ω σ : Type) where
  ended : Ended
  caller : ω
  policy : σ
  trace : List Event

/-- Puts events in front of the trace of the outcome of a cancellable drive. -/
def CancelOutcome.after {ω σ : Type} (evs : List Event) (o : CancelOutcome ω σ) :
    CancelOutcome ω σ :=
  { o with trace := evs ++ o.trace }

/-- Modelled from the spec: the loop of `RetryUntilCancel` (`retry.go` is
missing). Each round first checks whether cancellation has been signalled and,
if so, ends the loop. Otherwise it invokes the operation. On nil the loop ends
with success. On the Continue sentinel it calls `Reset` on the policy and goes
round again at once, the check at the head of the next round being the
re-check of cancellation, with no delay and no call of `notify`. On any other
error it calls `NextBackOff`; on `Stop` the loop ends; otherwise `notify`, when
present, is called, and a non-nil result of it ends the loop; otherwise the
loop sleeps for the duration, cancellation cutting the sleep short, and goes
round again. `fuel` bounds the number of invocations of the operation; `none`
means the bound was reached. -/
def retryUntilCancelLoop {ω σ : Type} (cancelled : ω → Bool) (operation : Operation ω)
    (b : BackOff σ) (notify : Option (Notify ω)) :
    Nat → ω → σ → Option (CancelOutcome ω σ)
  | 0, w, s => if cancelled w then some ⟨Ended.cancelled, w, s, []⟩ else none
  | fuel + 1, w, s =>
    if cancelled w then some ⟨Ended.cancelled, w, s, []⟩
    else
      match operation w with
      | (none, w1) => some ⟨Ended.success, w1, s, [Event.op none]⟩
      | (some Error.ErrContinue, w1) =>
        (retryUntilCancelLoop cancelled operation b notify fuel w1 (b.Reset s)).map
          (CancelOutcome.after [Event.op (some Error.ErrContinue), Event.reset])
      | (some (Error.other m), w1) =>
        let e := Error.other m
        let r := b.NextBackOff s
        if r.1 = Stop then
          some ⟨Ended.stopped e, w1, r.2, [Event.op (some e), Event.next r.1]⟩
        else
          match notify with
          | none =>
            (retryUntilCancelLoop cancelled operation b notify fuel w1 r.2).map
              (CancelOutcome.after [Event.op (some e), Event.next r.1, Event.sleep r.1])
          | some n =>
            match n e r.1 w1 with
            | (some e2, w2) =>
              some ⟨Ended.vetoed e2, w2, r.2,
                [Event.op (some e), Event.next r.1, Event.notify e r.1 (some e2)]⟩
            | (none, w2) =>
              (retryUntilCancelLoop cancelled operation b notify fuel w2 r.2).map
                (CancelOutcome.after [Event.op (some e), Event.next r.1,
                  Event.notify e r.1 none, Event.sleep r.1])

/-- Modelled from the spec: `RetryUntilCancel(ctx, operation, b, notify)`
(`retry.go` is missing). The policy is reset at the start of the drive
(section 3), then the loop runs. -/
def RetryUntilCancel {ω σ : Type} (cancelled : ω → Bool) (operation : Operation ω)
    (b : BackOff σ) (notify : Option (Notify ω)) (fuel : Nat) (w : ω) (s : σ) :
    Option (CancelOutcome ω σ) :=
  (retryUntilCancelLoop cancelled operation b notify fuel w (b.Reset s)).map
    (CancelOutcome.after [Event.reset])

/-- Modelled from the spec: `MustLoop(operation)` (`retry.go` is missing): the
operation that returns the Continue sentinel where `operation` returns nil and
the error of `operation` otherwise. -/
def MustLoop {ω : Type} (operation : Operation ω) : Operation ω := fun w =>
  match operation w with
  | (none, w1) => (some Error.ErrContinue, w1)
  | (some e, w1) => (some e, w1)

/-- The policy `mustResetBackOff` of `retry_test.go`, an `int`: `NextBackOff`
returns `Stop` when the value is positive and otherwise increments it and
returns 0; `Reset` sets it to 0. -/
def mustResetBackOff : BackOff Int where
  NextBackOff := fun m => if m > 0 then (Stop, m) else (0, m + 1)
  Reset := fun _ => 0

/-- The number of `Reset` calls in a trace. -/
def resetCount : List Event → Nat
  | [] => 0
  | Event.reset :: t => resetCount t + 1
  | _ :: t => resetCount t

/-- The number of `NextBackOff` calls in a trace. -/
def nextCount : List Event → Nat
  | [] => 0
  | Event.next _ :: t => nextCount t + 1
  | _ :: t => nextCount t

/-! ## Fixtures of the cancellable drives -/

/-- The caller's state in the tests of `RetryUntilCancel`: the captured slice
`results` and whether `cancel()` has been called on the context. -/
structure CancelState where
  results : List Int
  done : Bool
  deriving DecidableEq, Repr

/-- The operation of `TestRetryUntilCancel` (`retry_test.go`): it appends
`len(results)`, calls `cancel()` once 3 results are recorded, and returns
`ErrContinue`. -/
def untilCancelOp : Operation CancelState := fun st =>
  let r := st.results ++ [(st.results.length : Int)]
  (some Error.ErrContinue, { results := r, done := st.done || decide (3 ≤ r.length) })

/-- The operation that `TestMustLoop` (`retry_test.go`) wraps in `MustLoop`: it
appends `len(results) + 1`; the first call returns `ErrContinue`, the second
nil, the third calls `cancel()` and returns nil. -/
def mustLoopOp : Operation CancelState := fun st =>
  let r := st.results ++ [(st.results.length : Int) + 1]
  if r.length = 1 then (some Error.ErrContinue, { results := r, done := st.done })
  else if r.length = 3 then (none, { results := r, done := true })
  else (none, { results := r, done := st.done })

/-- The operation of `TestRetryUntilCancelResetsOnErrContinue`
(`retry_test.go`): it appends `len(results) + 1` and returns `ErrContinue`
while fewer than 3 results are recorded, nil afterwards. -/
def resetsOnContinueOp : Operation CancelState := fun st =>
  let r := st.results ++ [(st.results.length : Int) + 1]
  if r.length < 3 then (some Error.ErrContinue, { results := r, done := st.done })
  else (none, { results := r, done := st.done })

/-- The operation of `TestRetryUntilCancelZeroBackoff` (`retry_test.go`), which
returns nil; `results` counts its calls. -/
def onceOp : Operation CancelState := fun st =>
  (none, { results := st.results ++ [(st.results.length : Int)], done := st.done })

/-- The notify function of `TestRetryUntilCancelZeroBackoff`: it calls
`cancel()` and returns nil. -/
def cancelNotify : Notify CancelState := fun _ _ st =>
  (none, { results := st.results, done := true })

/-- An operation that calls `cancel()` and fails with an ordinary error. -/
def cancelAndFailOp : Operation CancelState := fun st =>
  (some (Error.other "failed"),
    { results := st.results ++ [(st.results.length : Int)], done := true })

/-- A notify function that records -1 in `results` and returns nil. -/
def recordNotify : Notify CancelState := fun _ _ st =>
  (none, { results := st.results ++ [-1], done := st.done })

/-! ## `ExponentialBackOff`

`exponential.go` is not among the sources; only its tests are. The policy is
modelled from section 4.2 of the specification, with the field names the tests
use. The fractions (`RandomizationFactor`, `Multiplier`, the random draw) are
rational numbers and the arithmetic on them is exact. -/

/-- One `time.Millisecond` in nanoseconds. -/
def Millisecond : Duration := 1000000

/-- One `time.Minute` in nanoseconds. -/
def Minute : Duration := 60 * Second

/-- The capability `Clock` (`Now() time.Time`) injected into a policy: an
implementation is given by the sequence of its readings. -/
abbrev Clock := SysClock

/-- The clock `TestClock` of `exponential_test.go`: reading number `n` is
`start` plus `n` seconds. -/
def TestClock (start : Time) : Clock :=
  { readings := fun n => start + (n : Int) * Second, pos := 0 }

/-- Modelled from the spec: `GetRandomValueFromInterval(randomizationFactor,
random, currentInterval)` (`exponential.go` is missing). With
`delta = randomizationFactor * currentInterval`, `lowerBound = currentInterval
- delta` and `upperBound = currentInterval + delta`, the value is
`floor(lowerBound + random * (upperBound - lowerBound + 1))`, clamped to be
non-negative. -/
def GetRandomValueFromInterval (randomizationFactor random : ℚ)
    (currentInterval : Duration) : Duration :=
  let delta : ℚ := randomizationFactor * (currentInterval : ℚ)
  let lowerBound : ℚ := (currentInterval : ℚ) - delta
  let upperBound : ℚ := (currentInterval : ℚ) + delta
  max 0 ⌊lowerBound + random * (upperBound - lowerBound + 1)⌋

/-- The struct `ExponentialBackOff`, with the fields the tests set and read. -/
structure ExponentialBackOff where
  InitialInterval : Duration
  RandomizationFactor : ℚ
  Multiplier : ℚ
  MaxInterval : Duration
  MaxElapsedTime : Duration
  CurrentInterval : Duration
  StartTime : Time
  Clock : Clock

/-- Modelled from the spec: `Reset()` of `ExponentialBackOff`: sets
`currentInterval = initialInterval` and `startTime = clock.now()`. -/
def ExponentialBackOff.Reset (b : ExponentialBackOff) : ExponentialBackOff :=
  { b with
    CurrentInterval := b.InitialInterval
    StartTime := b.Clock.Now.1
    Clock := b.Clock.Now.2 }

/-- Modelled from the spec: `GetElapsedTime()` of `ExponentialBackOff`: one
reading of the clock minus `StartTime`; the clock advances. -/
def ExponentialBackOff.GetElapsedTime (b : ExponentialBackOff) :
    Duration × ExponentialBackOff :=
  (Time.Sub b.Clock.Now.1 b.StartTime, { b with Clock := b.Clock.Now.2 })

/-- Modelled from the spec: step 3 of `nextBackOff()`: `currentInterval`
becomes `currentInterval * multiplier`, except that it becomes `maxInterval`
when the product would overflow the range of a duration or exceeds
`maxInterval`. The product is converted to a duration by dropping its
fraction. -/
def ExponentialBackOff.growCurrentInterval (b : ExponentialBackOff) :
    ExponentialBackOff :=
  if (b.CurrentInterval : ℚ) * b.Multiplier > (maxDuration : ℚ) ∨
      (b.CurrentInterval : ℚ) * b.Multiplier > (b.MaxInterval : ℚ) then
    { b with CurrentInterval := b.MaxInterval }
  else
    { b with CurrentInterval := ⌊(b.CurrentInterval : ℚ) * b.Multiplier⌋ }

/-- Modelled from the spec: `NextBackOff()` of `ExponentialBackOff`, with the
uniform random fraction `random` drawn in step 2 made explicit. Step 1: if
`maxElapsedTime != 0` and `clock.now() - startTime > maxElapsedTime`, return
`Stop`. Steps 2 to 4: return the jitter of the current interval and grow the
current interval for the next call. The clock is read only when
`maxElapsedTime != 0`. -/
def ExponentialBackOff.NextBackOff (b : ExponentialBackOff) (random : ℚ) :
    Duration × ExponentialBackOff :=
  if b.MaxElapsedTime ≠ 0 then
    if b.GetElapsedTime.1 > b.MaxElapsedTime then (Stop, b.GetElapsedTime.2)
    else
      (GetRandomValueFromInterval b.RandomizationFactor random b.CurrentInterval,
        b.GetElapsedTime.2.growCurrentInterval)
  else
    (GetRandomValueFromInterval b.RandomizationFactor random b.CurrentInterval,
      b.growCurrentInterval)

/-- The values of `CurrentInterval` observed before each of the successive
`NextBackOff` calls whose random draws are `randoms`. -/
def ExponentialBackOff.intervals : ExponentialBackOff → List ℚ → List Duration
  | _, [] => []
  | b, r :: rs => b.CurrentInterval :: ExponentialBackOff.intervals (b.NextBackOff r).2 rs

/-- The values returned by the successive `NextBackOff` calls whose random
draws are `randoms`. -/
def ExponentialBackOff.returns : ExponentialBackOff → List ℚ → List Duration
  | _, [] => []
  | b, r :: rs => (b.NextBackOff r).1 :: ExponentialBackOff.returns (b.NextBackOff r).2 rs

/-- The policy of `TestBackOff` (`exponential_test.go`) before its `Reset()`:
initial interval 500 ms, randomization factor 0.1, multiplier 2, maximal
interval 5 s, maximal elapsed time 15 min. -/
def testBackOffExp (clock : Clock) : ExponentialBackOff :=
  { InitialInterval := 500 * Millisecond
    RandomizationFactor := 1 / 10
    Multiplier := 2
    MaxInterval := 5 * Second
    MaxElapsedTime := 15 * Minute
    CurrentInterval := 500 * Millisecond
    StartTime := clock.readings 0
    Clock := clock }

/-- The policy of `TestBackOffOverflow` (`exponential_test.go`) before its
`Reset()`: initial interval `MaxInt64 / 2`, multiplier 2.1, maximal interval
`MaxInt64`; the other fields as the spec gives the defaults. -/
def testOverflowExp (clock : Clock) : ExponentialBackOff :=
  { InitialInterval := maxDuration / 2
    RandomizationFactor := 1 / 2
    Multiplier := 21 / 10
    MaxInterval := maxDuration
    MaxElapsedTime := 15 * Minute
    CurrentInterval := 500 * Millisecond
    StartTime := clock.readings 0
    Clock := clock }

/-- The policy of `TestMaxElapsedTime` (`exponential_test.go`): the defaults of
the spec, a `TestClock` that starts 10000 s after the zero time, and
`StartTime` set to the zero time. -/
def testMaxElapsedExp : ExponentialBackOff :=
  { InitialInterval := 500 * Millisecond
    RandomizationFactor := 1 / 2
    Multiplier := 3 / 2
    MaxInterval := 60 * Second
    MaxElapsedTime := 15 * Minute
    CurrentInterval := 500 * Millisecond
    StartTime := zeroTime
    Clock := TestClock (10000 * Second) }

/-! ## Where the time comes from

A policy runs in a process. The process has one system clock, which
`time.Now()` and `time.Since` read; a call that reads it advances it, as in
`SysClock.Now`. A `Clock` that was injected into a policy is a field of the
policy and is not the system clock of the process. A method in a process
takes the policy and the system clock and returns its result, the policy and
the system clock as it leaves them. -/

/-- `GetElapsedTime` of `ConstantBackOff` in a process: `time.Since(b.startTime)`
takes one reading of the system clock. -/
def ConstantBackOff.elapsedC (s : ConstantBackOff × SysClock) :
    Duration × (ConstantBackOff × SysClock) :=
  let r := s.2.Now
  (s.1.GetElapsedTime r.1, (s.1, r.2))

/-- A method that makes no call of `time.Now()`, in a process: the system
clock is left as it was and is not consulted. -/
def withoutSystemClock {P R : Type} (m : P → R × P) : P × SysClock → R × (P × SysClock) :=
  fun s => ((m s.1).1, ((m s.1).2, s.2))

/-- Modelled from the spec: `Reset()` of `ExponentialBackOff` in a process. It
reads `clock.now()` of the injected clock and makes no call of `time.Now()`
(`exponential.go` is missing). -/
def ExponentialBackOff.resetW : ExponentialBackOff × SysClock →
    Unit × (ExponentialBackOff × SysClock) :=
  withoutSystemClock (fun b => ((), b.Reset))

/-- Modelled from the spec: `GetElapsedTime()` of `ExponentialBackOff` in a
process. It reads `clock.now()` of the injected clock and makes no call of
`time.Now()` (`exponential.go` is missing). -/
def ExponentialBackOff.elapsedW : ExponentialBackOff × SysClock →
    Duration × (ExponentialBackOff × SysClock) :=
  withoutSystemClock ExponentialBackOff.GetElapsedTime

/-- Modelled from the spec: `NextBackOff()` of `ExponentialBackOff` in a
process. It reads `clock.now()` of the injected clock and makes no call of
`time.Now()` (`exponential.go` is missing). -/
def ExponentialBackOff.nextW (random : ℚ) : ExponentialBackOff × SysClock →
    Duration × (ExponentialBackOff × SysClock) :=
  withoutSystemClock (fun b => b.NextBackOff random)

/-- A system clock that gives the reading `t` every time. -/
def frozenAt (t : Time) : SysClock := { readings := fun _ => t, pos := 0 }

end Backoff

/-! # Strings and errors of Go, as the packages below use them

A Go `string` is embedded as a `String` (the strings in question are valid
UTF-8, for which containment of bytes and of characters agree). An `error`
is observed only through `err == nil` and `err.Error()`: a non-nil error is
embedded as its message, and `nil` as `none`. -/

namespace Go

/-- A non-nil Go `error`, as far as the packages below observe it: the string
its method `Error()` returns. -/
structure GoError where
  Error : String
  deriving DecidableEq, Repr

/-- `strings.Contains(s, substr)`: whether `substr` occurs in `s`. -/
def Contains (s substr : String) : Bool :=
  decide (substr.data <:+: s.data)

/-- `strings.HasPrefix(s, p)`: whether `s` begins with `p`. -/
def HasPrefix (s p : String) : Bool :=
  decide (p.data <+: s.data)

/-- `strings.TrimPrefix(s, p)`: `s` without the leading `p` when `s` begins
with `p`, and `s` itself otherwise. -/
def TrimPrefix (s p : String) : String :=
  if HasPrefix s p then String.mk (s.data.drop p.data.length) else s

/-- A gRPC status: the name of its code and its message. -/
structure Status where
  code : String
  message : String
  deriving DecidableEq, Repr

/-- `status.Error(code, message)` of the gRPC library: an error whose
`Error()` is `rpc error: code = <code> desc = <message>`. -/
def Status.Err (st : Status) : GoError :=
  { Error := "rpc error: code = " ++ st.code ++ " desc = " ++ st.message }

/-- `status.Convert(err).Message()` of the gRPC library, for an error made by
`status.Error`: the message of the status. -/
def Status.Message (st : Status) : String := st.message

/-- The effect of `strings.ToUpper` on ASCII text: the letters `a` to `z`
become `A` to `Z`. -/
def upperASCII (s : String) : String :=
  String.mk (s.data.map Char.toUpper)

end Go

/-! # Pipeline inputs and job states of `pkg/api/v1/pps` (`util.go`) -/

namespace Pps

open Go

/-! ## Job states

The enum `JobState` and its tables `JobState_name` and `JobState_value` are
declared in generated code that is not among the sources. `IsTerminal` names
nine constants of the enum; any other value of the underlying `int32` is
`unrecognized`. -/

/-- The enum `JobState`: the constants that `IsTerminal` names, and any other
value. -/
inductive JobState where
  | JOB_SUCCESS
  | JOB_FAILURE
  | JOB_KILLED
  | JOB_UNRUNNABLE
  | JOB_CREATED
  | JOB_STARTING
  | JOB_RUNNING
  | JOB_EGRESSING
  | JOB_FINISHING
  | unrecognized (value : Int)
  deriving DecidableEq, Repr

/-- `IsTerminal(state)`: the `switch` of `util.go`. The first `case` returns
true, the second false, and `default` panics, which is `none`. -/
def IsTerminal : JobState → Option Bool
  | JobState.JOB_SUCCESS => some true
  | JobState.JOB_FAILURE => some true
  | JobState.JOB_KILLED => some true
  | JobState.JOB_UNRUNNABLE => some true
  | JobState.JOB_CREATED => some false
  | JobState.JOB_STARTING => some false
  | JobState.JOB_RUNNING => some false
  | JobState.JOB_EGRESSING => some false
  | JobState.JOB_FINISHING => some false
  | JobState.unrecognized _ => none

/-- `JobStateFromName(name)`:
`canonical := "JOB_" + strings.TrimPrefix(strings.ToUpper(name), "JOB_")`, then
the lookup of `canonical` in `JobState_value`; a missing key gives the error
`errors.Errorf(errInvalidJobStateName, name)`. The library function
`strings.ToUpper`, the table `JobState_value` and the text of the error (made
by `init` from the table `JobState_name`) are parameters. -/
def JobStateFromName (ToUpper : String → String)
    (JobState_value : String → Option JobState)
    (errInvalidJobStateName : String → String) (name : String) :
    Except GoError JobState :=
  match JobState_value ("JOB_" ++ TrimPrefix (ToUpper name) "JOB_") with
  | some value => Except.ok value
  | none => Except.error { Error := errInvalidJobStateName name }

/-- A table `JobState_value` with the nine names that `IsTerminal` uses. -/
def jobStateValueTable : String → Option JobState := fun name =>
  if name = "JOB_SUCCESS" then some JobState.JOB_SUCCESS
  else if name = "JOB_FAILURE" then some JobState.JOB_FAILURE
  else if name = "JOB_KILLED" then some JobState.JOB_KILLED
  else if name = "JOB_UNRUNNABLE" then some JobState.JOB_UNRUNNABLE
  else if name = "JOB_CREATED" then some JobState.JOB_CREATED
  else if name = "JOB_STARTING" then some JobState.JOB_STARTING
  else if name = "JOB_RUNNING" then some JobState.JOB_RUNNING
  else if name = "JOB_EGRESSING" then some JobState.JOB_EGRESSING
  else if name = "JOB_FINISHING" then some JobState.JOB_FINISHING
  else none

/-! ## Pipeline inputs

The struct `Input` and the structs it points to are declared in generated
code that is not among the sources; the fields are those that `util.go` reads.
A pointer `*Input` is either `null` or a node; a slice `[]*Input` is either nil
(`none`) or a list. A visit changes nodes in place through the pointers it is
given; here it returns the changed tree. Two pointers to one node are not
modelled: an input is a tree. -/

/-- The struct `PFSInput`, with the fields that `util.go` reads. -/
structure PFSInput where
  Name : String
  Repo : String
  RepoType : String
  Branch : String
  deriving DecidableEq, Repr

/-- The struct `CronInput`, with the field that `util.go` reads. -/
structure CronInput where
  Repo : String
  deriving DecidableEq, Repr

/-- A pointer `*Input`: nil, or a node with the fields `Pfs`, `Cron`, `Cross`,
`Join`, `Group` and `Union`. -/
inductive Input where
  | null : Input
  | node (Pfs : Option PFSInput) (Cron : Option CronInput)
      (Cross Join Group Union : Option (List Input)) : Input

/-- The errors a visiting function returns, as `VisitInput` tells them apart:
`errutil.ErrBreak` itself, an error that wraps another, and any other error. -/
inductive Err where
  | ErrBreak
  | wrap (msg : String) (cause : Err)
  | other (msg : String)
  deriving DecidableEq, Repr

/-- `errors.Is(err, errutil.ErrBreak)`: whether `err` is `ErrBreak` or wraps
it. -/
def isErrBreak : Err → Bool
  | Err.ErrBreak => true
  | Err.wrap _ cause => isErrBreak cause
  | Err.other _ => false

/-- A visiting function `f func(*Input) error` over the state `σ` it captures:
it returns its error, the node as it left it, and the new state. -/
abbrev Visitor (σ : Type) := Input → σ → Option Err × Input × σ

mutual
/-- `visitInput(input, f)`: nil is not visited; otherwise the elements of the
first non-nil list among `Cross`, `Join`, `Group` and `Union` are visited in
order, the first error ending the visit, and then `f` is called on the node.
The result is the error, the tree as the visit left it, and the state. -/
def visitInput {σ : Type} (f : Visitor σ) : Input → σ → Option Err × Input × σ
  | Input.null, s => (none, Input.null, s)
  | Input.node pfs cron (some source) join group union, s =>
    match visitInputs f source s with
    | (some err, source2, s2) =>
      (some err, Input.node pfs cron (some source2) join group union, s2)
    | (none, source2, s2) => f (Input.node pfs cron (some source2) join group union) s2
  | Input.node pfs cron none (some source) group union, s =>
    match visitInputs f source s with
    | (some err, source2, s2) =>
      (some err, Input.node pfs cron none (some source2) group union, s2)
    | (none, source2, s2) => f (Input.node pfs cron none (some source2) group union) s2
  | Input.node pfs cron none none (some source) union, s =>
    match visitInputs f source s with
    | (some err, source2, s2) =>
      (some err, Input.node pfs cron none none (some source2) union, s2)
    | (none, source2, s2) => f (Input.node pfs cron none none (some source2) union) s2
  | Input.node pfs cron none none none (some source), s =>
    match visitInputs f source s with
    | (some err, source2, s2) =>
      (some err, Input.node pfs cron none none none (some source2), s2)
    | (none, source2, s2) => f (Input.node pfs cron none none none (some source2)) s2
  | Input.node pfs cron none none none none, s =>
    f (Input.node pfs cron none none none none) s
/-- The loop `for _, input := range source` of `visitInput`. -/
def visitInputs {σ : Type} (f : Visitor σ) :
    List Input → σ → Option Err × List Input × σ
  | [], s => (none, [], s)
  | x :: xs, s =>
    match visitInput f x s with
    | (some err, x2, s2) => (some err, x2 :: xs, s2)
    | (none, x2, s2) =>
      match visitInputs f xs s2 with
      | (r, xs2, s3) => (r, x2 :: xs2, s3)
end

/-- `VisitInput(input, f)`: the visit, with an error that is or wraps
`ErrBreak` turned into nil. -/
def VisitInput {σ : Type} (f : Visitor σ) (input : Input) (s : σ) :
    Option Err × Input × σ :=
  match visitInput f input s with
  | (some err, t, s2) => if isErrBreak err then (none, t, s2) else (some err, t, s2)
  | (none, t, s2) => (none, t, s2)

mutual
/-- `InputName(input)`: the empty string for nil; the name of `Pfs` when set;
otherwise the name of the first element of the first non-nil list among
`Cross`, `Join`, `Group` and `Union`, or the empty string when that list is
empty or none is set. -/
def InputName : Input → String
  | Input.null => ""
  | Input.node (some pfs) _ _ _ _ _ => pfs.Name
  | Input.node none _ (some cross) _ _ _ => InputNameFirst cross
  | Input.node none _ none (some join) _ _ => InputNameFirst join
  | Input.node none _ none none (some group) _ => InputNameFirst group
  | Input.node none _ none none none (some union) => InputNameFirst union
  | Input.node none _ none none none none => ""
/-- The name of `inputs[0]` when `len(inputs) > 0`, and the empty string
otherwise. -/
def InputNameFirst : List Input → String
  | [] => ""
  | x :: _ => InputName x
end

/-- `sort.SliceStable(inputs, less)` of the library: the stable sort, which
keeps the order of elements neither of which is less than the other. -/
def SliceStable {α : Type} (less : α → α → Bool) (l : List α) : List α :=
  l.insertionSort (fun a b => less b a = false)

/-- The closure `SortInputs` of `SortInput`: the stable sort by
`InputName(inputs[i]) < InputName(inputs[j])`. -/
def SortInputs (inputs : List Input) : List Input :=
  SliceStable (fun a b => decide (InputName a < InputName b)) inputs

/-- The function that `SortInput` passes to `VisitInput`: it sorts the first
non-nil list among `Cross`, `Join`, `Group` and `Union` of the node and
returns nil. -/
def sortVisitor : Visitor Unit
  | Input.null, s => (none, Input.null, s)
  | Input.node pfs cron (some cross) join group union, s =>
    (none, Input.node pfs cron (some (SortInputs cross)) join group union, s)
  | Input.node pfs cron none (some join) group union, s =>
    (none, Input.node pfs cron none (some (SortInputs join)) group union, s)
  | Input.node pfs cron none none (some group) union, s =>
    (none, Input.node pfs cron none none (some (SortInputs group)) union, s)
  | Input.node pfs cron none none none (some union), s =>
    (none, Input.node pfs cron none none none (some (SortInputs union)), s)
  | Input.node pfs cron none none none none, s =>
    (none, Input.node pfs cron none none none none, s)

/-- `SortInput(input)`: the input after `VisitInput` with the sorting
function. -/
def SortInput (input : Input) : Input :=
  (VisitInput sortVisitor input ()).2.1

/-- A visiting function that reads the node and changes only its own state. -/
def readOnly {σ : Type} (g : Input → σ → Option Err × σ) : Visitor σ :=
  fun n s => ((g n s).1, n, (g n s).2)

/-! ### The order of a visit, in the words of the specification -/

mutual
/-- The non-nil nodes reachable from an input through the `Cross`, `Join`,
`Group` and `Union` lists, in post-order: the elements of a list from left to
right, each node after all its descendants, the root last. -/
def Input.postOrder : Input → List Input
  | Input.null => []
  | Input.node pfs cron cross join group union =>
    postOrderSlice cross ++ postOrderSlice join ++ postOrderSlice group
      ++ postOrderSlice union ++ [Input.node pfs cron cross join group union]
/-- The post-order of the elements of a slice; a nil slice has none. -/
def postOrderSlice : Option (List Input) → List Input
  | none => []
  | some l => postOrderList l
/-- The post-order of the elements of a list, from left to right. -/
def postOrderList : List Input → List Input
  | [] => []
  | x :: xs => x.postOrder ++ postOrderList xs
end

mutual
/-- Whether every node of an input has at most one of the four lists set. -/
def Input.oneList : Input → Bool
  | Input.null => true
  | Input.node _ _ cross join group union =>
    decide (cross.isSome.toNat + join.isSome.toNat + group.isSome.toNat
      + union.isSome.toNat ≤ 1)
      && oneListSlice cross && oneListSlice join && oneListSlice group
      && oneListSlice union
/-- Whether every node below a slice has at most one of the four lists set. -/
def oneListSlice : Option (List Input) → Bool
  | none => true
  | some l => oneListList l
/-- Whether every node below a list has at most one of the four lists set. -/
def oneListList : List Input → Bool
  | [] => true
  | x :: xs => x.oneList && oneListList xs
end

/-- The calls of `g` on the nodes of a list in order, up to and including the
first that returns an error. -/
def runUntil {σ : Type} (g : Input → σ → Option Err × σ) :
    List Input → σ → Option Err × σ
  | [], s => (none, s)
  | n :: ns, s =>
    match g n s with
    | (some err, s2) => (some err, s2)
    | (none, s2) => runUntil g ns s2

/-- The list of children of a node: the one list that is set, when at most one
is. -/
def Input.children : Input → List Input
  | Input.null => []
  | Input.node _ _ cross join group union =>
    cross.getD [] ++ join.getD [] ++ group.getD [] ++ union.getD []

/-! ### Fixtures -/

/-- A `PFSInput` with the given name. -/
def pfsNamed (name : String) : Input :=
  Input.node (some { Name := name, Repo := name, RepoType := "user", Branch := "master" })
    none none none none none

/-- A cross of `b`, `a`, a nil pointer and a union of `d`, `c`. -/
def sampleInput : Input :=
  Input.node none none
    (some [pfsNamed "b", pfsNamed "a", Input.null,
      Input.node none none none none none (some [pfsNamed "d", pfsNamed "c"])])
    none none none

/-- A visiting function that records the name of each node and fails on the
node named `stopAt` with the error `err`. -/
def recordNames (stopAt : String) (err : Err) : Input → List String → Option Err × List String :=
  fun n log =>
    if InputName n = stopAt then (some err, log ++ [InputName n])
    else (none, log ++ [InputName n])

/-! ### `InputBranches` -/

/-- The struct `pfs.Repo`, with the fields that `InputBranches` sets (the
field `Type` is written `Type_`). -/
structure Repo where
  Name : String
  Type_ : String
  deriving DecidableEq, Repr

/-- The struct `pfs.Branch`, with the fields that `InputBranches` sets. -/
structure Branch where
  Repo : Repo
  Name : String
  deriving DecidableEq, Repr

/-- The function that `InputBranches` passes to `VisitInput`: it appends to
`result` the branch of `input.Pfs` when that is set, then the branch `master`
of the repo of `input.Cron` when that is set, and returns nil. The constant
`pfs.UserRepoType` is declared outside the sources and is a parameter. The
function reads the fields of its argument; what it would do with a nil
argument is left open as `onNil`. -/
def branchVisitor (UserRepoType : String)
    (onNil : List Branch → Option Err × Input × List Branch) : Visitor (List Branch)
  | Input.null, result => onNil result
  | Input.node pfs cron cross join group union, result =>
    let result1 :=
      match pfs with
      | some p => result ++ [{ Repo := { Name := p.Repo, Type_ := p.RepoType }, Name := p.Branch }]
      | none => result
    let result2 :=
      match cron with
      | some c => result1 ++ [{ Repo := { Name := c.Repo, Type_ := UserRepoType }, Name := "master" }]
      | none => result1
    (none, Input.node pfs cron cross join group union, result2)

/-- `InputBranches(input)`: the branches collected by a visit of `input`,
starting from the nil slice. -/
def InputBranches (UserRepoType : String)
    (onNil : List Branch → Option Err × Input × List Branch) (input : Input) : List Branch :=
  (VisitInput (branchVisitor UserRepoType onNil) input []).2.2

/-- A `CronInput` on the given repo. -/
def cronOn (repo : String) : Input :=
  Input.node none (some { Repo := repo }) none none none none

end Pps

/-! # Errors of `pkg/api/v1/auth` (`auth.go`) -/

namespace Auth

open Go

/-! ## The sentinel errors and their predicates -/

/-- `ErrNotActivated = status.Error(codes.Unimplemented, ...)`. -/
def ErrNotActivated : Status :=
  { code := "Unimplemented", message := "the auth service is not activated" }

/-- `ErrAlreadyActivated = status.Error(codes.Unimplemented, ...)`. -/
def ErrAlreadyActivated : Status :=
  { code := "Unimplemented", message := "the auth service is already activated" }

/-- `ErrNotSignedIn = status.Error(codes.Unauthenticated, ...)`. -/
def ErrNotSignedIn : Status :=
  { code := "Unauthenticated", message := "no authentication token (try logging in)" }

/-- `ErrNoMetadata = status.Error(codes.Internal, ...)`. -/
def ErrNoMetadata : Status :=
  { code := "Internal", message := "no authentication metadata (try logging in)" }

/-- `ErrBadToken = status.Error(codes.Unauthenticated, ...)`. -/
def ErrBadToken : Status :=
  { code := "Unauthenticated",
    message := "provided auth token is corrupted or has expired (try logging in again)" }

/-- `ErrExpiredToken = status.Error(codes.Internal, ...)`. -/
def ErrExpiredToken : Status :=
  { code := "Internal", message := "token expiration is in the past" }

/-- `IsErrAlreadyActivated(err)`: false for nil, otherwise whether `err.Error()`
contains the message of `ErrAlreadyActivated`. -/
def IsErrAlreadyActivated : Option GoError → Bool
  | none => false
  | some err => Contains err.Error ErrAlreadyActivated.Message

/-- `IsErrNotActivated(err)`: false for nil, otherwise whether `err.Error()`
contains the message of `ErrNotActivated`. -/
def IsErrNotActivated : Option GoError → Bool
  | none => false
  | some err => Contains err.Error ErrNotActivated.Message

/-- `IsErrNotSignedIn(err)`: false for nil, otherwise whether `err.Error()`
contains the message of `ErrNotSignedIn`. -/
def IsErrNotSignedIn : Option GoError → Bool
  | none => false
  | some err => Contains err.Error ErrNotSignedIn.Message

/-- `IsErrNoMetadata(err)`: false for nil, otherwise whether `err.Error()`
contains the message of `ErrNoMetadata`. -/
def IsErrNoMetadata : Option GoError → Bool
  | none => false
  | some err => Contains err.Error ErrNoMetadata.Message

/-- `IsErrBadToken(err)`: false for nil, otherwise whether `err.Error()`
contains the message of `ErrBadToken`. -/
def IsErrBadToken : Option GoError → Bool
  | none => false
  | some err => Contains err.Error ErrBadToken.Message

/-- `IsErrExpiredToken(err)`: false for nil, otherwise whether `err.Error()`
contains the message of `ErrExpiredToken`. -/
def IsErrExpiredToken : Option GoError → Bool
  | none => false
  | some err => Contains err.Error ErrExpiredToken.Message

/-- The six sentinels, each with its predicate. -/
def sentinelPredicates : List (Status × (Option GoError → Bool)) :=
  [(ErrNotActivated, IsErrNotActivated),
   (ErrAlreadyActivated, IsErrAlreadyActivated),
   (ErrNotSignedIn, IsErrNotSignedIn),
   (ErrNoMetadata, IsErrNoMetadata),
   (ErrBadToken, IsErrBadToken),
   (ErrExpiredToken, IsErrExpiredToken)]

/-- The helper `grpcify` of `auth_err_test.go`:
`errors.Errorf("rpc error: code = Unknown desc = %s", err.Error())`. -/
def grpcify (err : GoError) : GoError :=
  { Error := "rpc error: code = Unknown desc = " ++ err.Error }

/-! ## The structured errors and their predicates

The enums `ResourceType` and `Permission` are declared in generated code that
is not among the sources. The texts that `%v` prints for a resource type and
for a list of permissions are parameters, `showType` and `showPerms`. -/

/-- The struct `Resource`: a type (the field `Type`) and a name. -/
structure Resource (ResourceType : Type) where
  Type_ : ResourceType
  Name : String

/-- `const errNoRoleBindingMsg`. -/
def errNoRoleBindingMsg : String := "no role binding exists for"

/-- The struct `ErrNoRoleBinding`. -/
structure ErrNoRoleBinding (ResourceType : Type) where
  Resource : Resource ResourceType

/-- `func (e *ErrNoRoleBinding) Error()`:
`fmt.Sprintf("%v %v %v", errNoRoleBindingMsg, e.Resource.Type, e.Resource.Name)`. -/
def ErrNoRoleBinding.Error {ResourceType : Type} (showType : ResourceType → String)
    (e : ErrNoRoleBinding ResourceType) : String :=
  errNoRoleBindingMsg ++ " " ++ showType e.Resource.Type_ ++ " " ++ e.Resource.Name

/-- `IsErrNoRoleBinding(err)`. -/
def IsErrNoRoleBinding : Option GoError → Bool
  | none => false
  | some err => Contains err.Error errNoRoleBindingMsg

/-- The struct `ErrNotAuthorized`. -/
structure ErrNotAuthorized (ResourceType Permission : Type) where
  Subject : String
  Resource : Resource ResourceType
  Required : List Permission

/-- `const errNotAuthorizedMsg`. -/
def errNotAuthorizedMsg : String := "not authorized to perform this operation"

/-- `func (e *ErrNotAuthorized) Error()`: the `fmt.Sprintf` of the subject,
`errNotAuthorizedMsg`, the required permissions, and the type and name of the
resource. -/
def ErrNotAuthorized.Error {ResourceType Permission : Type}
    (showType : ResourceType → String) (showPerms : List Permission → String)
    (e : ErrNotAuthorized ResourceType Permission) : String :=
  e.Subject ++ " is " ++ errNotAuthorizedMsg ++ " - needs permissions "
    ++ showPerms e.Required ++ " on " ++ showType e.Resource.Type_ ++ " "
    ++ e.Resource.Name
    ++ ". Run `datactl auth roles-for-permission` to find roles that grant a given permission."

/-- `IsErrNotAuthorized(err)`. -/
def IsErrNotAuthorized : Option GoError → Bool
  | none => false
  | some err => Contains err.Error errNotAuthorizedMsg

/-- The struct `ErrInvalidPrincipal`. -/
structure ErrInvalidPrincipal where
  Principal : String

/-- `func (e *ErrInvalidPrincipal) Error()`. -/
def ErrInvalidPrincipal.Error (e : ErrInvalidPrincipal) : String :=
  "invalid principal \"" ++ e.Principal
    ++ "\"; must start with one of \"pipeline:\", \"github:\", or \"robot:\", or have no \":\""

/-- `IsErrInvalidPrincipal(err)`. -/
def IsErrInvalidPrincipal : Option GoError → Bool
  | none => false
  | some err =>
    Contains err.Error "invalid principal \"" &&
      Contains err.Error
        "\"; must start with one of \"pipeline:\", \"github:\", or \"robot:\", or have no \":\""

/-- The struct `ErrTooShortTTL`; the fields are `int64`. -/
structure ErrTooShortTTL where
  RequestTTL : Int
  ExistingTTL : Int

/-- `func (e ErrTooShortTTL) Error()`: `fmt.Sprintf(errTooShortTTLMsg, ...)`
with `errTooShortTTLMsg =
"provided TTL (%d) is shorter than token's existing TTL (%d)"`. -/
def ErrTooShortTTL.Error (e : ErrTooShortTTL) : String :=
  "provided TTL (" ++ toString e.RequestTTL ++ ") is shorter than token's existing TTL ("
    ++ toString e.ExistingTTL ++ ")"

/-- `IsErrTooShortTTL(err)`. -/
def IsErrTooShortTTL : Option GoError → Bool
  | none => false
  | some err =>
    Contains err.Error "provided TTL (" &&
      Contains err.Error ") is shorter than token's existing TTL (" &&
      Contains err.Error ")"

/-! ## `GetAuthToken`

The functions `errors.EnsureStack` and `errors.Errorf` belong to a package of
which the sources have `as.go` only; they are parameters. Both return a
non-nil error here: `EnsureStack` is given a non-nil error. -/

/-- The metadata `metadata.MD` of the gRPC library: a map from keys to lists
of values, in which an absent key gives the nil list. -/
abbrev MD := String → List String

/-- The constant `ContextTokenKey`. -/
def ContextTokenKey : String := "authn-token"

/-- `GetAuthToken(ctx)`, where `ctx` is embedded as what
`metadata.FromIncomingContext(ctx)` returns: `none` when `ok` is false, and
the metadata otherwise. The result is the token and the error. -/
def GetAuthToken (EnsureStack : GoError → GoError) (Errorf : String → GoError)
    (ctx : Option MD) : String × Option GoError :=
  match ctx with
  | none => ("", some (EnsureStack ErrNoMetadata.Err))
  | some md =>
    if (md ContextTokenKey).length > 1 then
      ("", some (Errorf "multiple authentication token keys found in context"))
    else if (md ContextTokenKey).length = 0 then
      ("", some (EnsureStack ErrNotSignedIn.Err))
    else ((md ContextTokenKey).headD "", none)

/-- Metadata with the given values under `authn-token` and nothing else. -/
def tokenMD (values : List String) : MD :=
  fun key => if key = ContextTokenKey then values else []

end Auth

/-! # `errors.As` of `pkg/internal/errors` (`as.go`)

`As` inspects its target through the library `reflect` and calls `As` of
`github.com/pkg/errors`, which is `errors.As` of the standard library. Types,
values and that library function are embedded as far as `as.go` and its tests
use them. A pointer is embedded by what it points to, so a store through a
pointer gives a new value of the target. The error types of the model have no
method `As` of their own. -/

namespace Errors

/-- A Go type: a named struct type, a pointer type, or a named interface
type. -/
inductive Ty where
  | named (name : String) : Ty
  | ptr (elem : Ty) : Ty
  | iface (name : String) : Ty
  deriving DecidableEq, Repr

/-- The kinds of `reflect.Kind` that occur. `Invalid` is the kind of the zero
`reflect.Value`. -/
inductive Kind where
  | Struct
  | Ptr
  | Interface
  | Invalid
  deriving DecidableEq, Repr

/-- `Type.Kind()`. -/
def Ty.Kind : Ty → Kind
  | Ty.named _ => Kind.Struct
  | Ty.ptr _ => Kind.Ptr
  | Ty.iface _ => Kind.Interface

/-- How a named struct type declares the method `Error() string`: with a value
receiver, with a pointer receiver, or not at all. -/
inductive Receiver where
  | value
  | pointer
  | absent
  deriving DecidableEq, Repr

/-- The declarations of a program that `As` consults through reflection: the
receiver of `Error` for each named struct type, whether the method set of an
interface type has `Error() string`, and whether a type implements an
interface type. -/
structure Decls where
  errorMethod : String → Receiver
  ifaceHasError : String → Bool
  implements : Ty → String → Bool

/-- `t.Implements(errorType)`: a struct type has the methods of its value
receivers; a pointer to a struct type has those of both receivers; a pointer
to any other type has none; an interface type has its own. -/
def Decls.implementsError (d : Decls) : Ty → Bool
  | Ty.named n => decide (d.errorMethod n = Receiver.value)
  | Ty.ptr (Ty.named n) => decide (d.errorMethod n ≠ Receiver.absent)
  | Ty.ptr _ => false
  | Ty.iface n => d.ifaceHasError n

/-- `from.AssignableTo(to)`: the types are identical, or `to` is an interface
type that `from` implements. -/
def Decls.assignable (d : Decls) (src dst : Ty) : Bool :=
  decide (src = dst) ||
    match dst with
    | Ty.iface n => d.implements src n
    | _ => false

/-- A Go value: a struct value of a named type with its field `val`; a nil
pointer and a pointer to a value, each with the type it points to; and the
content of a variable of interface type, nil or holding a value. -/
inductive Val where
  | obj (ty : String) (val : Int) : Val
  | nilPtr (elem : Ty) : Val
  | ref (elem : Ty) (pointee : Val) : Val
  | ifaceNil (name : String) : Val
  | ifaceOf (name : String) (dyn : Val) : Val
  deriving DecidableEq, Repr

/-- The type of a value; for the content of an interface variable, the type of
the variable. -/
def Val.Type_ : Val → Ty
  | Val.obj n _ => Ty.named n
  | Val.nilPtr e => Ty.ptr e
  | Val.ref e _ => Ty.ptr e
  | Val.ifaceNil n => Ty.iface n
  | Val.ifaceOf n _ => Ty.iface n

/-- The value that a variable of type `t` holds after `e` is assigned to it:
an interface variable holds `e` as its dynamic value. -/
def stored (t : Ty) (e : Val) : Val :=
  match t with
  | Ty.iface n => Val.ifaceOf n e
  | _ => e

/-- `errors.As(err, target)` of the standard library, for a non-nil `err`
whose chain of `Unwrap` is `err :: rest`. It panics (`none`) unless `target`
is a non-nil pointer to a type that is an interface or implements `error`.
Otherwise the first error of the chain whose type is assignable to the type
`target` points to is stored through `target` and the result is true; when
there is none the result is false and `target` is as before. -/
def stdAs (d : Decls) (err : Val) (rest : List Val) (target : Val) : Option (Bool × Val) :=
  match target with
  | Val.ref t _ =>
    if t.Kind ≠ Kind.Interface ∧ d.implementsError t = false then none
    else
      match (err :: rest).find? (fun e => d.assignable e.Type_ t) with
      | some e => some (true, Val.ref t (stored t e))
      | none => some (false, target)
  | _ => none

/-- `tryAs(err, targetVal)`: with `e = targetVal.Type().Elem()`, which panics
unless the type is a pointer type, the library `As` when `e` is an interface
type or implements `error`, and false otherwise. -/
def tryAs (d : Decls) (err : Val) (rest : List Val) (targetVal : Val) : Option (Bool × Val) :=
  match targetVal.Type_ with
  | Ty.ptr e =>
    if e.Kind = Kind.Interface ∨ d.implementsError e = true then stdAs d err rest targetVal
    else some (false, targetVal)
  | _ => none

/-- `v.Elem().Kind()` for a pointer `v`: the kind of what a non-nil pointer
points to, and `Invalid` for a nil pointer. -/
def Val.elemKind : Val → Kind
  | Val.ref _ pointee => pointee.Type_.Kind
  | _ => Kind.Invalid

/-- `As(err, target)` of `as.go`, for a non-nil `err`; `none` is a panic. The
result is the boolean and the target after the call.

For a target of kind `Ptr`: first, when the target points to a pointer,
`tryAs` on that inner pointer; then `tryAs` on a pointer `vp` to a new
variable of the type of the target, followed on success by
`v.Elem().Set(vp.Elem().Elem())`, which panics when `v` is a nil pointer or the
error stored in `vp` is one; at last `tryAs` on the target itself. A target
that is no pointer panics. -/
def As (d : Decls) (err : Val) (rest : List Val) (target : Val) : Option (Bool × Val) :=
  match target with
  | Val.ref t cur =>
    let nested : Option (Bool × Val) :=
      if target.elemKind = Kind.Ptr then tryAs d err rest cur else some (false, cur)
    match nested with
    | none => none
    | some (true, cur2) => some (true, Val.ref t cur2)
    | some (false, _) =>
      match tryAs d err rest (Val.ref (Ty.ptr t) (Val.nilPtr t)) with
      | none => none
      | some (true, Val.ref _ (Val.ref _ pointee)) => some (true, Val.ref t pointee)
      | some (true, _) => none
      | some (false, _) => tryAs d err rest target
  | Val.nilPtr t =>
    match tryAs d err rest (Val.ref (Ty.ptr t) (Val.nilPtr t)) with
    | none => none
    | some (true, _) => none
    | some (false, _) => tryAs d err rest target
  | _ => none

/-- The declarations of `errors_test.go`: `FooErr`, `ConcreteIntErr` and
`OtherErr` have `Error` with a value receiver, `PtrFooErr` and
`ConcretePtrIntErr` with a pointer receiver; the interface `IntErr` has
`Error`, and is implemented by `ConcreteIntErr`, by a pointer to it, and by a
pointer to `ConcretePtrIntErr`. -/
def testDecls : Decls where
  errorMethod := fun n =>
    if n = "FooErr" ∨ n = "ConcreteIntErr" ∨ n = "OtherErr" then Receiver.value
    else if n = "PtrFooErr" ∨ n = "ConcretePtrIntErr" then Receiver.pointer
    else Receiver.absent
  ifaceHasError := fun n => decide (n = "IntErr")
  implements := fun t n =>
    decide (n = "IntErr") &&
      (decide (t = Ty.named "ConcreteIntErr") || decide (t = Ty.ptr (Ty.named "ConcreteIntErr"))
        || decide (t = Ty.ptr (Ty.named "ConcretePtrIntErr")))

/-- The value `FooErr{n}`. -/
def fooErr (n : Int) : Val := Val.obj "FooErr" n

/-- A pointer `&T{...}` to a struct value. -/
def addrOf (v : Val) : Val := Val.ref v.Type_ v

/-- A variable `var p *T` that holds nil, for a named type `T`. -/
def nilOf (name : String) : Val := Val.nilPtr (Ty.named name)

end Errors

/-! # The version of `pkg/version` (`version.go`) -/

namespace VersionPkg

/-- The message `Version` of `version.pb.go`: the fields `Major`, `Minor` and
`Micro` (of type `uint32`) and `Additional`. -/
structure Version where
  Major : Nat
  Minor : Nat
  Micro : Nat
  Additional : String
  deriving DecidableEq, Repr

/-- The constant `MajorVersion`. -/
def MajorVersion : Int := 1

/-- The constant `MinorVersion`. -/
def MinorVersion : Int := 2

/-- The constant `MicroVersion`. -/
def MicroVersion : Int := 0

/-- `IsAtLeast(major, minor)`:
`MajorVersion > major || (MajorVersion == major && MinorVersion >= minor)`. -/
def IsAtLeast (major minor : Int) : Bool :=
  decide (MajorVersion > major)
    || (decide (MajorVersion = major) && decide (MinorVersion ≥ minor))

/-- The regular expressions of the library `regexp` that `version.go` writes:
a character class of ranges, as in `[0-9a-f]`, and a repetition `r{n}`. -/
inductive Regex where
  | cls (ranges : List (Char × Char)) : Regex
  | rep (r : Regex) (n : Nat) : Regex

/-- Whether a character is in one of the ranges of a class. -/
def inRanges (ranges : List (Char × Char)) (c : Char) : Bool :=
  ranges.any (fun r => decide (r.1 ≤ c) && decide (c ≤ r.2))

/-- The matches of `n` repetitions at the start of a text, given the matches
of one: the texts that remain after each. -/
def matchRep (one : List Char → List (List Char)) : Nat → List Char → List (List Char)
  | 0, s => [s]
  | n + 1, s => (one s).flatMap (fun rest => matchRep one n rest)

/-- The matches of a regular expression at the start of a text: the texts that
remain after each match. -/
def Regex.matchPrefix : Regex → List Char → List (List Char)
  | Regex.cls _, [] => []
  | Regex.cls ranges, c :: cs => if inRanges ranges c then [cs] else []
  | Regex.rep r n, s => matchRep r.matchPrefix n s

/-- `re.MatchString(s)` of the library `regexp`: whether the expression matches
at some position of `s`. -/
def Regex.MatchString (re : Regex) (s : String) : Bool :=
  s.data.tails.any (fun t => !(re.matchPrefix t).isEmpty)

/-- `customReleaseRegex = regexp.MustCompile("[0-9a-f]{40}")`. -/
def customReleaseRegex : Regex :=
  Regex.rep (Regex.cls [('0', '9'), ('a', 'f')]) 40

/-- `IsCustomRelease(version)`, for a non-nil `version`: whether
`version.Additional` is not empty and `customReleaseRegex` matches in it. -/
def IsCustomRelease (version : Version) : Bool :=
  if version.Additional ≠ "" ∧ customReleaseRegex.MatchString version.Additional = true then true
  else false

/-- A character of `[0-9a-f]`: a digit or a lower-case letter from `a` to
`f`. -/
def isLowerHex (c : Char) : Bool :=
  (decide ('0' ≤ c) && decide (c ≤ '9')) || (decide ('a' ≤ c) && decide (c ≤ 'f'))

/-- A commit hash: forty characters of `[0-9a-f]`. -/
def sampleHash : String := "0123456789abcdef0123456789abcdef01234567"

/-- The same forty characters in upper case. -/
def sampleUpperHash : String := "0123456789ABCDEF0123456789ABCDEF01234567"

end VersionPkg

/-! # Theorems -/

namespace Backoff

/-! ## The policies of `backoff.go` -/

theorem Time.Sub_of_fits (t u : Time) (hlo : minDuration ≤ t - u)
    (hhi : t - u ≤ maxDuration) : Time.Sub t u = t - u := by
  unfold Time.Sub
  rw [if_neg (not_lt.mpr hhi), if_neg (not_lt.mpr hlo)]

theorem Time.Sub_le_max (t u : Time) : Time.Sub t u ≤ maxDuration := by
  unfold Time.Sub
  split_ifs with h1 h2
  · exact le_refl _
  · unfold minDuration maxDuration; decide
  · exact not_lt.mp h1

/-- C1: a `ConstantBackOff` with `MaxElapsedTime = M > 0` that was last reset at
`t0` answers a `NextBackOff` made at clock reading `now` as follows, where the
elapsed time is what `GetElapsedTime` measures, `time.Since(startTime)`: it
returns `Interval` whenever the elapsed time is at most `M` (equality included)
and `Stop` whenever it is greater than `M`. The elapsed time is the saturating
difference `now - t0`, which is `now - t0` itself whenever that fits in a
`Duration`. -/
theorem constant_nextBackOff_elapsed (b : ConstantBackOff) (t0 now : Time)
    (hM : 0 < b.MaxElapsedTime) :
    ((b.Reset t0).GetElapsedTime now ≤ b.MaxElapsedTime →
        (b.Reset t0).NextBackOff now = b.Interval) ∧
    ((b.Reset t0).GetElapsedTime now > b.MaxElapsedTime →
        (b.Reset t0).NextBackOff now = Stop) ∧
    (b.Reset t0).GetElapsedTime now = Time.Sub now t0 ∧
    (minDuration ≤ now - t0 → now - t0 ≤ maxDuration →
        (b.Reset t0).GetElapsedTime now = now - t0) ∧
    Stop = -1 := by
  refine ⟨?_, ?_, rfl, Time.Sub_of_fits now t0, rfl⟩
  · intro hle
    unfold ConstantBackOff.NextBackOff
    have h : ¬ ((b.Reset t0).MaxElapsedTime ≠ 0 ∧
        (b.Reset t0).GetElapsedTime now > (b.Reset t0).MaxElapsedTime) := by
      rintro ⟨-, hgt⟩
      exact absurd hgt (not_lt.mpr hle)
    rw [if_neg h]
    rfl
  · intro hgt
    unfold ConstantBackOff.NextBackOff
    have h : (b.Reset t0).MaxElapsedTime ≠ 0 ∧
        (b.Reset t0).GetElapsedTime now > (b.Reset t0).MaxElapsedTime :=
      ⟨ne_of_gt hM, hgt⟩
    rw [if_pos h]

/-- Witness of C1: `RetryEvery(1s).For(9s)`, reset at the wall clock of
2026-11-03 and consulted exactly 9 s and then 9 s + 1 ns later. -/
theorem constant_nextBackOff_elapsed_witness :
    (((RetryEvery Second).For (9 * Second)).Reset wallClock2026).NextBackOff
        (wallClock2026 + 9 * Second) = Second ∧
    (((RetryEvery Second).For (9 * Second)).Reset wallClock2026).NextBackOff
        (wallClock2026 + 9 * Second + 1) = Stop :=
  ⟨(constant_nextBackOff_elapsed ((RetryEvery Second).For (9 * Second)) wallClock2026
      (wallClock2026 + 9 * Second) (by decide)).1 (by decide),
   (constant_nextBackOff_elapsed ((RetryEvery Second).For (9 * Second)) wallClock2026
      (wallClock2026 + 9 * Second + 1) (by decide)).2.1 (by decide)⟩

theorem constant_nextC_fields (s : ConstantBackOff × SysClock) :
    (ConstantBackOff.nextC s).2.1 = s.1 := by
  unfold ConstantBackOff.nextC
  split_ifs <;> rfl

theorem constant_nextC_unbounded (s : ConstantBackOff × SysClock)
    (hM : s.1.MaxElapsedTime = 0) : ConstantBackOff.nextC s = (s.1.Interval, s) := by
  unfold ConstantBackOff.nextC
  rw [if_neg (not_not.mpr hM)]

theorem constant_exec_fields (calls : List Call) :
    ∀ s : ConstantBackOff × SysClock,
      (ConstantBackOff.policy.exec s calls).1.1.Interval = s.1.Interval ∧
      (ConstantBackOff.policy.exec s calls).1.1.MaxElapsedTime = s.1.MaxElapsedTime := by
  induction calls with
  | nil => intro s; exact ⟨rfl, rfl⟩
  | cons c cs ih =>
    intro s
    cases c with
    | next =>
      have h := ih (ConstantBackOff.nextC s).2
      rw [constant_nextC_fields] at h
      exact h
    | reset => exact ih (ConstantBackOff.resetC s)

theorem constant_exec_unbounded (calls : List Call) :
    ∀ s : ConstantBackOff × SysClock, s.1.MaxElapsedTime = 0 →
      ∀ x ∈ (ConstantBackOff.policy.exec s calls).2, x = s.1.Interval := by
  induction calls with
  | nil => intro s _ x hx; cases hx
  | cons c cs ih =>
    intro s hM x hx
    cases c with
    | next =>
      have hstep : ConstantBackOff.policy.exec s (Call.next :: cs) =
          ((ConstantBackOff.policy.exec (ConstantBackOff.nextC s).2 cs).1,
            (ConstantBackOff.nextC s).1 ::
              (ConstantBackOff.policy.exec (ConstantBackOff.nextC s).2 cs).2) := rfl
      rw [hstep, constant_nextC_unbounded s hM] at hx
      rcases List.mem_cons.mp hx with h | h
      · exact h
      · exact ih s hM x h
    | reset => exact ih (ConstantBackOff.resetC s) hM x hx

/-- C2: a `ConstantBackOff` with `MaxElapsedTime = 0` and `Interval = d ≥ 0`,
after any sequence of `NextBackOff` and `Reset` calls under any clock, returns
exactly `d` from `NextBackOff`: every value returned during the sequence is
`d`, the next call returns `d`, a call at any clock reading whatever returns
`d`, and `d` is not `Stop`. -/
theorem constant_unbounded_returns_interval (b : ConstantBackOff) (c : SysClock)
    (d : Duration) (calls : List Call) (hd : 0 ≤ d) (hI : b.Interval = d)
    (hM : b.MaxElapsedTime = 0) :
    (∀ x ∈ (ConstantBackOff.policy.exec (b, c) calls).2, x = d) ∧
    (ConstantBackOff.policy.NextBackOff (ConstantBackOff.policy.exec (b, c) calls).1).1 = d ∧
    (∀ now : Time, (ConstantBackOff.policy.exec (b, c) calls).1.1.NextBackOff now = d) ∧
    d ≠ Stop := by
  have hf := constant_exec_fields calls (b, c)
  have hM2 : (ConstantBackOff.policy.exec (b, c) calls).1.1.MaxElapsedTime = 0 :=
    hf.2.trans hM
  have hI2 : (ConstantBackOff.policy.exec (b, c) calls).1.1.Interval = d :=
    hf.1.trans hI
  refine ⟨?_, ?_, ?_, ?_⟩
  · intro x hx
    exact (constant_exec_unbounded calls (b, c) hM x hx).trans hI
  · show (ConstantBackOff.nextC (ConstantBackOff.policy.exec (b, c) calls).1).1 = d
    rw [constant_nextC_unbounded _ hM2]
    exact hI2
  · intro now
    unfold ConstantBackOff.NextBackOff
    have h : ¬ ((ConstantBackOff.policy.exec (b, c) calls).1.1.MaxElapsedTime ≠ 0 ∧
        (ConstantBackOff.policy.exec (b, c) calls).1.1.GetElapsedTime now >
          (ConstantBackOff.policy.exec (b, c) calls).1.1.MaxElapsedTime) := by
      rintro ⟨h0, -⟩
      exact h0 hM2
    rw [if_neg h]
    exact hI2
  · intro h
    rw [h] at hd
    exact absurd hd (by decide)

/-- Witness of C2: `NewConstantBackOff(time.Second)` of `TestConstantBackOff`,
under a clock that jumps by a thousand years per reading, consulted after two
calls of `NextBackOff`, a `Reset` and another `NextBackOff`. -/
theorem constant_unbounded_returns_interval_witness :
    (ConstantBackOff.policy.NextBackOff
      (ConstantBackOff.policy.exec
        (NewConstantBackOff Second, ⟨fun n => (n : Int) * (31536000000 * Second), 0⟩)
        [Call.next, Call.next, Call.reset, Call.next]).1).1 = Second :=
  (constant_unbounded_returns_interval (NewConstantBackOff Second)
    ⟨fun n => (n : Int) * (31536000000 * Second), 0⟩ Second
    [Call.next, Call.next, Call.reset, Call.next] (by decide) rfl rfl).2.1

/-- C3, evaluated on the code: `NewConstantBackOff(1s).For(9s)` leaves
`startTime` at the zero `time.Time`, so a fresh policy consulted at the wall
clock of 2026-11-03 measures an elapsed time of the largest duration and
returns `Stop`, whereas the same policy after `Reset()` at that instant,
consulted one second later (and the fresh one too), returns the interval: the
state after `Reset` is not the state after construction, and the `NextBackOff`
sequences differ. -/
theorem constant_reset_is_not_fresh :
    ((NewConstantBackOff Second).For (9 * Second)).startTime = zeroTime ∧
    (((NewConstantBackOff Second).For (9 * Second)).Reset wallClock2026).startTime
      = wallClock2026 ∧
    ((NewConstantBackOff Second).For (9 * Second)).Reset wallClock2026
      ≠ (NewConstantBackOff Second).For (9 * Second) ∧
    ((NewConstantBackOff Second).For (9 * Second)).GetElapsedTime wallClock2026
      = maxDuration ∧
    ((NewConstantBackOff Second).For (9 * Second)).NextBackOff wallClock2026 = Stop ∧
    ((NewConstantBackOff Second).For (9 * Second)).NextBackOff (wallClock2026 + Second)
      = Stop ∧
    (((NewConstantBackOff Second).For (9 * Second)).Reset wallClock2026).NextBackOff
      (wallClock2026 + Second) = Second := by
  refine ⟨rfl, rfl, by decide, by decide, by decide, by decide, by decide⟩

theorem zero_exec (calls : List Call) :
    ∀ b : ZeroBackOff, ∀ x ∈ (ZeroBackOff.policy.exec b calls).2, x = 0 := by
  induction calls with
  | nil => intro b x hx; cases hx
  | cons c cs ih =>
    intro b x hx
    cases c with
    | next =>
      rcases List.mem_cons.mp hx with h | h
      · exact h
      · exact ih b x h
    | reset => exact ih b x hx

theorem stop_exec (calls : List Call) :
    ∀ b : StopBackOff, ∀ x ∈ (StopBackOff.policy.exec b calls).2, x = Stop := by
  induction calls with
  | nil => intro b x hx; cases hx
  | cons c cs ih =>
    intro b x hx
    cases c with
    | next =>
      rcases List.mem_cons.mp hx with h | h
      · exact h
      · exact ih b x h
    | reset => exact ih b x hx

/-- C4: for `ZeroBackOff`, after any sequence of `NextBackOff` and `Reset`
calls, `NextBackOff` returns 0, and every `NextBackOff` of the sequence
returned 0. -/
theorem zero_nextBackOff_always_zero (b : ZeroBackOff) (calls : List Call) :
    (ZeroBackOff.policy.NextBackOff (ZeroBackOff.policy.exec b calls).1).1 = 0 ∧
    (∀ x ∈ (ZeroBackOff.policy.exec b calls).2, x = 0) :=
  ⟨rfl, zero_exec calls b⟩

/-- C5: for `StopBackOff`, after any sequence of `NextBackOff` and `Reset`
calls, `NextBackOff` returns `Stop`, and every `NextBackOff` of the sequence
returned `Stop`; `Stop` is the constant -1 and differs from every non-negative
duration. -/
theorem stop_nextBackOff_always_stop (b : StopBackOff) (calls : List Call) :
    (StopBackOff.policy.NextBackOff (StopBackOff.policy.exec b calls).1).1 = Stop ∧
    (∀ x ∈ (StopBackOff.policy.exec b calls).2, x = Stop) ∧
    Stop = -1 ∧
    (∀ d : Duration, 0 ≤ d → d ≠ Stop) := by
  refine ⟨rfl, stop_exec calls b, rfl, ?_⟩
  intro d hd h
  rw [h] at hd
  exact absurd hd (by decide)

/-! ## One round of the retry loop -/

section Rounds

variable {ω σ : Type} (operation : Operation ω) (b : BackOff σ)

theorem retryLoop_nil (notify : Option (Notify ω)) (fuel : Nat) (w : ω) (s : σ)
    (h : (operation w).1 = none) :
    retryLoop operation b notify (fuel + 1) w s
      = some ⟨none, (operation w).2, s, [Event.op none]⟩ := by
  rcases hop : operation w with ⟨r, w1⟩
  rw [hop] at h
  simp only at h
  subst h
  simp only [retryLoop, hop]

theorem retryLoop_continue (notify : Option (Notify ω)) (fuel : Nat) (w : ω) (s : σ)
    (h : (operation w).1 = some Error.ErrContinue) :
    retryLoop operation b notify (fuel + 1) w s
      = (retryLoop operation b notify fuel (operation w).2 (b.Reset s)).map
          (Outcome.after [Event.op (some Error.ErrContinue), Event.reset]) := by
  rcases hop : operation w with ⟨r, w1⟩
  rw [hop] at h
  simp only at h
  subst h
  simp only [retryLoop, hop]

theorem retryLoop_stop (notify : Option (Notify ω)) (fuel : Nat) (w : ω) (s : σ)
    (m : String) (h : (operation w).1 = some (Error.other m))
    (hs : (b.NextBackOff s).1 = Stop) :
    retryLoop operation b notify (fuel + 1) w s
      = some ⟨some (Error.other m), (operation w).2, (b.NextBackOff s).2,
          [Event.op (some (Error.other m)), Event.next (b.NextBackOff s).1]⟩ := by
  rcases hop : operation w with ⟨r, w1⟩
  rw [hop] at h
  simp only at h
  subst h
  simp only [retryLoop, hop, hs, if_true]

theorem retryLoop_sleep (fuel : Nat) (w : ω) (s : σ)
    (m : String) (h : (operation w).1 = some (Error.other m))
    (hs : (b.NextBackOff s).1 ≠ Stop) :
    retryLoop operation b none (fuel + 1) w s
      = (retryLoop operation b none fuel (operation w).2 (b.NextBackOff s).2).map
          (Outcome.after [Event.op (some (Error.other m)),
            Event.next (b.NextBackOff s).1, Event.sleep (b.NextBackOff s).1]) := by
  rcases hop : operation w with ⟨r, w1⟩
  rw [hop] at h
  simp only at h
  subst h
  simp only [retryLoop, hop, if_neg hs]

theorem retryLoop_veto (n : Notify ω) (fuel : Nat) (w : ω) (s : σ)
    (m : String) (e2 : Error) (h : (operation w).1 = some (Error.other m))
    (hs : (b.NextBackOff s).1 ≠ Stop)
    (hn : (n (Error.other m) (b.NextBackOff s).1 (operation w).2).1 = some e2) :
    retryLoop operation b (some n) (fuel + 1) w s
      = some ⟨some e2, (n (Error.other m) (b.NextBackOff s).1 (operation w).2).2,
          (b.NextBackOff s).2,
          [Event.op (some (Error.other m)), Event.next (b.NextBackOff s).1,
            Event.notify (Error.other m) (b.NextBackOff s).1 (some e2)]⟩ := by
  rcases hop : operation w with ⟨r, w1⟩
  rw [hop] at h hn
  simp only at h hn
  subst h
  rcases hnn : n (Error.other m) (b.NextBackOff s).1 w1 with ⟨r2, w2⟩
  rw [hnn] at hn
  simp only at hn
  subst hn
  simp only [retryLoop, hop, if_neg hs, hnn]

theorem retryLoop_notified (n : Notify ω) (fuel : Nat) (w : ω) (s : σ)
    (m : String) (h : (operation w).1 = some (Error.other m))
    (hs : (b.NextBackOff s).1 ≠ Stop)
    (hn : (n (Error.other m) (b.NextBackOff s).1 (operation w).2).1 = none) :
    retryLoop operation b (some n) (fuel + 1) w s
      = (retryLoop operation b (some n) fuel
            (n (Error.other m) (b.NextBackOff s).1 (operation w).2).2
            (b.NextBackOff s).2).map
          (Outcome.after [Event.op (some (Error.other m)),
            Event.next (b.NextBackOff s).1,
            Event.notify (Error.other m) (b.NextBackOff s).1 none,
            Event.sleep (b.NextBackOff s).1]) := by
  rcases hop : operation w with ⟨r, w1⟩
  rw [hop] at h hn
  simp only at h hn
  subst h
  rcases hnn : n (Error.other m) (b.NextBackOff s).1 w1 with ⟨r2, w2⟩
  rw [hnn] at hn
  simp only at hn
  subst hn
  simp only [retryLoop, hop, if_neg hs, hnn]

end Rounds

/-! ## Counting in traces -/

theorem opCount_append (xs ys : List Event) :
    opCount (xs ++ ys) = opCount xs + opCount ys := by
  induction xs with
  | nil => simp [opCount]
  | cons x xs ih =>
    have hx : opCount (x :: (xs ++ ys)) + opCount xs
        = opCount (x :: xs) + opCount (xs ++ ys) := by
      cases x <;> simp only [opCount] <;> omega
    rw [List.cons_append]
    omega

theorem notifyCount_append (xs ys : List Event) :
    notifyCount (xs ++ ys) = notifyCount xs + notifyCount ys := by
  induction xs with
  | nil => simp [notifyCount]
  | cons x xs ih =>
    have hx : notifyCount (x :: (xs ++ ys)) + notifyCount xs
        = notifyCount (x :: xs) + notifyCount (xs ++ ys) := by
      cases x <;> simp only [notifyCount] <;> omega
    rw [List.cons_append]
    omega

theorem sleeps_append (xs ys : List Event) :
    sleeps (xs ++ ys) = sleeps xs ++ sleeps ys := by
  induction xs with
  | nil => simp [sleeps]
  | cons x xs ih => cases x <;> simp [sleeps, ih]

theorem nexts_length {σ : Type} (b : BackOff σ) (k : Nat) :
    ∀ s : σ, (b.nexts s k).length = k := by
  induction k with
  | zero => intro s; rfl
  | succ k ih => intro s; simp [BackOff.nexts, ih]

section Counting

variable {ω σ : Type} (operation : Operation ω) (b : BackOff σ)

theorem opCount_failRounds (k : Nat) :
    ∀ (w : ω) (s : σ), opCount (failRounds operation b w s k) = k := by
  induction k with
  | zero => intro w s; rfl
  | succ k ih => intro w s; simp [failRounds, opCount, ih]

theorem notifyCount_failRounds (k : Nat) :
    ∀ (w : ω) (s : σ), notifyCount (failRounds operation b w s k) = 0 := by
  induction k with
  | zero => intro w s; rfl
  | succ k ih => intro w s; simp [failRounds, notifyCount, ih]

theorem sleeps_failRounds (k : Nat) :
    ∀ (w : ω) (s : σ), sleeps (failRounds operation b w s k) = b.nexts s k := by
  induction k with
  | zero => intro w s; rfl
  | succ k ih => intro w s; simp [failRounds, sleeps, BackOff.nexts, ih]

end Counting

theorem opCount_contRounds (n : Nat) : opCount (contRounds n) = n := by
  induction n with
  | zero => rfl
  | succ n ih => simp [contRounds, opCount, ih]

theorem notifyCount_contRounds (n : Nat) : notifyCount (contRounds n) = 0 := by
  induction n with
  | zero => rfl
  | succ n ih => simp [contRounds, notifyCount, ih]

theorem sleeps_contRounds (n : Nat) : sleeps (contRounds n) = [] := by
  induction n with
  | zero => rfl
  | succ n ih => simp [contRounds, sleeps, ih]

/-! ## Several rounds of the retry loop -/

theorem isFailure_eq_true (r : Option Error) (h : isFailure r = true) :
    ∃ m, r = some (Error.other m) := by
  cases r with
  | none => simp [isFailure] at h
  | some e =>
    cases e with
    | ErrContinue => simp [isFailure] at h
    | other m => exact ⟨m, rfl⟩

theorem Outcome.after_nil {ω σ : Type} (o : Outcome ω σ) : Outcome.after [] o = o := rfl

theorem Outcome.after_after {ω σ : Type} (xs ys : List Event) (o : Outcome ω σ) :
    Outcome.after xs (Outcome.after ys o) = Outcome.after (xs ++ ys) o := by
  simp [Outcome.after, List.append_assoc]

theorem Outcome.map_after_after {ω σ : Type} (xs ys : List Event)
    (r : Option (Outcome ω σ)) :
    (r.map (Outcome.after ys)).map (Outcome.after xs) = r.map (Outcome.after (xs ++ ys)) := by
  cases r with
  | none => rfl
  | some o => simp [Outcome.after_after]

section Several

variable {ω σ : Type} (operation : Operation ω) (b : BackOff σ)

theorem opState_succ (w : ω) (i : Nat) :
    opState operation w (i + 1) = opState operation (operation w).2 i :=
  Function.iterate_succ_apply _ _ _

theorem opState_succ_last (w : ω) (i : Nat) :
    opState operation w (i + 1) = (operation (opState operation w i)).2 :=
  Function.iterate_succ_apply' _ _ _

theorem opResult_succ (w : ω) (i : Nat) :
    opResult operation w (i + 1) = opResult operation (operation w).2 i := by
  unfold opResult
  rw [opState_succ]

theorem nextState_succ (s : σ) (i : Nat) :
    b.nextState s (i + 1) = b.nextState (b.NextBackOff s).2 i :=
  Function.iterate_succ_apply _ _ _

theorem nextState_succ_last (s : σ) (i : Nat) :
    b.nextState s (i + 1) = (b.NextBackOff (b.nextState s i)).2 :=
  Function.iterate_succ_apply' _ _ _

theorem nextResult_succ (s : σ) (i : Nat) :
    b.nextResult s (i + 1) = b.nextResult (b.NextBackOff s).2 i := by
  unfold BackOff.nextResult
  rw [nextState_succ]

/-- While the operation fails and the policy does not stop, the loop without a
notify function goes round: `k` rounds use `k` units of fuel. -/
theorem retryLoop_failRounds (k : Nat) :
    ∀ (w : ω) (s : σ),
      (∀ i < k, isFailure (opResult operation w i) = true) →
      (∀ i < k, b.nextResult s i ≠ Stop) →
      ∀ fuel : Nat,
        retryLoop operation b none (k + fuel) w s
          = (retryLoop operation b none fuel (opState operation w k)
                (b.nextState s k)).map
              (Outcome.after (failRounds operation b w s k)) := by
  induction k with
  | zero =>
    intro w s _ _ fuel
    rw [Nat.zero_add]
    change retryLoop operation b none fuel w s
      = (retryLoop operation b none fuel w s).map (Outcome.after [])
    cases retryLoop operation b none fuel w s <;> rfl
  | succ k ih =>
    intro w s hfail hgo fuel
    obtain ⟨m, hm⟩ := isFailure_eq_true _ (hfail 0 (Nat.succ_pos k))
    have hs : (b.NextBackOff s).1 ≠ Stop := hgo 0 (Nat.succ_pos k)
    have hfail2 : ∀ i < k, isFailure (opResult operation (operation w).2 i) = true := by
      intro i hi
      rw [← opResult_succ]
      exact hfail (i + 1) (Nat.succ_lt_succ hi)
    have hgo2 : ∀ i < k, b.nextResult (b.NextBackOff s).2 i ≠ Stop := by
      intro i hi
      rw [← nextResult_succ]
      exact hgo (i + 1) (Nat.succ_lt_succ hi)
    have hfuel : k + 1 + fuel = (k + fuel) + 1 := by omega
    have hm2 : (operation w).1 = some (Error.other m) := hm
    rw [hfuel, retryLoop_sleep operation b (k + fuel) w s m hm2 hs,
      ih (operation w).2 (b.NextBackOff s).2 hfail2 hgo2 fuel,
      Outcome.map_after_after, opState_succ, nextState_succ]
    simp only [failRounds, hm2]

end Several

/-! ## `Retry` -/

/-- C6: let the operation fail (return an error other than the Continue
sentinel) on its first `k` invocations and return nil on invocation `k + 1`,
and let the policy not return `Stop` on the first `k` calls of `NextBackOff`
of the drive. Then `Retry`, given room for `k + 1` invocations or more,
returns, its result is nil, and its trace has exactly `k + 1` invocations of
the operation; the caller's state is the one after `k + 1` invocations, and
the loop slept once after each failure, for the durations the policy
returned. -/
theorem retry_succeeds_after_failures {ω σ : Type} (operation : Operation ω)
    (b : BackOff σ) (w : ω) (s : σ) (k fuel : Nat)
    (hfail : ∀ i < k, isFailure (opResult operation w i) = true)
    (hok : opResult operation w k = none)
    (hgo : ∀ i < k, b.nextResult (b.Reset s) i ≠ Stop)
    (hfuel : k + 1 ≤ fuel) :
    ∃ o, Retry operation b fuel w s = some o ∧ o.err = none ∧
      opCount o.trace = k + 1 ∧
      o.caller = opState operation w (k + 1) ∧
      sleeps o.trace = b.nexts (b.Reset s) k := by
  obtain ⟨n, rfl⟩ : ∃ n, fuel = k + (n + 1) := ⟨fuel - k - 1, by omega⟩
  unfold Retry RetryNotify
  rw [retryLoop_failRounds operation b k w (b.Reset s) hfail hgo (n + 1),
    retryLoop_nil operation b none n _ _ hok]
  refine ⟨_, rfl, rfl, ?_, ?_, ?_⟩
  · simp [Outcome.after, opCount, opCount_append, opCount_failRounds]
  · exact (opState_succ_last operation w k).symm
  · simp [Outcome.after, sleeps, sleeps_append, sleeps_failRounds]

/-- Witness of C6: the operation of `TestRetry`, which fails twice and succeeds
on the third call, under `ZeroBackOff`: nil after exactly 3 invocations. -/
theorem retry_succeeds_after_failures_witness :
    ∃ o, Retry testRetryOp ZeroBackOff.policy 3 0 {} = some o ∧ o.err = none ∧
      opCount o.trace = 2 + 1 ∧
      o.caller = opState testRetryOp 0 (2 + 1) ∧
      sleeps o.trace = ZeroBackOff.policy.nexts (ZeroBackOff.policy.Reset {}) 2 :=
  retry_succeeds_after_failures testRetryOp ZeroBackOff.policy 0 {} 2 3
    (by decide) (by decide) (by decide) (by decide)

/-- C7: let the operation fail (return an error other than the Continue
sentinel) on its first `j + 1` invocations, and let call `j + 1` of
`NextBackOff` in the drive be the first that returns `Stop`. Then `Retry`,
given room for `j + 1` invocations or more, returns the very error of
invocation `j + 1`, its trace has exactly `j + 1` invocations of the
operation and no notify call, and it slept exactly `j` times, for the
durations the policy returned: with `j = 0` it never slept. -/
theorem retry_returns_last_error_on_stop {ω σ : Type} (operation : Operation ω)
    (b : BackOff σ) (w : ω) (s : σ) (j fuel : Nat)
    (hfail : ∀ i < j + 1, isFailure (opResult operation w i) = true)
    (hgo : ∀ i < j, b.nextResult (b.Reset s) i ≠ Stop)
    (hstop : b.nextResult (b.Reset s) j = Stop)
    (hfuel : j + 1 ≤ fuel) :
    ∃ o, Retry operation b fuel w s = some o ∧
      o.err = opResult operation w j ∧ isFailure o.err = true ∧
      opCount o.trace = j + 1 ∧
      notifyCount o.trace = 0 ∧
      sleeps o.trace = b.nexts (b.Reset s) j ∧
      (sleeps o.trace).length = j ∧
      (j = 0 → sleeps o.trace = []) := by
  obtain ⟨n, rfl⟩ : ∃ n, fuel = j + (n + 1) := ⟨fuel - j - 1, by omega⟩
  obtain ⟨m, hm⟩ := isFailure_eq_true _ (hfail j (Nat.lt_succ_self j))
  have hsl : sleeps ([Event.reset] ++ (failRounds operation b w (b.Reset s) j ++
      [Event.op (some (Error.other m)),
        Event.next (b.NextBackOff (b.nextState (b.Reset s) j)).1]))
      = b.nexts (b.Reset s) j := by
    simp [sleeps, sleeps_append, sleeps_failRounds]
  unfold Retry RetryNotify
  rw [retryLoop_failRounds operation b j w (b.Reset s)
      (fun i hi => hfail i (Nat.lt_succ_of_lt hi)) hgo (n + 1),
    retryLoop_stop operation b none n _ _ m hm hstop]
  refine ⟨_, rfl, hm.symm, ?_, ?_, ?_, hsl, ?_, ?_⟩
  · rfl
  · simp [Outcome.after, opCount, opCount_append, opCount_failRounds]
  · simp [Outcome.after, notifyCount, notifyCount_append, notifyCount_failRounds]
  · exact (congrArg List.length hsl).trans (nexts_length b j (b.Reset s))
  · intro hj
    subst hj
    exact hsl

/-- Witness of C7: the always failing operation of `TestConstantBackOffCompare`
under `RetryEvery(1s).For(9s)` and a clock that advances 4 s per reading: the
third `NextBackOff` is the first to return `Stop`, the operation runs 3 times
and its error comes back. -/
theorem retry_returns_last_error_on_stop_witness :
    ∃ o, Retry alwaysFailOp ConstantBackOff.policy 5 0
        ((RetryEvery Second).For (9 * Second),
          ⟨fun n => wallClock2026 + (n : Int) * (4 * Second), 0⟩) = some o ∧
      o.err = opResult alwaysFailOp 0 2 ∧ isFailure o.err = true ∧
      opCount o.trace = 2 + 1 ∧
      notifyCount o.trace = 0 ∧
      sleeps o.trace = ConstantBackOff.policy.nexts
        (ConstantBackOff.policy.Reset ((RetryEvery Second).For (9 * Second),
          ⟨fun n => wallClock2026 + (n : Int) * (4 * Second), 0⟩)) 2 ∧
      (sleeps o.trace).length = 2 ∧
      (2 = 0 → sleeps o.trace = []) :=
  retry_returns_last_error_on_stop alwaysFailOp ConstantBackOff.policy 0
    ((RetryEvery Second).For (9 * Second),
      ⟨fun n => wallClock2026 + (n : Int) * (4 * Second), 0⟩) 2 5
    (by decide) (by decide) (by decide) (by decide)

/-! ## `RetryNotify` and `NotifyContinue` -/

/-- While the operation returns the Continue sentinel the loop resets the
policy and goes round, whatever the notify function: `n` rounds use `n` units
of fuel, and no `NextBackOff`, notify call or sleep occurs in them. -/
theorem retryLoop_contRounds {ω σ : Type} (operation : Operation ω) (b : BackOff σ)
    (notify : Option (Notify ω)) (n : Nat) :
    ∀ (w : ω) (s : σ),
      (∀ i < n, opResult operation w i = some Error.ErrContinue) →
      ∀ fuel : Nat,
        retryLoop operation b notify (n + fuel) w s
          = (retryLoop operation b notify fuel (opState operation w n)
                (b.Reset^[n] s)).map (Outcome.after (contRounds n)) := by
  induction n with
  | zero =>
    intro w s _ fuel
    rw [Nat.zero_add]
    change retryLoop operation b notify fuel w s
      = (retryLoop operation b notify fuel w s).map (Outcome.after [])
    cases retryLoop operation b notify fuel w s <;> rfl
  | succ n ih =>
    intro w s hcont fuel
    have h0 : (operation w).1 = some Error.ErrContinue := hcont 0 (Nat.succ_pos n)
    have hcont2 : ∀ i < n,
        opResult operation (operation w).2 i = some Error.ErrContinue := by
      intro i hi
      rw [← opResult_succ]
      exact hcont (i + 1) (Nat.succ_lt_succ hi)
    have hfuel : n + 1 + fuel = (n + fuel) + 1 := by omega
    rw [hfuel, retryLoop_continue operation b notify (n + fuel) w s h0,
      ih (operation w).2 (b.Reset s) hcont2 fuel, Outcome.map_after_after,
      opState_succ, Function.iterate_succ_apply]
    rfl

/-- C8: a round of the `RetryNotify` loop, entered with caller state `w` and
policy state `s`, in which the operation fails with an error other than the
Continue sentinel and the policy returns a duration `d` other than `Stop`.
If the notify function returns a non-nil error `e`, the loop ends in this
round and returns `e`: the trace holds this one invocation of the operation,
no sleep, and nothing after the notify call (so too for `RetryNotify` when the
round is the first). If the notify function returns nil, the loop sleeps for
`d` and goes on to the next round from the states left by the notify function
and the policy. -/
theorem retryNotify_notify_decides {ω σ : Type} (operation : Operation ω)
    (b : BackOff σ) (n : Notify ω) (w : ω) (s : σ) (m : String) (fuel : Nat)
    (hop : (operation w).1 = some (Error.other m))
    (hs : (b.NextBackOff s).1 ≠ Stop) :
    (∀ e, (n (Error.other m) (b.NextBackOff s).1 (operation w).2).1 = some e →
      retryLoop operation b (some n) (fuel + 1) w s
        = some ⟨some e, (n (Error.other m) (b.NextBackOff s).1 (operation w).2).2,
            (b.NextBackOff s).2,
            [Event.op (some (Error.other m)), Event.next (b.NextBackOff s).1,
              Event.notify (Error.other m) (b.NextBackOff s).1 (some e)]⟩) ∧
    (∀ e s0, b.Reset s0 = s →
      (n (Error.other m) (b.NextBackOff s).1 (operation w).2).1 = some e →
      ∃ o, RetryNotify operation b (some n) (fuel + 1) w s0 = some o ∧
        o.err = some e ∧ opCount o.trace = 1 ∧ sleeps o.trace = []) ∧
    ((n (Error.other m) (b.NextBackOff s).1 (operation w).2).1 = none →
      retryLoop operation b (some n) (fuel + 1) w s
        = (retryLoop operation b (some n) fuel
              (n (Error.other m) (b.NextBackOff s).1 (operation w).2).2
              (b.NextBackOff s).2).map
            (Outcome.after [Event.op (some (Error.other m)),
              Event.next (b.NextBackOff s).1,
              Event.notify (Error.other m) (b.NextBackOff s).1 none,
              Event.sleep (b.NextBackOff s).1])) := by
  refine ⟨?_, ?_, ?_⟩
  · intro e he
    exact retryLoop_veto operation b n fuel w s m e hop hs he
  · intro e s0 hs0 he
    subst hs0
    unfold RetryNotify
    rw [retryLoop_veto operation b n fuel w (b.Reset s0) m e hop hs he]
    exact ⟨_, rfl, rfl, rfl, rfl⟩
  · intro hnil
    exact retryLoop_notified operation b n fuel w s m hop hs hnil

/-- Witness of C8: the always failing operation under `ZeroBackOff` with a
notify function that returns the error "veto": the loop returns "veto" after
one invocation, though `ZeroBackOff` never stops. -/
theorem retryNotify_notify_decides_witness :
    retryLoop alwaysFailOp ZeroBackOff.policy
        (some (fun _ _ w => (some (Error.other "veto"), w))) (6 + 1) 0 {}
      = some ⟨some (Error.other "veto"), 1, {},
          [Event.op (some (Error.other "expected error")), Event.next 0,
            Event.notify (Error.other "expected error") 0
              (some (Error.other "veto"))]⟩ :=
  (retryNotify_notify_decides alwaysFailOp ZeroBackOff.policy
    (fun _ _ w => (some (Error.other "veto"), w)) 0 {} "expected error" 6
    rfl (by decide)).1 (Error.other "veto") rfl

/-- C9, as stated, fails: the operation of `NotifyContinueWithString` returns
`ErrContinue` twice and then the error "done", yet `RetryNotify` with
`NotifyContinue` of a label under `ZeroBackOff` invokes it 4 times, not
2 + 1: the wrapped notifier returns nil for "done", so the loop sleeps and
invokes the operation again. -/
theorem retryNotify_label_invokes_again :
    opResult notifyStringOp [] 0 = some Error.ErrContinue ∧
    opResult notifyStringOp [] 1 = some Error.ErrContinue ∧
    opResult notifyStringOp [] 2 = some (Error.other "done") ∧
    ∃ o, RetryNotify notifyStringOp ZeroBackOff.policy
        (some (NotifyContinue noLog (Inner.label "TestNotifyContinue"))) 4 [] {} = some o ∧
      o.caller = [0, 1, 2, 3] ∧
      opCount o.trace = 4 ∧ opCount o.trace ≠ 2 + 1 :=
  ⟨rfl, rfl, rfl, _, rfl, rfl, rfl, by decide⟩

/-- C9, amended: let the operation return `ErrContinue` on its first `n`
invocations and an error `e` other than the sentinel on invocation `n + 1`.
`RetryNotify` with a `NotifyContinue` notifier then invokes the operation
`n + 1` times, resetting the policy after each Continue, with no notify call
and no sleep in between, and consults the policy once, obtaining `d`. If `d`
is `Stop` it returns `e` with no notify call. Otherwise it calls the notifier
once, with `e` and `d`; if the notifier returns a non-nil error the drive ends
there, returning that error after exactly `n + 1` invocations and one notify
call; if the notifier returns nil the loop sleeps for `d` and goes on to
invoke the operation again. -/
theorem retryNotify_continue_then_failure {ω σ : Type} (operation : Operation ω)
    (b : BackOff σ) (logf : String → Error → Duration → ω → ω) (inner : Inner ω)
    (w : ω) (s : σ) (n fuel : Nat) (m : String)
    (hcont : ∀ i < n, opResult operation w i = some Error.ErrContinue)
    (herr : opResult operation w n = some (Error.other m)) :
    (opCount ([Event.reset] ++ contRounds n ++ [Event.op (some (Error.other m))]) = n + 1 ∧
      notifyCount ([Event.reset] ++ contRounds n ++ [Event.op (some (Error.other m))]) = 0 ∧
      sleeps ([Event.reset] ++ contRounds n ++ [Event.op (some (Error.other m))]) = []) ∧
    ((b.NextBackOff (b.Reset^[n + 1] s)).1 = Stop →
      RetryNotify operation b (some (NotifyContinue logf inner)) (n + (fuel + 1)) w s
        = some ⟨some (Error.other m), opState operation w (n + 1),
            (b.NextBackOff (b.Reset^[n + 1] s)).2,
            [Event.reset] ++ contRounds n ++ [Event.op (some (Error.other m)),
              Event.next (b.NextBackOff (b.Reset^[n + 1] s)).1]⟩) ∧
    ((b.NextBackOff (b.Reset^[n + 1] s)).1 ≠ Stop →
      ∀ e2, (NotifyContinue logf inner (Error.other m)
          (b.NextBackOff (b.Reset^[n + 1] s)).1 (opState operation w (n + 1))).1 = some e2 →
      RetryNotify operation b (some (NotifyContinue logf inner)) (n + (fuel + 1)) w s
        = some ⟨some e2,
            (NotifyContinue logf inner (Error.other m)
              (b.NextBackOff (b.Reset^[n + 1] s)).1 (opState operation w (n + 1))).2,
            (b.NextBackOff (b.Reset^[n + 1] s)).2,
            [Event.reset] ++ contRounds n ++ [Event.op (some (Error.other m)),
              Event.next (b.NextBackOff (b.Reset^[n + 1] s)).1,
              Event.notify (Error.other m) (b.NextBackOff (b.Reset^[n + 1] s)).1
                (some e2)]⟩) ∧
    ((b.NextBackOff (b.Reset^[n + 1] s)).1 ≠ Stop →
      (NotifyContinue logf inner (Error.other m)
          (b.NextBackOff (b.Reset^[n + 1] s)).1 (opState operation w (n + 1))).1 = none →
      RetryNotify operation b (some (NotifyContinue logf inner)) (n + (fuel + 1)) w s
        = (retryLoop operation b (some (NotifyContinue logf inner)) fuel
              (NotifyContinue logf inner (Error.other m)
                (b.NextBackOff (b.Reset^[n + 1] s)).1 (opState operation w (n + 1))).2
              (b.NextBackOff (b.Reset^[n + 1] s)).2).map
            (Outcome.after ([Event.reset] ++ contRounds n ++
              [Event.op (some (Error.other m)),
                Event.next (b.NextBackOff (b.Reset^[n + 1] s)).1,
                Event.notify (Error.other m) (b.NextBackOff (b.Reset^[n + 1] s)).1 none,
                Event.sleep (b.NextBackOff (b.Reset^[n + 1] s)).1]))) := by
  have hrun : ∀ k : Nat,
      RetryNotify operation b (some (NotifyContinue logf inner)) (n + k) w s
        = (retryLoop operation b (some (NotifyContinue logf inner)) k
              (opState operation w n) (b.Reset^[n + 1] s)).map
            (Outcome.after ([Event.reset] ++ contRounds n)) := by
    intro k
    unfold RetryNotify
    rw [retryLoop_contRounds operation b _ n w (b.Reset s) hcont k,
      Outcome.map_after_after, Function.iterate_succ_apply]
  have hop : (operation (opState operation w n)).1 = some (Error.other m) := herr
  refine ⟨⟨?_, ?_, ?_⟩, ?_, ?_, ?_⟩
  · simp [opCount, opCount_append, opCount_contRounds]
  · simp [notifyCount, notifyCount_append, notifyCount_contRounds]
  · simp [sleeps, sleeps_append, sleeps_contRounds]
  · intro hstop
    rw [hrun, retryLoop_stop operation b _ fuel _ _ m hop hstop, opState_succ_last]
    simp [Outcome.after]
  · intro hgo e2 he2
    rw [opState_succ_last] at he2 ⊢
    rw [hrun, retryLoop_veto operation b _ fuel _ _ m e2 hop hgo he2]
    simp [Outcome.after]
  · intro hgo hnil
    rw [opState_succ_last] at hnil ⊢
    rw [hrun, retryLoop_notified operation b _ fuel _ _ m hop hgo hnil,
      Outcome.map_after_after]

/-- Witness of C9, amended: `TestNotifyContinue/NotifyContinueWithNotify`. The
operation returns `ErrContinue` twice and then "done"; the inner callback
appends -1 and returns "done"; under `ZeroBackOff` the drive ends with
`results = [0, 1, 2, -1]`, 3 invocations and 1 notify call. -/
theorem retryNotify_continue_then_failure_witness :
    RetryNotify notifyContinueOp ZeroBackOff.policy
        (some (NotifyContinue noLog (Inner.notify notifyDone))) (2 + (5 + 1)) [] {}
      = some ⟨some (Error.other "done"), [0, 1, 2, -1], {},
          [Event.reset, Event.op (some Error.ErrContinue), Event.reset,
            Event.op (some Error.ErrContinue), Event.reset,
            Event.op (some (Error.other "done")), Event.next 0,
            Event.notify (Error.other "done") 0 (some (Error.other "done"))]⟩ :=
  (retryNotify_continue_then_failure notifyContinueOp ZeroBackOff.policy noLog
    (Inner.notify notifyDone) [] {} 2 5 "done" (by decide) rfl).2.2.1
    (by decide) (Error.other "done") rfl

/-- C10: the callback `NotifyContinue(inner)`, called with an error `e` and a
duration `d`. On the Continue sentinel it returns nil and leaves the caller's
state as it was, whatever `inner` is: `inner` is not invoked. On any other
error: with `inner` absent it returns `e` itself; with a label it returns nil,
having logged the label, `e` and `d` once; with a plain function or a `Notify`
value it is exactly the call of `inner` on `e` and `d`. -/
theorem notifyContinue_cases {ω : Type} (logf : String → Error → Duration → ω → ω)
    (e : Error) (d : Duration) (w : ω) :
    (∀ inner : Inner ω,
      NotifyContinue logf inner Error.ErrContinue d w = (none, w)) ∧
    (e ≠ Error.ErrContinue →
      NotifyContinue logf Inner.absent e d w = (some e, w)) ∧
    (e ≠ Error.ErrContinue → ∀ name : String,
      NotifyContinue logf (Inner.label name) e d w = (none, logf name e d w)) ∧
    (e ≠ Error.ErrContinue → ∀ f : Error → Duration → ω → Option Error × ω,
      NotifyContinue logf (Inner.func f) e d w = f e d w) ∧
    (e ≠ Error.ErrContinue → ∀ n : Notify ω,
      NotifyContinue logf (Inner.notify n) e d w = n e d w) := by
  refine ⟨?_, ?_, ?_, ?_, ?_⟩
  · intro inner
    simp [NotifyContinue]
  · intro he
    simp [NotifyContinue, he]
  · intro he name
    simp [NotifyContinue, he]
  · intro he f
    simp [NotifyContinue, he]
  · intro he n
    simp [NotifyContinue, he]

/-! ## `RetryNotify` with `NotifyContinue(nil)` -/

/-- A drive of `RetryNotify` whose operation returns the Continue sentinel on
its first `n` invocations: the policy is reset at the start and after each
Continue, and the loop then continues from the state after `n` invocations. -/
theorem retryNotify_contRounds {ω σ : Type} (operation : Operation ω) (b : BackOff σ)
    (notify : Option (Notify ω)) (n : Nat) (w : ω) (s : σ)
    (hcont : ∀ i < n, opResult operation w i = some Error.ErrContinue) (k : Nat) :
    RetryNotify operation b notify (n + k) w s
      = (retryLoop operation b notify k (opState operation w n)
            (b.Reset^[n + 1] s)).map
          (Outcome.after ([Event.reset] ++ contRounds n)) := by
  unfold RetryNotify
  rw [retryLoop_contRounds operation b notify n w (b.Reset s) hcont k,
    Outcome.map_after_after, Function.iterate_succ_apply]

/-- C11: let the operation return `ErrContinue` on its first `n` invocations and
an ordinary error `e` on invocation `n + 1`. `RetryNotify` with
`NotifyContinue(nil)`, given room for `n + 1` invocations or more, returns,
and returns `e`; its trace has exactly `n + 1` invocations of the operation
and no sleep, and the caller's state is the one after `n + 1` invocations: the
operation is not invoked again, whatever the policy answers. -/
theorem retryNotify_absent_ends_on_first_error {ω σ : Type} (operation : Operation ω)
    (b : BackOff σ) (logf : String → Error → Duration → ω → ω)
    (w : ω) (s : σ) (n fuel : Nat) (m : String)
    (hcont : ∀ i < n, opResult operation w i = some Error.ErrContinue)
    (herr : opResult operation w n = some (Error.other m))
    (hfuel : n + 1 ≤ fuel) :
    ∃ o, RetryNotify operation b (some (NotifyContinue logf Inner.absent)) fuel w s = some o ∧
      o.err = some (Error.other m) ∧
      opCount o.trace = n + 1 ∧
      sleeps o.trace = [] ∧
      o.caller = opState operation w (n + 1) := by
  obtain ⟨k, rfl⟩ : ∃ k, fuel = n + (k + 1) := ⟨fuel - n - 1, by omega⟩
  have hop : (operation (opState operation w n)).1 = some (Error.other m) := herr
  rw [retryNotify_contRounds operation b _ n w s hcont (k + 1)]
  by_cases hstop : (b.NextBackOff (b.Reset^[n + 1] s)).1 = Stop
  · rw [retryLoop_stop operation b _ k _ _ m hop hstop]
    refine ⟨_, rfl, rfl, ?_, ?_, ?_⟩
    · simp [Outcome.after, opCount, opCount_append, opCount_contRounds]
    · simp [Outcome.after, sleeps, sleeps_append, sleeps_contRounds]
    · exact (opState_succ_last operation w n).symm
  · have hn : (NotifyContinue logf Inner.absent (Error.other m)
        (b.NextBackOff (b.Reset^[n + 1] s)).1
        (operation (opState operation w n)).2).1 = some (Error.other m) := by
      simp [NotifyContinue]
    rw [retryLoop_veto operation b _ k _ _ m (Error.other m) hop hstop hn]
    refine ⟨_, rfl, rfl, ?_, ?_, ?_⟩
    · simp [Outcome.after, opCount, opCount_append, opCount_contRounds]
    · simp [Outcome.after, sleeps, sleeps_append, sleeps_contRounds]
    · simp [Outcome.after, NotifyContinue, opState_succ_last]

/-- Witness of C11: `TestNotifyContinue/NotifyContinueWithNil`. The operation
returns `ErrContinue` twice and then "done"; under `ZeroBackOff` the drive
returns "done" after 3 invocations. -/
theorem retryNotify_absent_ends_on_first_error_witness :
    ∃ o, RetryNotify notifyContinueOp ZeroBackOff.policy
        (some (NotifyContinue noLog Inner.absent)) 7 [] {} = some o ∧
      o.err = some (Error.other "done") ∧
      opCount o.trace = 2 + 1 ∧
      sleeps o.trace = [] ∧
      o.caller = opState notifyContinueOp [] (2 + 1) :=
  retryNotify_absent_ends_on_first_error notifyContinueOp ZeroBackOff.policy noLog
    [] {} 2 7 "done" (by decide) rfl (by decide)

/-! ## One round of the cancellable loop -/

section CancelRounds

variable {ω σ : Type} (cancelled : ω → Bool) (operation : Operation ω) (b : BackOff σ)

theorem cancelLoop_cancelled (notify : Option (Notify ω)) (fuel : Nat) (w : ω) (s : σ)
    (hc : cancelled w = true) :
    retryUntilCancelLoop cancelled operation b notify fuel w s
      = some ⟨Ended.cancelled, w, s, []⟩ := by
  cases fuel <;> simp [retryUntilCancelLoop, hc]

theorem cancelLoop_out_of_fuel (notify : Option (Notify ω)) (w : ω) (s : σ)
    (hc : cancelled w = false) :
    retryUntilCancelLoop cancelled operation b notify 0 w s = none := by
  simp [retryUntilCancelLoop, hc]

theorem cancelLoop_nil (notify : Option (Notify ω)) (fuel : Nat) (w : ω) (s : σ)
    (hc : cancelled w = false) (h : (operation w).1 = none) :
    retryUntilCancelLoop cancelled operation b notify (fuel + 1) w s
      = some ⟨Ended.success, (operation w).2, s, [Event.op none]⟩ := by
  rcases hop : operation w with ⟨r, w1⟩
  rw [hop] at h
  simp only at h
  subst h
  simp [retryUntilCancelLoop, hop, hc]

theorem cancelLoop_continue (notify : Option (Notify ω)) (fuel : Nat) (w : ω) (s : σ)
    (hc : cancelled w = false) (h : (operation w).1 = some Error.ErrContinue) :
    retryUntilCancelLoop cancelled operation b notify (fuel + 1) w s
      = (retryUntilCancelLoop cancelled operation b notify fuel (operation w).2
            (b.Reset s)).map
          (CancelOutcome.after [Event.op (some Error.ErrContinue), Event.reset]) := by
  rcases hop : operation w with ⟨r, w1⟩
  rw [hop] at h
  simp only at h
  subst h
  simp [retryUntilCancelLoop, hop, hc]

theorem cancelLoop_stop (notify : Option (Notify ω)) (fuel : Nat) (w : ω) (s : σ)
    (m : String) (hc : cancelled w = false)
    (h : (operation w).1 = some (Error.other m))
    (hs : (b.NextBackOff s).1 = Stop) :
    retryUntilCancelLoop cancelled operation b notify (fuel + 1) w s
      = some ⟨Ended.stopped (Error.other m), (operation w).2, (b.NextBackOff s).2,
          [Event.op (some (Error.other m)), Event.next (b.NextBackOff s).1]⟩ := by
  rcases hop : operation w with ⟨r, w1⟩
  rw [hop] at h
  simp only at h
  subst h
  simp [retryUntilCancelLoop, hop, hc, hs]

theorem cancelLoop_sleep (fuel : Nat) (w : ω) (s : σ)
    (m : String) (hc : cancelled w = false)
    (h : (operation w).1 = some (Error.other m))
    (hs : (b.NextBackOff s).1 ≠ Stop) :
    retryUntilCancelLoop cancelled operation b none (fuel + 1) w s
      = (retryUntilCancelLoop cancelled operation b none fuel (operation w).2
            (b.NextBackOff s).2).map
          (CancelOutcome.after [Event.op (some (Error.other m)),
            Event.next (b.NextBackOff s).1, Event.sleep (b.NextBackOff s).1]) := by
  rcases hop : operation w with ⟨r, w1⟩
  rw [hop] at h
  simp only at h
  subst h
  simp [retryUntilCancelLoop, hop, hc, hs]

theorem cancelLoop_veto (n : Notify ω) (fuel : Nat) (w : ω) (s : σ)
    (m : String) (e2 : Error) (hc : cancelled w = false)
    (h : (operation w).1 = some (Error.other m))
    (hs : (b.NextBackOff s).1 ≠ Stop)
    (hn : (n (Error.other m) (b.NextBackOff s).1 (operation w).2).1 = some e2) :
    retryUntilCancelLoop cancelled operation b (some n) (fuel + 1) w s
      = some ⟨Ended.vetoed e2, (n (Error.other m) (b.NextBackOff s).1 (operation w).2).2,
          (b.NextBackOff s).2,
          [Event.op (some (Error.other m)), Event.next (b.NextBackOff s).1,
            Event.notify (Error.other m) (b.NextBackOff s).1 (some e2)]⟩ := by
  rcases hop : operation w with ⟨r, w1⟩
  rw [hop] at h hn
  simp only at h hn
  subst h
  rcases hnn : n (Error.other m) (b.NextBackOff s).1 w1 with ⟨r2, w2⟩
  rw [hnn] at hn
  simp only at hn
  subst hn
  simp [retryUntilCancelLoop, hop, hc, hs, hnn]

theorem cancelLoop_notified (n : Notify ω) (fuel : Nat) (w : ω) (s : σ)
    (m : String) (hc : cancelled w = false)
    (h : (operation w).1 = some (Error.other m))
    (hs : (b.NextBackOff s).1 ≠ Stop)
    (hn : (n (Error.other m) (b.NextBackOff s).1 (operation w).2).1 = none) :
    retryUntilCancelLoop cancelled operation b (some n) (fuel + 1) w s
      = (retryUntilCancelLoop cancelled operation b (some n) fuel
            (n (Error.other m) (b.NextBackOff s).1 (operation w).2).2
            (b.NextBackOff s).2).map
          (CancelOutcome.after [Event.op (some (Error.other m)),
            Event.next (b.NextBackOff s).1,
            Event.notify (Error.other m) (b.NextBackOff s).1 none,
            Event.sleep (b.NextBackOff s).1]) := by
  rcases hop : operation w with ⟨r, w1⟩
  rw [hop] at h hn
  simp only at h hn
  subst h
  rcases hnn : n (Error.other m) (b.NextBackOff s).1 w1 with ⟨r2, w2⟩
  rw [hnn] at hn
  simp only at hn
  subst hn
  simp [retryUntilCancelLoop, hop, hc, hs, hnn]

end CancelRounds

/-! ## Several rounds of the cancellable loop -/

theorem cancelOutcome_map_after {ω σ : Type} (xs ys : List Event)
    (r : Option (CancelOutcome ω σ)) :
    (r.map (CancelOutcome.after ys)).map (CancelOutcome.after xs)
      = r.map (CancelOutcome.after (xs ++ ys)) := by
  cases r with
  | none => rfl
  | some o => simp [CancelOutcome.after, List.append_assoc]

theorem resetCount_append (xs ys : List Event) :
    resetCount (xs ++ ys) = resetCount xs + resetCount ys := by
  induction xs with
  | nil => simp [resetCount]
  | cons x xs ih =>
    have hx : resetCount (x :: (xs ++ ys)) + resetCount xs
        = resetCount (x :: xs) + resetCount (xs ++ ys) := by
      cases x <;> simp only [resetCount] <;> omega
    rw [List.cons_append]
    omega

theorem nextCount_append (xs ys : List Event) :
    nextCount (xs ++ ys) = nextCount xs + nextCount ys := by
  induction xs with
  | nil => simp [nextCount]
  | cons x xs ih =>
    have hx : nextCount (x :: (xs ++ ys)) + nextCount xs
        = nextCount (x :: xs) + nextCount (xs ++ ys) := by
      cases x <;> simp only [nextCount] <;> omega
    rw [List.cons_append]
    omega

theorem resetCount_contRounds (n : Nat) : resetCount (contRounds n) = n := by
  induction n with
  | zero => rfl
  | succ n ih => simp [contRounds, resetCount, ih]

theorem nextCount_contRounds (n : Nat) : nextCount (contRounds n) = 0 := by
  induction n with
  | zero => rfl
  | succ n ih => simp [contRounds, nextCount, ih]

/-- While the context is live and the operation returns the Continue sentinel,
the cancellable loop resets the policy and goes round: `n` rounds use `n`
units of fuel, and no `NextBackOff`, notify call or sleep occurs in them. -/
theorem cancelLoop_contRounds {ω σ : Type} (cancelled : ω → Bool)
    (operation : Operation ω) (b : BackOff σ) (notify : Option (Notify ω)) (n : Nat) :
    ∀ (w : ω) (s : σ),
      (∀ i < n, cancelled (opState operation w i) = false) →
      (∀ i < n, opResult operation w i = some Error.ErrContinue) →
      ∀ fuel : Nat,
        retryUntilCancelLoop cancelled operation b notify (n + fuel) w s
          = (retryUntilCancelLoop cancelled operation b notify fuel
                (opState operation w n) (b.Reset^[n] s)).map
              (CancelOutcome.after (contRounds n)) := by
  induction n with
  | zero =>
    intro w s _ _ fuel
    rw [Nat.zero_add]
    change retryUntilCancelLoop cancelled operation b notify fuel w s
      = (retryUntilCancelLoop cancelled operation b notify fuel w s).map
          (CancelOutcome.after [])
    cases retryUntilCancelLoop cancelled operation b notify fuel w s <;> rfl
  | succ n ih =>
    intro w s hlive hcont fuel
    have hl0 : cancelled w = false := hlive 0 (Nat.succ_pos n)
    have h0 : (operation w).1 = some Error.ErrContinue := hcont 0 (Nat.succ_pos n)
    have hlive2 : ∀ i < n, cancelled (opState operation (operation w).2 i) = false := by
      intro i hi
      rw [← opState_succ]
      exact hlive (i + 1) (Nat.succ_lt_succ hi)
    have hcont2 : ∀ i < n,
        opResult operation (operation w).2 i = some Error.ErrContinue := by
      intro i hi
      rw [← opResult_succ]
      exact hcont (i + 1) (Nat.succ_lt_succ hi)
    have hfuel : n + 1 + fuel = (n + fuel) + 1 := by omega
    rw [hfuel, cancelLoop_continue cancelled operation b notify (n + fuel) w s hl0 h0,
      ih (operation w).2 (b.Reset s) hlive2 hcont2 fuel, cancelOutcome_map_after,
      opState_succ, Function.iterate_succ_apply]
    rfl

/-- A drive of `RetryUntilCancel` whose first `n` invocations happen on a live
context and return the Continue sentinel. -/
theorem retryUntilCancel_contRounds {ω σ : Type} (cancelled : ω → Bool)
    (operation : Operation ω) (b : BackOff σ) (notify : Option (Notify ω)) (n : Nat)
    (w : ω) (s : σ)
    (hlive : ∀ i < n, cancelled (opState operation w i) = false)
    (hcont : ∀ i < n, opResult operation w i = some Error.ErrContinue) (k : Nat) :
    RetryUntilCancel cancelled operation b notify (n + k) w s
      = (retryUntilCancelLoop cancelled operation b notify k (opState operation w n)
            (b.Reset^[n + 1] s)).map
          (CancelOutcome.after ([Event.reset] ++ contRounds n)) := by
  unfold RetryUntilCancel
  rw [cancelLoop_contRounds cancelled operation b notify n w (b.Reset s) hlive hcont k,
    cancelOutcome_map_after, Function.iterate_succ_apply]

/-! ## `MustLoop` -/

theorem mustLoop_state {ω : Type} (operation : Operation ω) (w : ω) :
    (MustLoop operation w).2 = (operation w).2 := by
  unfold MustLoop
  rcases operation w with ⟨r, w1⟩
  cases r <;> rfl

theorem mustLoop_of_nil {ω : Type} (operation : Operation ω) (w : ω)
    (h : (operation w).1 = none) :
    (MustLoop operation w).1 = some Error.ErrContinue := by
  unfold MustLoop
  rcases hop : operation w with ⟨r, w1⟩
  rw [hop] at h
  simp only at h
  subst h
  rfl

theorem mustLoop_of_error {ω : Type} (operation : Operation ω) (w : ω) (e : Error)
    (h : (operation w).1 = some e) :
    (MustLoop operation w).1 = some e := by
  unfold MustLoop
  rcases hop : operation w with ⟨r, w1⟩
  rw [hop] at h
  simp only at h
  subst h
  rfl

theorem mustLoop_opState {ω : Type} (operation : Operation ω) (i : Nat) :
    ∀ w : ω, opState (MustLoop operation) w i = opState operation w i := by
  induction i with
  | zero => intro w; rfl
  | succ i ih =>
    intro w
    rw [opState_succ, opState_succ, mustLoop_state, ih]

/-! ## `RetryUntilCancel` -/

/-- C12, as stated, fails: the first invocation of `cancelAndFailOp` raises
cancellation and returns an ordinary error; `RetryUntilCancel` under
`ZeroBackOff` then consults the policy and calls the notify function, after
cancellation was raised, before the interrupted sleep and the check that ends
the loop. The operation itself is invoked once. -/
theorem retryUntilCancel_notifies_after_cancel :
    (cancelAndFailOp ⟨[], false⟩).2.done = true ∧
    ∃ o, RetryUntilCancel (fun st => st.done) cancelAndFailOp ZeroBackOff.policy
        (some recordNotify) 1 ⟨[], false⟩ {} = some o ∧
      o.trace = [Event.reset, Event.op (some (Error.other "failed")), Event.next 0,
        Event.notify (Error.other "failed") 0 none, Event.sleep 0] ∧
      notifyCount o.trace = 1 ∧
      opCount o.trace = 1 ∧
      o.caller.results = [0, -1] :=
  ⟨rfl, _, rfl, rfl, rfl, rfl, rfl⟩

/-- C12, amended. First part: a round of the `RetryUntilCancel` loop entered on
a live context, with caller state `w` and policy state `s`, whose invocation
of the operation raises cancellation; a notify function cannot undo
cancellation. The loop then ends with this invocation as the only one. If the
invocation returned `ErrContinue`, the loop ends by cancellation with no
notify call; if it returned nil, with success and no notify call; if it
returned an ordinary error, the policy is consulted and, unless it returns
`Stop`, a notify function that is present is called once, after which the loop
ends, by the error of that call or by cancellation. Second part: a drive
whose first `j` invocations return `ErrContinue`, cancellation being raised
during invocation `j` and not before, ends by cancellation after exactly `j`
invocations, with no `NextBackOff`, notify call or sleep. -/
theorem retryUntilCancel_after_cancel {ω σ : Type} (cancelled : ω → Bool)
    (operation : Operation ω) (b : BackOff σ) (notify : Option (Notify ω))
    (w : ω) (s : σ) (fuel : Nat)
    (hlive : cancelled w = false)
    (hraise : cancelled (operation w).2 = true)
    (hkeep : ∀ n e d w1, notify = some n → cancelled w1 = true →
      cancelled (n e d w1).2 = true) :
    (∃ o, retryUntilCancelLoop cancelled operation b notify (fuel + 1) w s = some o ∧
      opCount o.trace = 1 ∧
      ((operation w).1 = some Error.ErrContinue →
        o.ended = Ended.cancelled ∧ notifyCount o.trace = 0 ∧ nextCount o.trace = 0) ∧
      ((operation w).1 = none →
        o.ended = Ended.success ∧ notifyCount o.trace = 0 ∧ nextCount o.trace = 0) ∧
      (isFailure (operation w).1 = true → (b.NextBackOff s).1 = Stop →
        (∃ e, o.ended = Ended.stopped e) ∧ notifyCount o.trace = 0) ∧
      (isFailure (operation w).1 = true → (b.NextBackOff s).1 ≠ Stop → notify = none →
        o.ended = Ended.cancelled ∧ notifyCount o.trace = 0) ∧
      (isFailure (operation w).1 = true → (b.NextBackOff s).1 ≠ Stop → notify ≠ none →
        (o.ended = Ended.cancelled ∨ ∃ e, o.ended = Ended.vetoed e) ∧
          notifyCount o.trace = 1)) ∧
    (∀ (j fuel2 : Nat) (w0 : ω) (s0 : σ),
      (∀ i < j, cancelled (opState operation w0 i) = false) →
      (∀ i < j, opResult operation w0 i = some Error.ErrContinue) →
      cancelled (opState operation w0 j) = true →
      RetryUntilCancel cancelled operation b notify (j + fuel2) w0 s0
        = some ⟨Ended.cancelled, opState operation w0 j, b.Reset^[j + 1] s0,
            [Event.reset] ++ contRounds j⟩ ∧
      opCount ([Event.reset] ++ contRounds j) = j ∧
      notifyCount ([Event.reset] ++ contRounds j) = 0) := by
  refine ⟨?_, ?_⟩
  · rcases hres : (operation w).1 with _ | e
    · refine ⟨_, cancelLoop_nil cancelled operation b notify fuel w s hlive hres, rfl, ?_⟩
      simp [isFailure, notifyCount, nextCount]
    · cases e with
      | ErrContinue =>
        rw [cancelLoop_continue cancelled operation b notify fuel w s hlive hres,
          cancelLoop_cancelled cancelled operation b notify fuel _ _ hraise]
        refine ⟨_, rfl, rfl, ?_⟩
        simp [isFailure, CancelOutcome.after, notifyCount, nextCount]
      | other m =>
        by_cases hstop : (b.NextBackOff s).1 = Stop
        · refine ⟨_, cancelLoop_stop cancelled operation b notify fuel w s m hlive hres hstop,
            rfl, ?_⟩
          simp [hstop, notifyCount]
        · cases notify with
          | none =>
            rw [cancelLoop_sleep cancelled operation b fuel w s m hlive hres hstop,
              cancelLoop_cancelled cancelled operation b none fuel _ _ hraise]
            refine ⟨_, rfl, rfl, ?_⟩
            simp [hstop, CancelOutcome.after, notifyCount]
          | some n =>
            rcases hn : (n (Error.other m) (b.NextBackOff s).1 (operation w).2).1
              with _ | e2
            · have hc2 : cancelled
                  (n (Error.other m) (b.NextBackOff s).1 (operation w).2).2 = true :=
                hkeep n _ _ _ rfl hraise
              rw [cancelLoop_notified cancelled operation b n fuel w s m hlive hres hstop hn,
                cancelLoop_cancelled cancelled operation b (some n) fuel _ _ hc2]
              refine ⟨_, rfl, rfl, ?_⟩
              simp [hstop, CancelOutcome.after, notifyCount]
            · refine ⟨_, cancelLoop_veto cancelled operation b n fuel w s m e2 hlive hres
                hstop hn, rfl, ?_⟩
              simp [hstop, notifyCount]
  · intro j fuel2 w0 s0 hl hcont hc
    refine ⟨?_, ?_, ?_⟩
    · rw [retryUntilCancel_contRounds cancelled operation b notify j w0 s0 hl hcont fuel2,
        cancelLoop_cancelled cancelled operation b notify fuel2 _ _ hc]
      simp [CancelOutcome.after]
    · simp [opCount, opCount_append, opCount_contRounds]
    · simp [notifyCount, notifyCount_append, notifyCount_contRounds]

/-- Witness of C12, amended: `TestRetryUntilCancel`. The operation returns
`ErrContinue` and cancels during its third invocation; the inner notify
function would return an error; the drive ends by cancellation with
`results = [0, 1, 2]`. -/
theorem retryUntilCancel_after_cancel_witness :
    RetryUntilCancel (fun st => st.done) untilCancelOp ZeroBackOff.policy
        (some (NotifyContinue noLog
          (Inner.func (fun _ _ st => (some (Error.other "not called"), st)))))
        (3 + 4) ⟨[], false⟩ {}
      = some ⟨Ended.cancelled, ⟨[0, 1, 2], true⟩, {},
          [Event.reset] ++ contRounds 3⟩ :=
  ((retryUntilCancel_after_cancel (fun st => st.done) untilCancelOp ZeroBackOff.policy
    (some (NotifyContinue noLog
      (Inner.func (fun _ _ st => (some (Error.other "not called"), st)))))
    ⟨[0, 1], false⟩ {} 0 rfl rfl
    (by
      intro n e d w1 hn hc
      cases hn
      cases e <;> simpa [NotifyContinue] using hc)).2
    3 4 ⟨[], false⟩ {} (by decide) (by decide) rfl).1

/-- C13: let the operation return `ErrContinue` on its first `n` invocations and
nil on invocation `n + 1`, all on a live context. `RetryUntilCancel` under
`mustResetBackOff` (which returns `Stop` on a second `NextBackOff` without a
`Reset` in between), from any state of that policy and with any notify
function, given room for `n + 1` invocations or more, ends with success
after exactly `n + 1` invocations: `Reset` is called at the start and after
each `ErrContinue`, and the policy is left reset. -/
theorem retryUntilCancel_resets_on_continue {ω : Type} (cancelled : ω → Bool)
    (operation : Operation ω) (notify : Option (Notify ω)) (w : ω) (m0 : Int)
    (n fuel : Nat)
    (hlive : ∀ i < n + 1, cancelled (opState operation w i) = false)
    (hcont : ∀ i < n, opResult operation w i = some Error.ErrContinue)
    (hok : opResult operation w n = none)
    (hfuel : n + 1 ≤ fuel) :
    ∃ o, RetryUntilCancel cancelled operation mustResetBackOff notify fuel w m0 = some o ∧
      o.ended = Ended.success ∧
      o.caller = opState operation w (n + 1) ∧
      o.policy = 0 ∧
      o.trace = [Event.reset] ++ contRounds n ++ [Event.op none] ∧
      opCount o.trace = n + 1 ∧
      resetCount o.trace = n + 1 ∧
      nextCount o.trace = 0 := by
  obtain ⟨k, rfl⟩ : ∃ k, fuel = n + (k + 1) := ⟨fuel - n - 1, by omega⟩
  have hreset : ∀ (i : Nat) (x : Int), mustResetBackOff.Reset^[i + 1] x = 0 := by
    intro i x
    rw [Function.iterate_succ_apply']
    rfl
  rw [retryUntilCancel_contRounds cancelled operation mustResetBackOff notify n w m0
      (fun i hi => hlive i (Nat.lt_succ_of_lt hi)) hcont (k + 1),
    cancelLoop_nil cancelled operation mustResetBackOff notify k _ _
      (hlive n (Nat.lt_succ_self n)) hok]
  refine ⟨_, rfl, rfl, ?_, hreset n m0, rfl, ?_, ?_, ?_⟩
  · exact (opState_succ_last operation w n).symm
  · simp [CancelOutcome.after, opCount, opCount_append, opCount_contRounds]
  · simp [CancelOutcome.after, resetCount, resetCount_append, resetCount_contRounds]
  · simp [CancelOutcome.after, nextCount, nextCount_append, nextCount_contRounds]

/-- Witness of C13: `TestRetryUntilCancelResetsOnErrContinue`. The operation
returns `ErrContinue` twice and then nil; with `NotifyContinue` of the test's
name the drive ends with success after 3 invocations. -/
theorem retryUntilCancel_resets_on_continue_witness :
    ∃ o, RetryUntilCancel (fun st => st.done) resetsOnContinueOp mustResetBackOff
        (some (NotifyContinue noLog
          (Inner.label "TestRetryUntilCancelResetsOnErrContinue"))) 5 ⟨[], false⟩ 0
        = some o ∧
      o.ended = Ended.success ∧
      o.caller = opState resetsOnContinueOp ⟨[], false⟩ (2 + 1) ∧
      o.policy = 0 ∧
      o.trace = [Event.reset] ++ contRounds 2 ++ [Event.op none] ∧
      opCount o.trace = 2 + 1 ∧
      resetCount o.trace = 2 + 1 ∧
      nextCount o.trace = 0 :=
  retryUntilCancel_resets_on_continue (fun st => st.done) resetsOnContinueOp
    (some (NotifyContinue noLog (Inner.label "TestRetryUntilCancelResetsOnErrContinue")))
    ⟨[], false⟩ 0 2 5 (by decide) (by decide) rfl (by decide)

/-- C14: when the context is not cancelled and the first invocation of the
operation returns nil, `RetryUntilCancel`, for every policy and notify
function and any room for one invocation or more, ends with success: its
trace is the initial `Reset` and the one invocation, with no `NextBackOff`,
no notify call and no sleep. -/
theorem retryUntilCancel_success_at_once {ω σ : Type} (cancelled : ω → Bool)
    (operation : Operation ω) (b : BackOff σ) (notify : Option (Notify ω))
    (w : ω) (s : σ) (fuel : Nat)
    (hlive : cancelled w = false)
    (hok : (operation w).1 = none) :
    RetryUntilCancel cancelled operation b notify (fuel + 1) w s
      = some ⟨Ended.success, (operation w).2, b.Reset s,
          [Event.reset, Event.op none]⟩ ∧
    opCount [Event.reset, Event.op none] = 1 ∧
    nextCount [Event.reset, Event.op none] = 0 ∧
    notifyCount [Event.reset, Event.op none] = 0 ∧
    sleeps [Event.reset, Event.op none] = [] := by
  refine ⟨?_, rfl, rfl, rfl, rfl⟩
  unfold RetryUntilCancel
  rw [cancelLoop_nil cancelled operation b notify fuel w (b.Reset s) hlive hok]
  rfl

/-- Witness of C14: `TestRetryUntilCancelZeroBackoff`. The operation returns
nil on its first call; the notify function, which would cancel, is never
called, and the operation ran once. -/
theorem retryUntilCancel_success_at_once_witness :
    RetryUntilCancel (fun st => st.done) onceOp ZeroBackOff.policy (some cancelNotify)
        (9 + 1) ⟨[], false⟩ {}
      = some ⟨Ended.success, ⟨[0], false⟩, {}, [Event.reset, Event.op none]⟩ :=
  (retryUntilCancel_success_at_once (fun st => st.done) onceOp ZeroBackOff.policy
    (some cancelNotify) ⟨[], false⟩ {} 9 rfl rfl).1

theorem mustLoop_of_no_failure {ω : Type} (operation : Operation ω) (w : ω)
    (h : isFailure (operation w).1 = false) :
    (MustLoop operation w).1 = some Error.ErrContinue := by
  unfold MustLoop
  rcases hop : operation w with ⟨r, w1⟩
  rw [hop] at h
  cases r with
  | none => rfl
  | some e =>
    cases e with
    | ErrContinue => rfl
    | other m => simp [isFailure] at h

/-- C15: `MustLoop(op)` returns `ErrContinue` where `op` returns nil and the
error of `op` (`ErrContinue` included) otherwise, and changes the caller's
state as `op` does. Hence, for an operation `op` that never fails (it returns
nil or `ErrContinue`), under any policy and notify function: if cancellation
is raised during invocation `j` and not before, `RetryUntilCancel` of
`MustLoop(op)`, given room for `j` invocations or more, ends by cancellation
after exactly `j` invocations, none of them followed by a wait; and if
cancellation is never raised the drive does not end, whatever the bound on
the invocations. -/
theorem mustLoop_runs_until_cancelled {ω σ : Type} (cancelled : ω → Bool)
    (operation : Operation ω) (b : BackOff σ) (notify : Option (Notify ω))
    (w : ω) (s : σ)
    (hnofail : ∀ x : ω, isFailure (operation x).1 = false) :
    (∀ (op : Operation ω) (x : ω), (MustLoop op x).2 = (op x).2 ∧
      ((op x).1 = none → (MustLoop op x).1 = some Error.ErrContinue) ∧
      (∀ e, (op x).1 = some e → (MustLoop op x).1 = some e)) ∧
    (∀ j fuel : Nat,
      (∀ i < j, cancelled (opState operation w i) = false) →
      cancelled (opState operation w j) = true →
      ∃ o, RetryUntilCancel cancelled (MustLoop operation) b notify (j + fuel) w s
          = some o ∧
        o.ended = Ended.cancelled ∧
        o.caller = opState operation w j ∧
        opCount o.trace = j ∧
        sleeps o.trace = [] ∧
        notifyCount o.trace = 0) ∧
    ((∀ i, cancelled (opState operation w i) = false) →
      ∀ fuel : Nat,
        RetryUntilCancel cancelled (MustLoop operation) b notify fuel w s = none) := by
  have hcont : ∀ (k : Nat), ∀ i < k,
      opResult (MustLoop operation) w i = some Error.ErrContinue := by
    intro k i _
    exact mustLoop_of_no_failure operation _ (hnofail _)
  refine ⟨?_, ?_, ?_⟩
  · intro op x
    exact ⟨mustLoop_state op x, mustLoop_of_nil op x,
      fun e he => mustLoop_of_error op x e he⟩
  · intro j fuel hlive hc
    have hlive2 : ∀ i < j, cancelled (opState (MustLoop operation) w i) = false := by
      intro i hi
      rw [mustLoop_opState]
      exact hlive i hi
    have hc2 : cancelled (opState (MustLoop operation) w j) = true := by
      rw [mustLoop_opState]
      exact hc
    rw [retryUntilCancel_contRounds cancelled (MustLoop operation) b notify j w s
        hlive2 (hcont j) fuel,
      cancelLoop_cancelled cancelled (MustLoop operation) b notify fuel _ _ hc2]
    refine ⟨_, rfl, rfl, mustLoop_opState operation j w, ?_, ?_, ?_⟩
    · simp [CancelOutcome.after, opCount, opCount_append, opCount_contRounds]
    · simp [CancelOutcome.after, sleeps, sleeps_append, sleeps_contRounds]
    · simp [CancelOutcome.after, notifyCount, notifyCount_append, notifyCount_contRounds]
  · intro hnever fuel
    have hlive2 : ∀ i, cancelled (opState (MustLoop operation) w i) = false := by
      intro i
      rw [mustLoop_opState]
      exact hnever i
    have h := retryUntilCancel_contRounds cancelled (MustLoop operation) b notify fuel
      w s (fun i _ => hlive2 i) (hcont fuel) 0
    rw [Nat.add_zero] at h
    rw [h, cancelLoop_out_of_fuel cancelled (MustLoop operation) b notify _ _
      (hlive2 fuel)]
    rfl

/-- Witness of C15: `TestMustLoop`. The wrapped operation returns `ErrContinue`,
then nil, then cancels and returns nil; under `ZeroBackOff` the drive ends by
cancellation after 3 invocations, with `results = [1, 2, 3]`. -/
theorem mustLoop_runs_until_cancelled_witness :
    ∃ o, RetryUntilCancel (fun st => st.done) (MustLoop mustLoopOp) ZeroBackOff.policy
        (some (NotifyContinue noLog (Inner.label "TestMustLoop"))) (3 + 2)
        ⟨[], false⟩ {} = some o ∧
      o.ended = Ended.cancelled ∧
      o.caller = opState mustLoopOp ⟨[], false⟩ 3 ∧
      opCount o.trace = 3 ∧
      sleeps o.trace = [] ∧
      notifyCount o.trace = 0 :=
  (mustLoop_runs_until_cancelled (fun st => st.done) mustLoopOp ZeroBackOff.policy
    (some (NotifyContinue noLog (Inner.label "TestMustLoop"))) ⟨[], false⟩ {}
    (by
      intro x
      simp only [mustLoopOp]
      split_ifs <;> rfl)).2.1 3 2 (by decide) (by decide)

/-! ## The jitter of `ExponentialBackOff` -/

/-- The value of `GetRandomValueFromInterval` before flooring lies between the
lower bound and the upper bound plus one. -/
theorem jitter_raw_bounds (f r : ℚ) (c : Duration) (hc : 0 ≤ c) (hf0 : 0 ≤ f)
    (hr0 : 0 ≤ r) (hr1 : r < 1) :
    (c : ℚ) - f * c ≤ ((c : ℚ) - f * c) + r * (((c : ℚ) + f * c) - ((c : ℚ) - f * c) + 1) ∧
    ((c : ℚ) - f * c) + r * (((c : ℚ) + f * c) - ((c : ℚ) - f * c) + 1)
      < (c : ℚ) + f * c + 1 := by
  have hcq : (0 : ℚ) ≤ (c : ℚ) := by exact_mod_cast hc
  have hw : (0 : ℚ) < ((c : ℚ) + f * c) - ((c : ℚ) - f * c) + 1 := by
    have := mul_nonneg hf0 hcq
    linarith
  constructor
  · have := mul_nonneg hr0 hw.le
    linarith
  · have := mul_lt_mul_of_pos_right hr1 hw
    linarith

/-- For a non-negative interval and a factor in [0, 1] the clamp at zero does
nothing: the value is the floor itself. -/
theorem jitter_eq_floor (f r : ℚ) (c : Duration) (hc : 0 ≤ c) (hf0 : 0 ≤ f)
    (hf1 : f ≤ 1) (hr0 : 0 ≤ r) (hr1 : r < 1) :
    GetRandomValueFromInterval f r c
      = ⌊((c : ℚ) - f * c) + r * (((c : ℚ) + f * c) - ((c : ℚ) - f * c) + 1)⌋ := by
  have hcq : (0 : ℚ) ≤ (c : ℚ) := by exact_mod_cast hc
  have hlo : (0 : ℚ) ≤ (c : ℚ) - f * c := by
    have := mul_le_mul_of_nonneg_right hf1 hcq
    linarith
  have hx := (jitter_raw_bounds f r c hc hf0 hr0 hr1).1
  have h0 : (0 : ℤ) ≤
      ⌊((c : ℚ) - f * c) + r * (((c : ℚ) + f * c) - ((c : ℚ) - f * c) + 1)⌋ :=
    Int.floor_nonneg.mpr (le_trans hlo hx)
  unfold GetRandomValueFromInterval
  exact max_eq_right h0

theorem jitter_nonneg (f r : ℚ) (c : Duration) :
    0 ≤ GetRandomValueFromInterval f r c := by
  unfold GetRandomValueFromInterval
  exact le_max_left _ _

theorem jitter_ne_stop (f r : ℚ) (c : Duration) :
    GetRandomValueFromInterval f r c ≠ Stop := by
  intro h
  have h0 := jitter_nonneg f r c
  rw [h] at h0
  exact absurd h0 (by decide)

/-- C17, as stated, fails: with current interval 1 ns and randomization factor
1/2 the range is [1/2, 3/2]; the random fraction 0 gives the value 0, below
the range, and the random fraction 99/100 gives 2, above it. -/
theorem jitter_leaves_fractional_range :
    GetRandomValueFromInterval (1 / 2) 0 1 = 0 ∧
    ((GetRandomValueFromInterval (1 / 2) 0 1 : Duration) : ℚ)
      < ((1 : Duration) : ℚ) - (1 / 2) * ((1 : Duration) : ℚ) ∧
    GetRandomValueFromInterval (1 / 2) (99 / 100) 1 = 2 ∧
    ((1 : Duration) : ℚ) + (1 / 2) * ((1 : Duration) : ℚ)
      < ((GetRandomValueFromInterval (1 / 2) (99 / 100) 1 : Duration) : ℚ) := by
  have h0 : GetRandomValueFromInterval (1 / 2) 0 1 = 0 := by
    rw [jitter_eq_floor (1 / 2) 0 1 (by decide) (by norm_num) (by norm_num) (by norm_num)
      (by norm_num), Int.floor_eq_iff]
    norm_num
  have h1 : GetRandomValueFromInterval (1 / 2) (99 / 100) 1 = 2 := by
    rw [jitter_eq_floor (1 / 2) (99 / 100) 1 (by decide) (by norm_num) (by norm_num)
      (by norm_num) (by norm_num), Int.floor_eq_iff]
    norm_num
  refine ⟨h0, ?_, h1, ?_⟩
  · rw [h0]; norm_num
  · rw [h1]; norm_num

/-- C17, amended: for every current interval `c ≥ 0`, randomization factor `f`
in [0, 1) and random fraction `r` in [0, 1), the jittered value
`floor((c - f*c) + r*((c + f*c) - (c - f*c) + 1))` lies in the closed range
`[floor(c - f*c), ceil(c + f*c)]`, hence less than 1 away from
`[c - f*c, c + f*c]`; it lies in `[c - f*c, c + f*c]` itself whenever `f*c` is
a whole number. -/
theorem jitter_within_rounded_range (f r : ℚ) (c : Duration) (hc : 0 ≤ c)
    (hf0 : 0 ≤ f) (hf1 : f < 1) (hr0 : 0 ≤ r) (hr1 : r < 1) :
    GetRandomValueFromInterval f r c
      = ⌊((c : ℚ) - f * c) + r * (((c : ℚ) + f * c) - ((c : ℚ) - f * c) + 1)⌋ ∧
    ⌊(c : ℚ) - f * c⌋ ≤ GetRandomValueFromInterval f r c ∧
    GetRandomValueFromInterval f r c ≤ ⌈(c : ℚ) + f * c⌉ ∧
    (c : ℚ) - f * c - 1 < (GetRandomValueFromInterval f r c : ℚ) ∧
    (GetRandomValueFromInterval f r c : ℚ) < (c : ℚ) + f * c + 1 ∧
    (∀ k : ℤ, f * c = k →
      c - k ≤ GetRandomValueFromInterval f r c ∧
      GetRandomValueFromInterval f r c ≤ c + k) := by
  have heq := jitter_eq_floor f r c hc hf0 hf1.le hr0 hr1
  obtain ⟨hlo, hhi⟩ := jitter_raw_bounds f r c hc hf0 hr0 hr1
  have hfl := Int.floor_le
    (((c : ℚ) - f * c) + r * (((c : ℚ) + f * c) - ((c : ℚ) - f * c) + 1))
  have hfl1 := Int.lt_floor_add_one
    (((c : ℚ) - f * c) + r * (((c : ℚ) + f * c) - ((c : ℚ) - f * c) + 1))
  refine ⟨heq, ?_, ?_, ?_, ?_, ?_⟩
  · rw [heq]
    exact Int.floor_le_floor hlo
  · rw [heq, Int.floor_le_iff]
    have := Int.le_ceil ((c : ℚ) + f * c)
    linarith
  · rw [heq]
    linarith
  · rw [heq]
    linarith
  · intro k hk
    rw [heq]
    constructor
    · rw [Int.le_floor]
      push_cast
      linarith
    · rw [Int.floor_le_iff]
      push_cast
      linarith

/-- Witness of C17, amended: the range of `TestBackOff` for the interval
500 ms and the factor 0.1, where `f*c` is the whole number 50 ms. -/
theorem jitter_within_rounded_range_witness :
    500 * Millisecond - 50 * Millisecond
        ≤ GetRandomValueFromInterval (1 / 10) (3 / 4) (500 * Millisecond) ∧
    GetRandomValueFromInterval (1 / 10) (3 / 4) (500 * Millisecond)
        ≤ 500 * Millisecond + 50 * Millisecond :=
  (jitter_within_rounded_range (1 / 10) (3 / 4) (500 * Millisecond) (by decide)
    (by norm_num) (by norm_num) (by norm_num) (by norm_num)).2.2.2.2.2
    (50 * Millisecond) (by norm_num [Millisecond])

/-- C18: for every random fraction `r` in [0, 1),
`GetRandomValueFromInterval(0.5, r, 2)` is `floor(1 + 3r)`: 1 on [0, 1/3),
2 on [1/3, 2/3) and 3 on [2/3, 1), three ranges of the same length. -/
theorem jitter_half_of_two (r : ℚ) (hr0 : 0 ≤ r) (hr1 : r < 1) :
    GetRandomValueFromInterval (1 / 2) r 2 = ⌊1 + 3 * r⌋ ∧
    (r < 1 / 3 → GetRandomValueFromInterval (1 / 2) r 2 = 1) ∧
    (1 / 3 ≤ r → r < 2 / 3 → GetRandomValueFromInterval (1 / 2) r 2 = 2) ∧
    (2 / 3 ≤ r → GetRandomValueFromInterval (1 / 2) r 2 = 3) := by
  have heq : GetRandomValueFromInterval (1 / 2) r 2 = ⌊1 + 3 * r⌋ := by
    rw [jitter_eq_floor (1 / 2) r 2 (by decide) (by norm_num) (by norm_num) hr0 hr1]
    congr 1
    push_cast
    ring
  refine ⟨heq, ?_, ?_, ?_⟩
  · intro h
    rw [heq, Int.floor_eq_iff]
    constructor <;> push_cast <;> linarith
  · intro h1 h2
    rw [heq, Int.floor_eq_iff]
    constructor <;> push_cast <;> linarith
  · intro h
    rw [heq, Int.floor_eq_iff]
    constructor <;> push_cast <;> linarith

/-- Witness of C18: the six calls of `TestGetRandomizedInterval`. -/
theorem jitter_half_of_two_witness :
    GetRandomValueFromInterval (1 / 2) 0 2 = 1 ∧
    GetRandomValueFromInterval (1 / 2) (33 / 100) 2 = 1 ∧
    GetRandomValueFromInterval (1 / 2) (34 / 100) 2 = 2 ∧
    GetRandomValueFromInterval (1 / 2) (66 / 100) 2 = 2 ∧
    GetRandomValueFromInterval (1 / 2) (67 / 100) 2 = 3 ∧
    GetRandomValueFromInterval (1 / 2) (99 / 100) 2 = 3 :=
  ⟨(jitter_half_of_two 0 (by norm_num) (by norm_num)).2.1 (by norm_num),
   (jitter_half_of_two (33 / 100) (by norm_num) (by norm_num)).2.1 (by norm_num),
   (jitter_half_of_two (34 / 100) (by norm_num) (by norm_num)).2.2.1 (by norm_num)
     (by norm_num),
   (jitter_half_of_two (66 / 100) (by norm_num) (by norm_num)).2.2.1 (by norm_num)
     (by norm_num),
   (jitter_half_of_two (67 / 100) (by norm_num) (by norm_num)).2.2.2 (by norm_num),
   (jitter_half_of_two (99 / 100) (by norm_num) (by norm_num)).2.2.2 (by norm_num)⟩

/-! ## `ExponentialBackOff`: growth and the elapsed-time budget -/

theorem grow_currentInterval (b : ExponentialBackOff)
    (hmax : b.MaxInterval ≤ maxDuration) :
    b.growCurrentInterval.CurrentInterval
      = min ⌊(b.CurrentInterval : ℚ) * b.Multiplier⌋ b.MaxInterval := by
  have hmq : (b.MaxInterval : ℚ) ≤ (maxDuration : ℚ) := by exact_mod_cast hmax
  unfold ExponentialBackOff.growCurrentInterval
  split_ifs with h
  · have hgt : (b.MaxInterval : ℚ) < (b.CurrentInterval : ℚ) * b.Multiplier := by
      rcases h with h | h
      · exact lt_of_le_of_lt hmq h
      · exact h
    have hle : b.MaxInterval ≤ ⌊(b.CurrentInterval : ℚ) * b.Multiplier⌋ :=
      Int.le_floor.mpr hgt.le
    exact (min_eq_right hle).symm
  · have hle : (b.CurrentInterval : ℚ) * b.Multiplier ≤ (b.MaxInterval : ℚ) :=
      not_lt.mp (fun h2 => h (Or.inr h2))
    have hfl : ⌊(b.CurrentInterval : ℚ) * b.Multiplier⌋ ≤ b.MaxInterval := by
      have h1 := Int.floor_le ((b.CurrentInterval : ℚ) * b.Multiplier)
      exact_mod_cast le_trans h1 hle
    exact (min_eq_left hfl).symm

theorem grow_of_exceeds (b : ExponentialBackOff)
    (h : (b.CurrentInterval : ℚ) * b.Multiplier > (maxDuration : ℚ) ∨
      (b.CurrentInterval : ℚ) * b.Multiplier > (b.MaxInterval : ℚ)) :
    b.growCurrentInterval.CurrentInterval = b.MaxInterval := by
  unfold ExponentialBackOff.growCurrentInterval
  rw [if_pos h]

/-- `NextBackOff` returns `Stop` exactly when the elapsed-time budget is set
and exceeded. -/
theorem exp_next_eq_stop_iff (b : ExponentialBackOff) (r : ℚ) :
    (b.NextBackOff r).1 = Stop ↔
      (b.MaxElapsedTime ≠ 0 ∧
        Time.Sub b.Clock.Now.1 b.StartTime > b.MaxElapsedTime) := by
  unfold ExponentialBackOff.NextBackOff
  by_cases h0 : b.MaxElapsedTime = 0
  · simp only [h0, ne_eq, not_true_eq_false, if_false, false_and, iff_false]
    exact jitter_ne_stop _ _ _
  · by_cases h1 : b.GetElapsedTime.1 > b.MaxElapsedTime
    · rw [if_pos h0, if_pos h1]
      exact ⟨fun _ => ⟨h0, h1⟩, fun _ => rfl⟩
    · rw [if_pos h0, if_neg h1]
      constructor
      · intro h
        exact absurd h (jitter_ne_stop _ _ _)
      · rintro ⟨-, h⟩
        exact absurd h h1

/-- The state after a `NextBackOff` that returns `Stop`: only the clock moved. -/
theorem exp_next_of_stop (b : ExponentialBackOff) (r : ℚ)
    (h0 : b.MaxElapsedTime ≠ 0)
    (h1 : Time.Sub b.Clock.Now.1 b.StartTime > b.MaxElapsedTime) :
    b.NextBackOff r = (Stop, { b with Clock := b.Clock.Now.2 }) := by
  have h1b : b.GetElapsedTime.1 > b.MaxElapsedTime := h1
  unfold ExponentialBackOff.NextBackOff
  rw [if_pos h0, if_pos h1b]
  rfl

/-- The state after a `NextBackOff` within a set budget: the clock moved and
the current interval grew. -/
theorem exp_next_of_within (b : ExponentialBackOff) (r : ℚ)
    (h0 : b.MaxElapsedTime ≠ 0)
    (h1 : Time.Sub b.Clock.Now.1 b.StartTime ≤ b.MaxElapsedTime) :
    b.NextBackOff r
      = (GetRandomValueFromInterval b.RandomizationFactor r b.CurrentInterval,
          ({ b with Clock := b.Clock.Now.2 } : ExponentialBackOff).growCurrentInterval) := by
  have h1b : ¬ b.GetElapsedTime.1 > b.MaxElapsedTime := not_lt.mpr h1
  unfold ExponentialBackOff.NextBackOff
  rw [if_pos h0, if_neg h1b]
  rfl

/-- The state after a `NextBackOff` with no budget: the clock is not read and
the current interval grew. -/
theorem exp_next_of_unbounded (b : ExponentialBackOff) (r : ℚ)
    (h0 : b.MaxElapsedTime = 0) :
    b.NextBackOff r
      = (GetRandomValueFromInterval b.RandomizationFactor r b.CurrentInterval,
          b.growCurrentInterval) := by
  unfold ExponentialBackOff.NextBackOff
  rw [if_neg (not_not.mpr h0)]

theorem grow_fields (b : ExponentialBackOff) :
    b.growCurrentInterval.Multiplier = b.Multiplier ∧
    b.growCurrentInterval.MaxInterval = b.MaxInterval ∧
    b.growCurrentInterval.MaxElapsedTime = b.MaxElapsedTime ∧
    b.growCurrentInterval.StartTime = b.StartTime ∧
    b.growCurrentInterval.Clock = b.Clock := by
  unfold ExponentialBackOff.growCurrentInterval
  split_ifs <;> exact ⟨rfl, rfl, rfl, rfl, rfl⟩

/-- A `NextBackOff` that does not return `Stop` grows the current interval and
keeps the configuration and the start time; the clock advances by one reading
when a budget is set and is left alone otherwise. -/
theorem exp_next_of_go (b : ExponentialBackOff) (r : ℚ)
    (hgo : (b.NextBackOff r).1 ≠ Stop) :
    (b.NextBackOff r).2.CurrentInterval = b.growCurrentInterval.CurrentInterval ∧
    (b.NextBackOff r).2.Multiplier = b.Multiplier ∧
    (b.NextBackOff r).2.MaxInterval = b.MaxInterval ∧
    (b.NextBackOff r).2.MaxElapsedTime = b.MaxElapsedTime ∧
    (b.NextBackOff r).2.StartTime = b.StartTime ∧
    (b.NextBackOff r).2.Clock.readings = b.Clock.readings ∧
    (b.NextBackOff r).2.Clock.pos
      = (if b.MaxElapsedTime ≠ 0 then b.Clock.pos + 1 else b.Clock.pos) := by
  by_cases h0 : b.MaxElapsedTime = 0
  · rw [exp_next_of_unbounded b r h0]
    obtain ⟨h1, h2, h3, h4, h5⟩ := grow_fields b
    refine ⟨rfl, h1, h2, h3, h4, by rw [h5], ?_⟩
    rw [if_neg (not_not.mpr h0)]
    show b.growCurrentInterval.Clock.pos = b.Clock.pos
    rw [h5]
  · have h1 : Time.Sub b.Clock.Now.1 b.StartTime ≤ b.MaxElapsedTime := by
      by_contra hc
      exact hgo ((exp_next_eq_stop_iff b r).mpr ⟨h0, not_le.mp hc⟩)
    rw [exp_next_of_within b r h0 h1]
    obtain ⟨h2, h3, h4, h5, h6⟩ :=
      grow_fields ({ b with Clock := b.Clock.Now.2 } : ExponentialBackOff)
    refine ⟨?_, h2, h3, h4, h5, ?_, ?_⟩
    · show ({ b with Clock := b.Clock.Now.2 } :
          ExponentialBackOff).growCurrentInterval.CurrentInterval
        = b.growCurrentInterval.CurrentInterval
      unfold ExponentialBackOff.growCurrentInterval
      split_ifs <;> rfl
    · show ({ b with Clock := b.Clock.Now.2 } :
          ExponentialBackOff).growCurrentInterval.Clock.readings = b.Clock.readings
      rw [h6]
      rfl
    · rw [if_pos h0]
      show ({ b with Clock := b.Clock.Now.2 } :
          ExponentialBackOff).growCurrentInterval.Clock.pos = b.Clock.pos + 1
      rw [h6]
      rfl

/-- With multiplier 2, a maximal interval `M` and a current interval
`min (A * 2^k) M`, successive `NextBackOff` calls within the elapsed-time
budget find the current intervals `min (A * 2^(k+i)) M` and never return
`Stop`. -/
theorem exp_intervals_doubling (A M : Duration) (hM0 : 0 ≤ M)
    (hMmax : M ≤ maxDuration) (rs : List ℚ) :
    ∀ (b : ExponentialBackOff) (k : Nat),
      b.Multiplier = 2 → b.MaxInterval = M →
      b.CurrentInterval = min (A * 2 ^ k) M →
      (b.MaxElapsedTime = 0 ∨ ∀ i < rs.length,
        Time.Sub (b.Clock.readings (b.Clock.pos + i)) b.StartTime ≤ b.MaxElapsedTime) →
      b.intervals rs = (List.range rs.length).map (fun i => min (A * 2 ^ (k + i)) M) ∧
      ∀ x ∈ b.returns rs, x ≠ Stop := by
  induction rs with
  | nil =>
    intro b k _ _ _ _
    exact ⟨rfl, fun x hx => by cases hx⟩
  | cons r rs ih =>
    intro b k hm hM hc hbud
    have hgo : (b.NextBackOff r).1 ≠ Stop := by
      intro hstop
      obtain ⟨h0, h1⟩ := (exp_next_eq_stop_iff b r).mp hstop
      rcases hbud with hb | hb
      · exact h0 hb
      · have h2 := hb 0 (Nat.succ_pos _)
        rw [Nat.add_zero] at h2
        exact absurd h1 (not_lt.mpr h2)
    obtain ⟨g1, g2, g3, g4, g5, g6, g7⟩ := exp_next_of_go b r hgo
    have hfloor : ⌊(b.CurrentInterval : ℚ) * b.Multiplier⌋ = b.CurrentInterval * 2 := by
      rw [hm, Int.floor_eq_iff]
      push_cast
      constructor <;> linarith
    have hnew : (b.NextBackOff r).2.CurrentInterval = min (A * 2 ^ (k + 1)) M := by
      rw [g1, grow_currentInterval b (by rw [hM]; exact hMmax), hfloor, hc, hM, pow_succ,
        ← mul_assoc]
      rcases le_total (A * 2 ^ k) M with h | h
      · rw [min_eq_left h]
      · rw [min_eq_right h]
        have h2 : M ≤ A * 2 ^ k * 2 := by linarith
        rw [min_eq_right h2]
        exact min_eq_right (by linarith)
    have hbud2 : (b.NextBackOff r).2.MaxElapsedTime = 0 ∨ ∀ i < rs.length,
        Time.Sub ((b.NextBackOff r).2.Clock.readings ((b.NextBackOff r).2.Clock.pos + i))
          (b.NextBackOff r).2.StartTime ≤ (b.NextBackOff r).2.MaxElapsedTime := by
      rcases hbud with hb | hb
      · exact Or.inl (g4.trans hb)
      · by_cases h0 : b.MaxElapsedTime = 0
        · exact Or.inl (g4.trans h0)
        · right
          intro i hi
          rw [g4, g5, g6, g7, if_pos h0, Nat.add_assoc, Nat.add_comm 1 i]
          exact hb (i + 1) (Nat.succ_lt_succ hi)
    obtain ⟨ih1, ih2⟩ := ih (b.NextBackOff r).2 (k + 1) (g2.trans hm) (g3.trans hM)
      hnew hbud2
    constructor
    · show b.CurrentInterval :: (b.NextBackOff r).2.intervals rs = _
      rw [ih1, hc, List.length_cons, List.range_succ_eq_map, List.map_cons, List.map_map]
      congr 1
      apply List.map_congr_left
      intro i _
      show min (A * 2 ^ (k + 1 + i)) M = min (A * 2 ^ (k + (i + 1))) M
      rw [Nat.add_assoc, Nat.add_comm 1 i]
    · intro x hx
      rcases List.mem_cons.mp hx with h | h
      · rw [h]; exact hgo
      · exact ih2 x h

theorem exp_reset_fields (b : ExponentialBackOff) :
    b.Reset.CurrentInterval = b.InitialInterval ∧
    b.Reset.Multiplier = b.Multiplier ∧
    b.Reset.MaxInterval = b.MaxInterval ∧
    b.Reset.MaxElapsedTime = b.MaxElapsedTime ∧
    b.Reset.StartTime = b.Clock.Now.1 :=
  ⟨rfl, rfl, rfl, rfl, rfl⟩

/-- C16, as stated, fails: the policy of `TestBackOff` (500 ms, multiplier 2,
5000 ms, budget 15 min) under a clock that advances 1000 s per reading. After
`Reset` the first `NextBackOff` finds the budget exceeded and returns `Stop`
without growing the interval, so the value of `CurrentInterval` before the
second call is 500 ms, not 1000 ms. -/
theorem exp_stop_keeps_interval :
    (testBackOffExp ⟨fun n => (n : Int) * (1000 * Second), 0⟩).Reset.intervals [0, 0]
      = [500 * Millisecond, 500 * Millisecond] ∧
    (testBackOffExp ⟨fun n => (n : Int) * (1000 * Second), 0⟩).Reset.returns [0, 0]
      = [Stop, Stop] ∧
    500 * Millisecond ≠ 1000 * Millisecond := by
  have h1 := exp_next_of_stop
    (testBackOffExp ⟨fun n => (n : Int) * (1000 * Second), 0⟩).Reset 0
    (by decide) (by decide)
  have h2 := exp_next_of_stop
    ({ (testBackOffExp ⟨fun n => (n : Int) * (1000 * Second), 0⟩).Reset with
        Clock := (testBackOffExp
          ⟨fun n => (n : Int) * (1000 * Second), 0⟩).Reset.Clock.Now.2 } :
      ExponentialBackOff) 0
    (by decide) (by decide)
  refine ⟨?_, ?_, by decide⟩
  · simp only [ExponentialBackOff.intervals, h1]
    rfl
  · simp only [ExponentialBackOff.returns, h1, h2]

/-- C16, amended: an `ExponentialBackOff` with `InitialInterval` 500 ms,
`Multiplier` 2 and `MaxInterval` 5000 ms is reset and then consulted, each
consultation falling within the elapsed-time budget (none is set, or the
readings of the clock stay within `MaxElapsedTime`). The values of
`CurrentInterval` found before the calls are `min (500 ms * 2^i) (5000 ms)`,
that is 500, 1000, 2000, 4000, 5000, 5000, ... ms, and no call returns `Stop`.
In general, for every policy whose `MaxInterval` is a duration, a call that
does not return `Stop` leaves `CurrentInterval` at
`min (CurrentInterval * Multiplier) MaxInterval`, the product without its
fraction, which is not above `MaxInterval`. -/
theorem exp_intervals_500_to_5000 (b : ExponentialBackOff) (rs : List ℚ)
    (hI : b.InitialInterval = 500 * Millisecond)
    (hm : b.Multiplier = 2)
    (hM : b.MaxInterval = 5000 * Millisecond)
    (hbudget : b.MaxElapsedTime = 0 ∨ ∀ i < rs.length,
      Time.Sub (b.Reset.Clock.readings (b.Reset.Clock.pos + i)) b.Reset.StartTime
        ≤ b.MaxElapsedTime) :
    b.Reset.intervals rs
      = (List.range rs.length).map
          (fun i => min (500 * Millisecond * 2 ^ i) (5000 * Millisecond)) ∧
    (∀ x ∈ b.Reset.returns rs, x ≠ Stop) ∧
    (rs.length = 10 →
      b.Reset.intervals rs
        = [500 * Millisecond, 1000 * Millisecond, 2000 * Millisecond,
            4000 * Millisecond, 5000 * Millisecond, 5000 * Millisecond,
            5000 * Millisecond, 5000 * Millisecond, 5000 * Millisecond,
            5000 * Millisecond]) ∧
    (∀ (b2 : ExponentialBackOff) (r : ℚ), b2.MaxInterval ≤ maxDuration →
      (b2.NextBackOff r).1 ≠ Stop →
      (b2.NextBackOff r).2.CurrentInterval
          = min ⌊(b2.CurrentInterval : ℚ) * b2.Multiplier⌋ b2.MaxInterval ∧
        (b2.NextBackOff r).2.CurrentInterval ≤ b2.MaxInterval) := by
  have hseq := exp_intervals_doubling (500 * Millisecond) (5000 * Millisecond)
    (by decide) (by decide) rs b.Reset 0 hm hM
    (by
      show b.InitialInterval = min (500 * Millisecond * 2 ^ 0) (5000 * Millisecond)
      rw [hI]
      decide)
    hbudget
  have hseq1 : b.Reset.intervals rs
      = (List.range rs.length).map
          (fun i => min (500 * Millisecond * 2 ^ i) (5000 * Millisecond)) := by
    rw [hseq.1]
    apply List.map_congr_left
    intro i _
    show min (500 * Millisecond * 2 ^ (0 + i)) (5000 * Millisecond) = _
    rw [Nat.zero_add]
  refine ⟨hseq1, hseq.2, ?_, ?_⟩
  · intro hlen
    rw [hseq1, hlen]
    decide
  · intro b2 r hmax hgo
    have h := (exp_next_of_go b2 r hgo).1
    rw [grow_currentInterval b2 hmax] at h
    exact ⟨h, h.trans_le (min_le_right _ _)⟩

/-- Witness of C16, amended: the policy of `TestBackOff` under a `TestClock`,
reset and consulted 10 times. -/
theorem exp_intervals_500_to_5000_witness :
    (testBackOffExp (TestClock 0)).Reset.intervals [0, 0, 0, 0, 0, 0, 0, 0, 0, 0]
      = [500 * Millisecond, 1000 * Millisecond, 2000 * Millisecond,
          4000 * Millisecond, 5000 * Millisecond, 5000 * Millisecond,
          5000 * Millisecond, 5000 * Millisecond, 5000 * Millisecond,
          5000 * Millisecond] :=
  (exp_intervals_500_to_5000 (testBackOffExp (TestClock 0))
    [0, 0, 0, 0, 0, 0, 0, 0, 0, 0] rfl rfl (by decide) (Or.inr (by decide))).2.2.1 rfl

/-- C19, as stated, fails: the policy of `TestBackOffOverflow` under a clock
that advances 1000 s per reading. The product `CurrentInterval * Multiplier`
exceeds the largest duration, but the `NextBackOff` after `Reset` finds the
budget of 15 min exceeded and returns `Stop`, leaving `CurrentInterval` at
`MaxInt64 / 2`, which is not `MaxInterval`. -/
theorem exp_stop_keeps_interval_on_overflow :
    (((testOverflowExp ⟨fun n => (n : Int) * (1000 * Second), 0⟩).Reset.CurrentInterval
        : Duration) : ℚ)
      * (testOverflowExp ⟨fun n => (n : Int) * (1000 * Second), 0⟩).Reset.Multiplier
      > (maxDuration : ℚ) ∧
    ((testOverflowExp ⟨fun n => (n : Int) * (1000 * Second), 0⟩).Reset.NextBackOff 0).1
      = Stop ∧
    ((testOverflowExp
        ⟨fun n => (n : Int) * (1000 * Second), 0⟩).Reset.NextBackOff 0).2.CurrentInterval
      = maxDuration / 2 ∧
    ((testOverflowExp
        ⟨fun n => (n : Int) * (1000 * Second), 0⟩).Reset.NextBackOff 0).2.CurrentInterval
      ≠ (testOverflowExp ⟨fun n => (n : Int) * (1000 * Second), 0⟩).Reset.MaxInterval := by
  have h1 := exp_next_of_stop
    (testOverflowExp ⟨fun n => (n : Int) * (1000 * Second), 0⟩).Reset 0
    (by decide) (by decide)
  refine ⟨?_, ?_, ?_, ?_⟩
  · show ((maxDuration / 2 : Duration) : ℚ) * (21 / 10) > (maxDuration : ℚ)
    norm_num [maxDuration]
  · rw [h1]
  · rw [h1]
    rfl
  · rw [h1]
    show maxDuration / 2 ≠ maxDuration
    decide

/-- C19, amended: when a `NextBackOff` does not return `Stop` and the product
`CurrentInterval * Multiplier` exceeds the largest duration or exceeds
`MaxInterval`, `CurrentInterval` is exactly `MaxInterval` afterwards: not the
product, whole or wrapped, and not negative unless `MaxInterval` is. -/
theorem exp_overflow_gives_maxInterval (b : ExponentialBackOff) (r : ℚ)
    (hgo : (b.NextBackOff r).1 ≠ Stop)
    (hover : (b.CurrentInterval : ℚ) * b.Multiplier > (maxDuration : ℚ) ∨
      (b.CurrentInterval : ℚ) * b.Multiplier > (b.MaxInterval : ℚ)) :
    (b.NextBackOff r).2.CurrentInterval = b.MaxInterval ∧
    (0 ≤ b.MaxInterval → 0 ≤ (b.NextBackOff r).2.CurrentInterval) ∧
    (b.NextBackOff r).2.CurrentInterval ≤ b.MaxInterval := by
  have h : (b.NextBackOff r).2.CurrentInterval = b.MaxInterval :=
    (exp_next_of_go b r hgo).1.trans (grow_of_exceeds b hover)
  exact ⟨h, fun h0 => h ▸ h0, h.le⟩

/-- Witness of C19, amended: `TestBackOffOverflow` under a `TestClock`. With `InitialInterval = MaxInt64 / 2`,
`Multiplier = 2.1` and `MaxInterval = MaxInt64`, one `NextBackOff` after
`Reset` leaves `CurrentInterval = MaxInt64`. -/
theorem exp_overflow_gives_maxInterval_witness :
    ((testOverflowExp (TestClock 0)).Reset.NextBackOff 0).2.CurrentInterval
      = maxDuration :=
  (exp_overflow_gives_maxInterval (testOverflowExp (TestClock 0)).Reset 0
    (fun h => absurd ((exp_next_eq_stop_iff _ _).mp h) (by decide))
    (Or.inl (by
      show ((maxDuration / 2 : Duration) : ℚ) * (21 / 10) > (maxDuration : ℚ)
      norm_num [maxDuration]))).1

/-- C20: for an `ExponentialBackOff` with `MaxElapsedTime != 0`, `NextBackOff`
returns `Stop` whenever the reading of the clock minus `StartTime` is greater
than `MaxElapsedTime`, and `CurrentInterval` is then unchanged; with
`MaxElapsedTime = 0` it does not return `Stop` and does not read the clock.
`Stop` is returned in no other case. `TestMaxElapsedTime`: a clock 10000 s
after a zero `StartTime`, with the default budget of 15 min, gives `Stop`. -/
theorem exp_stop_on_elapsed (b : ExponentialBackOff) (r : ℚ) :
    (b.MaxElapsedTime ≠ 0 →
      Time.Sub b.Clock.Now.1 b.StartTime > b.MaxElapsedTime →
      (b.NextBackOff r).1 = Stop ∧
        (b.NextBackOff r).2.CurrentInterval = b.CurrentInterval) ∧
    (b.MaxElapsedTime = 0 →
      (b.NextBackOff r).1 ≠ Stop ∧ (b.NextBackOff r).2.Clock = b.Clock) ∧
    ((b.NextBackOff r).1 = Stop ↔
      (b.MaxElapsedTime ≠ 0 ∧
        Time.Sub b.Clock.Now.1 b.StartTime > b.MaxElapsedTime)) ∧
    (testMaxElapsedExp.NextBackOff r).1 = Stop := by
  refine ⟨?_, ?_, exp_next_eq_stop_iff b r, ?_⟩
  · intro h0 h1
    rw [exp_next_of_stop b r h0 h1]
    exact ⟨rfl, rfl⟩
  · intro h0
    rw [exp_next_of_unbounded b r h0]
    exact ⟨jitter_ne_stop _ _ _, (grow_fields b).2.2.2.2⟩
  · rw [exp_next_of_stop testMaxElapsedExp r (by decide) (by decide)]

/-! ## Clocks: `Reset`, `GetElapsedTime` and where the time comes from -/

/-- C21: `Reset` of an `ExponentialBackOff` sets `CurrentInterval` to
`InitialInterval` and `StartTime` to one reading of the injected clock, and a
`GetElapsedTime` right after it returns the next reading minus `StartTime`.
With a clock whose readings advance by a fixed step `s` (a duration), that
`GetElapsedTime` returns exactly `s`. -/
theorem exp_reset_then_elapsed (b : ExponentialBackOff) (start : Time) (s : Duration)
    (hclock : ∀ n : Nat, b.Clock.readings n = start + (n : Int) * s)
    (hlo : minDuration ≤ s) (hhi : s ≤ maxDuration) :
    b.Reset.CurrentInterval = b.InitialInterval ∧
    b.Reset.StartTime = b.Clock.readings b.Clock.pos ∧
    b.Reset.Clock.pos = b.Clock.pos + 1 ∧
    b.Reset.GetElapsedTime.1
      = Time.Sub (b.Clock.readings (b.Clock.pos + 1)) (b.Clock.readings b.Clock.pos) ∧
    b.Reset.GetElapsedTime.2.Clock.pos = b.Clock.pos + 2 ∧
    b.Reset.GetElapsedTime.1 = s := by
  have hdiff : b.Clock.readings (b.Clock.pos + 1) - b.Clock.readings b.Clock.pos = s := by
    rw [hclock, hclock]
    push_cast
    ring
  refine ⟨rfl, rfl, rfl, rfl, rfl, ?_⟩
  show Time.Sub (b.Clock.readings (b.Clock.pos + 1)) (b.Clock.readings b.Clock.pos) = s
  rw [Time.Sub_of_fits _ _ (by rw [hdiff]; exact hlo) (by rw [hdiff]; exact hhi), hdiff]

/-- Witness of C21: `TestGetElapsedTime`. Under a `TestClock`, which advances
one second per reading, `GetElapsedTime` right after `Reset` is one second. -/
theorem exp_reset_then_elapsed_witness :
    (testBackOffExp (TestClock 0)).Reset.GetElapsedTime.1 = Second :=
  (exp_reset_then_elapsed (testBackOffExp (TestClock 0)) 0 Second (fun _ => rfl)
    (by decide) (by decide)).2.2.2.2.2

/-- C22, as stated, fails for `ConstantBackOff`, in its first half: that the
policy obtains the time only through an injected `Clock` and never from the
system clock. (The second half, read on the readings of the system clock,
holds and is part of the amended statement.) The struct has the fields
`Interval`, `MaxElapsedTime` and `startTime` and no `Clock`; `Reset`,
`GetElapsedTime` and `NextBackOff` call `time.Now()` and `time.Since`. Take two
processes that differ in the system clock only, one frozen 1 s and one frozen
10 s after the reset. Held fixed in both: every field of the policy
`RetryEvery(1s).For(9s)`, and the readings of the one injected clock there is,
the `TestClock` of an `ExponentialBackOff` next to it. The results of the
`ConstantBackOff` differ: `NextBackOff` returns 1 s and `Stop`,
`GetElapsedTime` 1 s and 10 s, and `Reset` stores two different start times;
each call has taken a reading of the system clock. The `ExponentialBackOff`
returns the same elapsed time, 1 s, in both processes and leaves the system
clock alone. So the results of `ConstantBackOff` are not determined by its
fields and the readings of an injected clock: the statement that they do not
depend on the system clock is false for each of the three methods. -/
theorem constant_varies_with_system_clock :
    ((ConstantBackOff.nextC
        (((RetryEvery Second).For (9 * Second)).Reset wallClock2026,
          frozenAt (wallClock2026 + Second))).1 = Second ∧
      (ConstantBackOff.nextC
        (((RetryEvery Second).For (9 * Second)).Reset wallClock2026,
          frozenAt (wallClock2026 + 10 * Second))).1 = Stop) ∧
    ((ConstantBackOff.elapsedC
        (((RetryEvery Second).For (9 * Second)).Reset wallClock2026,
          frozenAt (wallClock2026 + Second))).1 = Second ∧
      (ConstantBackOff.elapsedC
        (((RetryEvery Second).For (9 * Second)).Reset wallClock2026,
          frozenAt (wallClock2026 + 10 * Second))).1 = 10 * Second) ∧
    ((ConstantBackOff.resetC
        (((RetryEvery Second).For (9 * Second)).Reset wallClock2026,
          frozenAt (wallClock2026 + Second))).1.startTime = wallClock2026 + Second ∧
      (ConstantBackOff.resetC
        (((RetryEvery Second).For (9 * Second)).Reset wallClock2026,
          frozenAt (wallClock2026 + 10 * Second))).1.startTime
        = wallClock2026 + 10 * Second) ∧
    ((ConstantBackOff.nextC
        (((RetryEvery Second).For (9 * Second)).Reset wallClock2026,
          frozenAt (wallClock2026 + Second))).2.2.pos = 1 ∧
      (ConstantBackOff.elapsedC
        (((RetryEvery Second).For (9 * Second)).Reset wallClock2026,
          frozenAt (wallClock2026 + Second))).2.2.pos = 1 ∧
      (ConstantBackOff.resetC
        (((RetryEvery Second).For (9 * Second)).Reset wallClock2026,
          frozenAt (wallClock2026 + Second))).2.pos = 1) ∧
    ((ExponentialBackOff.elapsedW
        ((testBackOffExp (TestClock wallClock2026)).Reset,
          frozenAt (wallClock2026 + Second))).1 = Second ∧
      (ExponentialBackOff.elapsedW
        ((testBackOffExp (TestClock wallClock2026)).Reset,
          frozenAt (wallClock2026 + 10 * Second))).1 = Second ∧
      (ExponentialBackOff.elapsedW
        ((testBackOffExp (TestClock wallClock2026)).Reset,
          frozenAt (wallClock2026 + 10 * Second))).2.2.pos = 0) ∧
    ¬ (∀ (b : ConstantBackOff) (sys1 sys2 : SysClock),
        (ConstantBackOff.nextC (b, sys1)).1 = (ConstantBackOff.nextC (b, sys2)).1) ∧
    ¬ (∀ (b : ConstantBackOff) (sys1 sys2 : SysClock),
        (ConstantBackOff.elapsedC (b, sys1)).1 = (ConstantBackOff.elapsedC (b, sys2)).1) ∧
    ¬ (∀ (b : ConstantBackOff) (sys1 sys2 : SysClock),
        (ConstantBackOff.resetC (b, sys1)).1 = (ConstantBackOff.resetC (b, sys2)).1) := by
  refine ⟨by decide, by decide, by decide, by decide, by decide, ?_, ?_, ?_⟩
  · intro h
    exact absurd (h (((RetryEvery Second).For (9 * Second)).Reset wallClock2026)
      (frozenAt (wallClock2026 + Second)) (frozenAt (wallClock2026 + 10 * Second)))
      (by decide)
  · intro h
    exact absurd (h (((RetryEvery Second).For (9 * Second)).Reset wallClock2026)
      (frozenAt (wallClock2026 + Second)) (frozenAt (wallClock2026 + 10 * Second)))
      (by decide)
  · intro h
    exact absurd (h (((RetryEvery Second).For (9 * Second)).Reset wallClock2026)
      (frozenAt (wallClock2026 + Second)) (frozenAt (wallClock2026 + 10 * Second)))
      (by decide)

theorem constant_exec_same_readings (calls : List Call) :
    ∀ (b : ConstantBackOff) (c1 c2 : SysClock),
      (∀ i < calls.length, c1.readings (c1.pos + i) = c2.readings (c2.pos + i)) →
      (ConstantBackOff.policy.exec (b, c1) calls).2
        = (ConstantBackOff.policy.exec (b, c2) calls).2 ∧
      (ConstantBackOff.policy.exec (b, c1) calls).1.1
        = (ConstantBackOff.policy.exec (b, c2) calls).1.1 := by
  induction calls with
  | nil => intro b c1 c2 _; exact ⟨rfl, rfl⟩
  | cons c cs ih =>
    intro b c1 c2 h
    have h0 : c1.readings c1.pos = c2.readings c2.pos := by
      have := h 0 (Nat.succ_pos _)
      simpa using this
    have hshift : ∀ i < cs.length,
        c1.readings (c1.pos + 1 + i) = c2.readings (c2.pos + 1 + i) := by
      intro i hi
      have := h (i + 1) (Nat.succ_lt_succ hi)
      rw [Nat.add_assoc, Nat.add_comm 1 i, Nat.add_assoc, Nat.add_comm 1 i]
      exact this
    have hsame : ∀ i < cs.length, c1.readings (c1.pos + i) = c2.readings (c2.pos + i) :=
      fun i hi => h i (Nat.lt_succ_of_lt hi)
    cases c with
    | next =>
      by_cases hM : b.MaxElapsedTime = 0
      · have e1 : ConstantBackOff.nextC (b, c1) = (b.Interval, (b, c1)) :=
          constant_nextC_unbounded (b, c1) hM
        have e2 : ConstantBackOff.nextC (b, c2) = (b.Interval, (b, c2)) :=
          constant_nextC_unbounded (b, c2) hM
        have s1 : ConstantBackOff.policy.exec (b, c1) (Call.next :: cs)
            = ((ConstantBackOff.policy.exec (b, c1) cs).1,
                b.Interval :: (ConstantBackOff.policy.exec (b, c1) cs).2) := by
          show ((ConstantBackOff.policy.exec (ConstantBackOff.nextC (b, c1)).2 cs).1,
            (ConstantBackOff.nextC (b, c1)).1 ::
              (ConstantBackOff.policy.exec (ConstantBackOff.nextC (b, c1)).2 cs).2) = _
          rw [e1]
        have s2 : ConstantBackOff.policy.exec (b, c2) (Call.next :: cs)
            = ((ConstantBackOff.policy.exec (b, c2) cs).1,
                b.Interval :: (ConstantBackOff.policy.exec (b, c2) cs).2) := by
          show ((ConstantBackOff.policy.exec (ConstantBackOff.nextC (b, c2)).2 cs).1,
            (ConstantBackOff.nextC (b, c2)).1 ::
              (ConstantBackOff.policy.exec (ConstantBackOff.nextC (b, c2)).2 cs).2) = _
          rw [e2]
        obtain ⟨i1, i2⟩ := ih b c1 c2 hsame
        rw [s1, s2]
        exact ⟨by rw [i1], i2⟩
      · have e1 : ConstantBackOff.nextC (b, c1)
            = (b.NextBackOff (c1.readings c1.pos), (b, ⟨c1.readings, c1.pos + 1⟩)) := by
          unfold ConstantBackOff.nextC
          rw [if_pos hM]
          rfl
        have e2 : ConstantBackOff.nextC (b, c2)
            = (b.NextBackOff (c2.readings c2.pos), (b, ⟨c2.readings, c2.pos + 1⟩)) := by
          unfold ConstantBackOff.nextC
          rw [if_pos hM]
          rfl
        have s1 : ConstantBackOff.policy.exec (b, c1) (Call.next :: cs)
            = ((ConstantBackOff.policy.exec (b, ⟨c1.readings, c1.pos + 1⟩) cs).1,
                b.NextBackOff (c1.readings c1.pos) ::
                  (ConstantBackOff.policy.exec (b, ⟨c1.readings, c1.pos + 1⟩) cs).2) := by
          show ((ConstantBackOff.policy.exec (ConstantBackOff.nextC (b, c1)).2 cs).1,
            (ConstantBackOff.nextC (b, c1)).1 ::
              (ConstantBackOff.policy.exec (ConstantBackOff.nextC (b, c1)).2 cs).2) = _
          rw [e1]
        have s2 : ConstantBackOff.policy.exec (b, c2) (Call.next :: cs)
            = ((ConstantBackOff.policy.exec (b, ⟨c2.readings, c2.pos + 1⟩) cs).1,
                b.NextBackOff (c2.readings c2.pos) ::
                  (ConstantBackOff.policy.exec (b, ⟨c2.readings, c2.pos + 1⟩) cs).2) := by
          show ((ConstantBackOff.policy.exec (ConstantBackOff.nextC (b, c2)).2 cs).1,
            (ConstantBackOff.nextC (b, c2)).1 ::
              (ConstantBackOff.policy.exec (ConstantBackOff.nextC (b, c2)).2 cs).2) = _
          rw [e2]
        obtain ⟨i1, i2⟩ := ih b ⟨c1.readings, c1.pos + 1⟩ ⟨c2.readings, c2.pos + 1⟩ hshift
        rw [s1, s2, h0]
        exact ⟨by rw [i1], i2⟩
    | reset =>
      have s1 : ConstantBackOff.policy.exec (b, c1) (Call.reset :: cs)
          = ConstantBackOff.policy.exec
              (b.Reset (c1.readings c1.pos), ⟨c1.readings, c1.pos + 1⟩) cs := rfl
      have s2 : ConstantBackOff.policy.exec (b, c2) (Call.reset :: cs)
          = ConstantBackOff.policy.exec
              (b.Reset (c2.readings c2.pos), ⟨c2.readings, c2.pos + 1⟩) cs := rfl
      rw [s1, s2, h0]
      exact ih (b.Reset (c2.readings c2.pos)) ⟨c1.readings, c1.pos + 1⟩
        ⟨c2.readings, c2.pos + 1⟩ hshift

theorem Time.Sub_self_add (u : Time) (d : Duration) (hlo : minDuration ≤ d)
    (hhi : d ≤ maxDuration) : Time.Sub (u + d) u = d := by
  have h : u + d - u = d := by ring
  rw [Time.Sub_of_fits _ _ (by rw [h]; exact hlo) (by rw [h]; exact hhi), h]

/-- C22, amended. `ExponentialBackOff` obtains the time only through its
injected `Clock`: in a process its three methods give the same result and
leave the same policy whatever the system clock is, and leave the system clock
as it was; `Reset` stores the reading of the injected clock and
`GetElapsedTime` returns that reading minus `StartTime`; `NextBackOff` returns
`Stop` exactly when the budget is set and that difference exceeds it.

`ConstantBackOff` has no `Clock` and reads the system clock of the process.
`Reset` stores the reading of the system clock as the start time;
`GetElapsedTime` returns the reading of the system clock minus the start time
(saturating); `NextBackOff` with `MaxElapsedTime != 0` returns `Stop` when that
difference exceeds `MaxElapsedTime` and `Interval` otherwise; each of these
takes one reading. `NextBackOff` with `MaxElapsedTime = 0` returns `Interval`
and takes none. For every `ConstantBackOff`, whatever its fields, the elapsed
time is 0 under a system clock frozen at its start time and 1 ns under one
frozen 1 ns later. For fixed fields and a fixed sequence of readings of the
system clock the results are determined: two runs of the same `Reset` and
`NextBackOff` calls from the same fields, under system clocks that give the
same readings for as many readings as there are calls, return the same values
and leave the same fields. -/
theorem time_sources_of_policies (calls : List Call) (b : ConstantBackOff)
    (c1 c2 : SysClock)
    (hread : ∀ i < calls.length, c1.readings (c1.pos + i) = c2.readings (c2.pos + i)) :
    -- fixed fields and fixed readings of the system clock
    ((ConstantBackOff.policy.exec (b, c1) calls).2
        = (ConstantBackOff.policy.exec (b, c2) calls).2 ∧
      (ConstantBackOff.policy.exec (b, c1) calls).1.1
        = (ConstantBackOff.policy.exec (b, c2) calls).1.1) ∧
    -- `ConstantBackOff` takes its readings from the system clock
    (∀ sys : SysClock,
      ConstantBackOff.resetC (b, sys)
        = ({ b with startTime := sys.readings sys.pos }, ⟨sys.readings, sys.pos + 1⟩) ∧
      ConstantBackOff.elapsedC (b, sys)
        = (Time.Sub (sys.readings sys.pos) b.startTime, (b, ⟨sys.readings, sys.pos + 1⟩)) ∧
      (b.MaxElapsedTime ≠ 0 →
        ConstantBackOff.nextC (b, sys)
          = ((if Time.Sub (sys.readings sys.pos) b.startTime > b.MaxElapsedTime then Stop
              else b.Interval), (b, ⟨sys.readings, sys.pos + 1⟩))) ∧
      (b.MaxElapsedTime = 0 → ConstantBackOff.nextC (b, sys) = (b.Interval, (b, sys)))) ∧
    -- and so its results vary with the system clock, whatever the fields are
    ((ConstantBackOff.elapsedC (b, frozenAt b.startTime)).1 = 0 ∧
      (ConstantBackOff.elapsedC (b, frozenAt (b.startTime + 1))).1 = 1) ∧
    -- `ExponentialBackOff` takes its readings from the injected clock
    (∀ (e : ExponentialBackOff) (r : ℚ),
      (∀ sys1 sys2 : SysClock,
        (ExponentialBackOff.resetW (e, sys1)).2.1 = (ExponentialBackOff.resetW (e, sys2)).2.1 ∧
        (ExponentialBackOff.elapsedW (e, sys1)).1 = (ExponentialBackOff.elapsedW (e, sys2)).1 ∧
        (ExponentialBackOff.nextW r (e, sys1)).1 = (ExponentialBackOff.nextW r (e, sys2)).1 ∧
        (ExponentialBackOff.nextW r (e, sys1)).2.1
          = (ExponentialBackOff.nextW r (e, sys2)).2.1 ∧
        (ExponentialBackOff.resetW (e, sys1)).2.2 = sys1 ∧
        (ExponentialBackOff.elapsedW (e, sys1)).2.2 = sys1 ∧
        (ExponentialBackOff.nextW r (e, sys1)).2.2 = sys1) ∧
      (∀ sys : SysClock,
        (ExponentialBackOff.resetW (e, sys)).2.1.StartTime = e.Clock.readings e.Clock.pos ∧
        (ExponentialBackOff.resetW (e, sys)).2.1.Clock.pos = e.Clock.pos + 1 ∧
        (ExponentialBackOff.elapsedW (e, sys)).1
          = Time.Sub (e.Clock.readings e.Clock.pos) e.StartTime ∧
        (ExponentialBackOff.elapsedW (e, sys)).2.1.Clock.pos = e.Clock.pos + 1 ∧
        ((ExponentialBackOff.nextW r (e, sys)).1 = Stop ↔
          (e.MaxElapsedTime ≠ 0 ∧
            Time.Sub (e.Clock.readings e.Clock.pos) e.StartTime > e.MaxElapsedTime))) ∧
      (∀ k1 k2 : Clock, k1.Now.1 = k2.Now.1 →
        (ExponentialBackOff.NextBackOff { e with Clock := k1 } r).1
          = (ExponentialBackOff.NextBackOff { e with Clock := k2 } r).1 ∧
        (ExponentialBackOff.Reset { e with Clock := k1 }).StartTime
          = (ExponentialBackOff.Reset { e with Clock := k2 }).StartTime)) := by
  refine ⟨constant_exec_same_readings calls b c1 c2 hread, ?_, ?_, ?_⟩
  · intro sys
    refine ⟨rfl, rfl, ?_, ?_⟩
    · intro hM
      unfold ConstantBackOff.nextC
      rw [if_pos hM]
      show (b.NextBackOff (sys.readings sys.pos), (b, (⟨sys.readings, sys.pos + 1⟩ : SysClock)))
        = _
      unfold ConstantBackOff.NextBackOff ConstantBackOff.GetElapsedTime Since
      simp only [hM, ne_eq, not_false_eq_true, true_and]
    · intro hM
      unfold ConstantBackOff.nextC
      rw [if_neg (not_not.mpr hM)]
  · constructor
    · show Time.Sub b.startTime b.startTime = 0
      have := Time.Sub_self_add b.startTime 0 (by decide) (by decide)
      simpa using this
    · show Time.Sub (b.startTime + 1) b.startTime = 1
      exact Time.Sub_self_add b.startTime 1 (by decide) (by decide)
  · intro e r
    refine ⟨fun sys1 sys2 => ⟨rfl, rfl, rfl, rfl, rfl, rfl, rfl⟩, ?_, ?_⟩
    · intro sys
      refine ⟨rfl, rfl, rfl, rfl, ?_⟩
      exact exp_next_eq_stop_iff e r
    · intro k1 k2 h
      refine ⟨?_, h⟩
      unfold ExponentialBackOff.NextBackOff ExponentialBackOff.GetElapsedTime
      simp only [h]
      split_ifs <;> rfl

/-- Witness of C22, amended: `RetryEvery(1s).For(9s)` under two system clocks
that agree on their first four readings and differ afterwards. -/
theorem time_sources_of_policies_witness :
    (ConstantBackOff.policy.exec
        ((RetryEvery Second).For (9 * Second),
          ⟨fun n => wallClock2026 + (n : Int) * (4 * Second), 0⟩)
        [Call.reset, Call.next, Call.next, Call.next]).2
      = (ConstantBackOff.policy.exec
        ((RetryEvery Second).For (9 * Second),
          ⟨fun n => if n < 4 then wallClock2026 + (n : Int) * (4 * Second) else 0, 0⟩)
        [Call.reset, Call.next, Call.next, Call.next]).2 ∧
    (ConstantBackOff.policy.exec
        ((RetryEvery Second).For (9 * Second),
          ⟨fun n => wallClock2026 + (n : Int) * (4 * Second), 0⟩)
        [Call.reset, Call.next, Call.next, Call.next]).2 = [Second, Second, Stop] :=
  ⟨(time_sources_of_policies [Call.reset, Call.next, Call.next, Call.next]
    ((RetryEvery Second).For (9 * Second))
    ⟨fun n => wallClock2026 + (n : Int) * (4 * Second), 0⟩
    ⟨fun n => if n < 4 then wallClock2026 + (n : Int) * (4 * Second) else 0, 0⟩
    (by decide)).1.1, by decide⟩

/-- C23: `b.For(m)` is `b` with `MaxElapsedTime` set to `m`; `Interval` and
the start time are unchanged. `RetryEvery(d)` is `NewConstantBackOff(d)`, with
`Interval = d` and `MaxElapsedTime = 0`, so `RetryEvery(d).For(m)` has
`Interval = d` and `MaxElapsedTime = m`. -/
theorem constant_for_sets_budget (b : ConstantBackOff) (d m : Duration) :
    (b.For m).MaxElapsedTime = m ∧
    (b.For m).Interval = b.Interval ∧
    (b.For m).startTime = b.startTime ∧
    b.For m = { b with MaxElapsedTime := m } ∧
    RetryEvery d = NewConstantBackOff d ∧
    (NewConstantBackOff d).Interval = d ∧
    (NewConstantBackOff d).MaxElapsedTime = 0 ∧
    ((RetryEvery d).For m).Interval = d ∧
    ((RetryEvery d).For m).MaxElapsedTime = m :=
  ⟨rfl, rfl, rfl, rfl, rfl, rfl, rfl, rfl, rfl⟩

/-! ## `ConstantBackOff`: `Stop` once the budget is spent -/

theorem Time.Sub_mono (t1 t2 u : Time) (h : t1 ≤ t2) : Time.Sub t1 u ≤ Time.Sub t2 u := by
  have hd : t1 - u ≤ t2 - u := sub_le_sub_right h u
  have hmm : minDuration ≤ maxDuration := by unfold minDuration maxDuration; decide
  unfold Time.Sub
  split_ifs <;> linarith

/-- C34: let the readings of the clock never go backwards, and let a
`ConstantBackOff` be left as it is (no `Reset`, no `For`; `NextBackOff` itself
changes no field). If `NextBackOff` returns `Stop` at one reading of the clock,
it returns `Stop` at every later reading. This holds for every
`MaxElapsedTime`, in particular for `MaxElapsedTime > 0`. -/
theorem constant_stop_is_absorbing (b : ConstantBackOff) (readings : Nat → Time) (i j : Nat)
    (hmono : ∀ m n : Nat, m ≤ n → readings m ≤ readings n)
    (hij : i ≤ j)
    (hstop : b.NextBackOff (readings i) = Stop) :
    b.NextBackOff (readings j) = Stop ∧
    (ConstantBackOff.nextC (b, ⟨readings, i⟩)).2.1 = b ∧
    ((ConstantBackOff.nextC (b, ⟨readings, i⟩)).1 = Stop →
      (ConstantBackOff.nextC (b, ⟨readings, j⟩)).1 = Stop) := by
  have hle := Time.Sub_mono (readings i) (readings j) b.startTime (hmono i j hij)
  have key : ∀ t1 t2 : Time, Time.Sub t1 b.startTime ≤ Time.Sub t2 b.startTime →
      b.NextBackOff t1 = Stop → b.NextBackOff t2 = Stop := by
    intro t1 t2 h12 h1
    unfold ConstantBackOff.NextBackOff ConstantBackOff.GetElapsedTime Since at h1 ⊢
    by_cases hc : b.MaxElapsedTime ≠ 0 ∧ Time.Sub t1 b.startTime > b.MaxElapsedTime
    · rw [if_pos ⟨hc.1, lt_of_lt_of_le hc.2 h12⟩]
    · rw [if_neg hc] at h1
      split_ifs
      · rfl
      · exact h1
  refine ⟨key _ _ hle hstop, ?_, ?_⟩
  · unfold ConstantBackOff.nextC
    split_ifs <;> rfl
  · unfold ConstantBackOff.nextC
    by_cases hm : b.MaxElapsedTime ≠ 0
    · simp only [if_pos hm, SysClock.Now]
      exact key _ _ hle
    · simp only [if_neg hm]
      exact id

/-- Witness of C34: `RetryEvery(1s).For(9s)`, reset at an instant of 2026,
under a clock that advances four seconds per reading: the fourth reading is
twelve seconds after the reset and gives `Stop`, and so does the sixth. -/
theorem constant_stop_is_absorbing_witness :
    (((RetryEvery Second).For (9 * Second)).Reset wallClock2026).NextBackOff
        (wallClock2026 + 2 * (4 * Second)) = Second ∧
    (((RetryEvery Second).For (9 * Second)).Reset wallClock2026).NextBackOff
        (wallClock2026 + 3 * (4 * Second)) = Stop ∧
    (((RetryEvery Second).For (9 * Second)).Reset wallClock2026).NextBackOff
        (wallClock2026 + 5 * (4 * Second)) = Stop :=
  ⟨by decide, by decide,
    (constant_stop_is_absorbing (((RetryEvery Second).For (9 * Second)).Reset wallClock2026)
      (fun n => wallClock2026 + (n : Int) * (4 * Second)) 3 5
      (fun m n h => add_le_add_left
        (mul_le_mul_of_nonneg_right (Int.ofNat_le.mpr h) (by decide)) _)
      (by decide) (by decide)).1⟩

end Backoff

namespace Go

theorem contains_iff (s t : String) : Contains s t = true ↔ t.data <:+: s.data := by
  simp [Contains]

theorem contains_self (s : String) : Contains s s = true :=
  (contains_iff s s).mpr (List.infix_refl _)

theorem contains_mid (a m b : String) : Contains (a ++ m ++ b) m = true := by
  rw [contains_iff]
  exact ⟨a.data, b.data, by simp [String.data_append]⟩

theorem contains_right (a m : String) : Contains (a ++ m) m = true := by
  rw [contains_iff]
  exact ⟨a.data, [], by simp [String.data_append]⟩

theorem contains_left (m b : String) : Contains (m ++ b) m = true := by
  rw [contains_iff]
  exact ⟨[], b.data, by simp [String.data_append]⟩

theorem contains_trans (u s t : String) (h1 : Contains u s = true)
    (h2 : Contains s t = true) : Contains u t = true := by
  rw [contains_iff] at *
  exact h2.trans h1

/-- An error whose message embeds the message of another satisfies every
containment test the other satisfies. -/
theorem contains_of_embeds (g e : GoError) (t : String)
    (hemb : e.Error.data <:+: g.Error.data) (h : Contains e.Error t = true) :
    Contains g.Error t = true :=
  contains_trans g.Error e.Error t ((contains_iff _ _).mpr hemb) h

end Go

namespace Pps

open Go

/-! ## Job states -/

/-- C27, as stated, fails: `IsTerminal` returns true for `JOB_UNRUNNABLE`, which
is none of `JOB_SUCCESS`, `JOB_FAILURE` and `JOB_KILLED`; and for a value that
is not a known state it returns nothing (it panics) rather than false. -/
theorem isTerminal_unrunnable :
    IsTerminal JobState.JOB_UNRUNNABLE = some true ∧
    JobState.JOB_UNRUNNABLE ≠ JobState.JOB_SUCCESS ∧
    JobState.JOB_UNRUNNABLE ≠ JobState.JOB_FAILURE ∧
    JobState.JOB_UNRUNNABLE ≠ JobState.JOB_KILLED ∧
    IsTerminal (JobState.unrecognized 0) = none := by
  decide

/-- C27, amended: `IsTerminal(state)` returns true exactly when `state` is
`JOB_SUCCESS`, `JOB_FAILURE`, `JOB_KILLED` or `JOB_UNRUNNABLE`, returns false
exactly when it is `JOB_CREATED`, `JOB_STARTING`, `JOB_RUNNING`,
`JOB_EGRESSING` or `JOB_FINISHING`, and panics for every other value. -/
theorem isTerminal_cases (state : JobState) :
    (IsTerminal state = some true ↔
      state = JobState.JOB_SUCCESS ∨ state = JobState.JOB_FAILURE ∨
      state = JobState.JOB_KILLED ∨ state = JobState.JOB_UNRUNNABLE) ∧
    (IsTerminal state = some false ↔
      state = JobState.JOB_CREATED ∨ state = JobState.JOB_STARTING ∨
      state = JobState.JOB_RUNNING ∨ state = JobState.JOB_EGRESSING ∨
      state = JobState.JOB_FINISHING) ∧
    (IsTerminal state = none ↔ ∃ v, state = JobState.unrecognized v) := by
  cases state <;> simp [IsTerminal]

theorem trimPrefix_append (p x : String) : TrimPrefix (p ++ x) p = x := by
  unfold TrimPrefix HasPrefix
  have h : p.data <+: (p ++ x).data := by
    rw [String.data_append]
    exact List.prefix_append _ _
  rw [if_pos (by simp [h])]
  simp [String.data_append]

theorem trimPrefix_of_not_prefix (s p : String) (h : HasPrefix s p = false) :
    TrimPrefix s p = s := by
  unfold TrimPrefix
  rw [h]
  rfl

/-- C28: let `N = "JOB_" + X` be a name of the table `JobState_value`, with
value `v`. `JobStateFromName` returns `v` and no error for every string whose
upper-case form is `N`, and, when `X` does not itself begin with `JOB_`, for
every string whose upper-case form is `X`: that is for `N`, for the
pretty-printed name and for either in any letter case. For every string whose
upper-case form, with a leading `JOB_` removed and `JOB_` put in front, is not
in the table it returns an error; and in general the result is the lookup of
that canonical name. -/
theorem jobStateFromName_accepts (ToUpper : String → String)
    (JobState_value : String → Option JobState)
    (errInvalidJobStateName : String → String) (X : String) (v : JobState)
    (hN : JobState_value ("JOB_" ++ X) = some v) :
    (∀ name, ToUpper name = "JOB_" ++ X →
      JobStateFromName ToUpper JobState_value errInvalidJobStateName name
        = Except.ok v) ∧
    (HasPrefix X "JOB_" = false → ∀ name, ToUpper name = X →
      JobStateFromName ToUpper JobState_value errInvalidJobStateName name
        = Except.ok v) ∧
    (∀ name, JobState_value ("JOB_" ++ TrimPrefix (ToUpper name) "JOB_") = none →
      JobStateFromName ToUpper JobState_value errInvalidJobStateName name
        = Except.error { Error := errInvalidJobStateName name }) ∧
    (∀ name w, JobStateFromName ToUpper JobState_value errInvalidJobStateName name
        = Except.ok w ↔
      JobState_value ("JOB_" ++ TrimPrefix (ToUpper name) "JOB_") = some w) := by
  refine ⟨?_, ?_, ?_, ?_⟩
  · intro name hname
    unfold JobStateFromName
    rw [hname, trimPrefix_append, hN]
  · intro hX name hname
    unfold JobStateFromName
    rw [hname, trimPrefix_of_not_prefix X "JOB_" hX, hN]
  · intro name hnone
    unfold JobStateFromName
    rw [hnone]
  · intro name w
    unfold JobStateFromName
    cases h : JobState_value ("JOB_" ++ TrimPrefix (ToUpper name) "JOB_") with
    | none => simp
    | some value => simp

/-- Witness of C28: the name `JOB_SUCCESS` in a table with the nine names of
`IsTerminal`, with the upper-casing of ASCII letters: the enum name, the
pretty-printed name and mixed-case forms of both are accepted. -/
theorem jobStateFromName_accepts_witness :
    JobStateFromName upperASCII jobStateValueTable (fun n => n) "JOB_SUCCESS"
      = Except.ok JobState.JOB_SUCCESS ∧
    JobStateFromName upperASCII jobStateValueTable (fun n => n) "Job_Success"
      = Except.ok JobState.JOB_SUCCESS ∧
    JobStateFromName upperASCII jobStateValueTable (fun n => n) "success"
      = Except.ok JobState.JOB_SUCCESS ∧
    JobStateFromName upperASCII jobStateValueTable (fun n => n) "SucCess"
      = Except.ok JobState.JOB_SUCCESS :=
  ⟨(jobStateFromName_accepts upperASCII jobStateValueTable (fun n => n) "SUCCESS"
      JobState.JOB_SUCCESS (by decide)).1 "JOB_SUCCESS" (by decide),
   (jobStateFromName_accepts upperASCII jobStateValueTable (fun n => n) "SUCCESS"
      JobState.JOB_SUCCESS (by decide)).1 "Job_Success" (by decide),
   (jobStateFromName_accepts upperASCII jobStateValueTable (fun n => n) "SUCCESS"
      JobState.JOB_SUCCESS (by decide)).2.1 (by decide) "success" (by decide),
   (jobStateFromName_accepts upperASCII jobStateValueTable (fun n => n) "SUCCESS"
      JobState.JOB_SUCCESS (by decide)).2.1 (by decide) "SucCess" (by decide)⟩

theorem runUntil_append {σ : Type} (g : Input → σ → Option Err × σ) (a b : List Input) :
    ∀ s : σ, runUntil g (a ++ b) s
      = if (runUntil g a s).1 = none then runUntil g b (runUntil g a s).2
        else runUntil g a s := by
  induction a with
  | nil => intro s; simp [runUntil]
  | cons x xs ih =>
    intro s
    simp only [List.cons_append, runUntil]
    rcases hg : g x s with ⟨r, s2⟩
    cases r with
    | none => exact ih s2
    | some e => simp

theorem runUntil_single {σ : Type} (g : Input → σ → Option Err × σ) (n : Input) (s : σ) :
    runUntil g [n] s = g n s := by
  simp only [runUntil]
  rcases hg : g n s with ⟨r, s2⟩
  cases r <;> rfl

/-- The shape of a node that has at most one list set. -/
theorem oneList_node (pfs : Option PFSInput) (cron : Option CronInput)
    (cross join group union : Option (List Input))
    (h : (Input.node pfs cron cross join group union).oneList = true) :
    oneListSlice cross = true ∧ oneListSlice join = true ∧ oneListSlice group = true ∧
      oneListSlice union = true ∧
    ((join = none ∧ group = none ∧ union = none) ∨
      (cross = none ∧ group = none ∧ union = none) ∨
      (cross = none ∧ join = none ∧ union = none) ∨
      (cross = none ∧ join = none ∧ group = none)) := by
  simp only [Input.oneList, Bool.and_eq_true, decide_eq_true_eq] at h
  obtain ⟨⟨⟨⟨hsum, h1⟩, h2⟩, h3⟩, h4⟩ := h
  refine ⟨h1, h2, h3, h4, ?_⟩
  cases cross <;> cases join <;> cases group <;> cases union <;>
    simp at hsum ⊢

mutual
theorem visitInput_readOnly {σ : Type} (g : Input → σ → Option Err × σ) :
    ∀ (t : Input) (s : σ), t.oneList = true →
      visitInput (readOnly g) t s
        = ((runUntil g t.postOrder s).1, t, (runUntil g t.postOrder s).2)
  | Input.null, s, _ => by simp [visitInput, Input.postOrder, runUntil]
  | Input.node pfs cron (some source) join group union, s, h => by
    obtain ⟨h1, -, -, -, hshape⟩ := oneList_node _ _ _ _ _ _ h
    obtain ⟨rfl, rfl, rfl⟩ : join = none ∧ group = none ∧ union = none := by
      rcases hshape with h | h | h | h
      · exact h
      · exact absurd h.1 (by simp)
      · exact absurd h.1 (by simp)
      · exact absurd h.1 (by simp)
    have ih := visitInputs_readOnly g source s h1
    simp only [visitInput, Input.postOrder, postOrderSlice, List.append_nil, ih,
      runUntil_append, runUntil_single]
    rcases hr : runUntil g (postOrderList source) s with ⟨r, s2⟩
    cases r <;> simp [readOnly]
  | Input.node pfs cron none (some source) group union, s, h => by
    obtain ⟨-, h1, -, -, hshape⟩ := oneList_node _ _ _ _ _ _ h
    obtain ⟨rfl, rfl⟩ : group = none ∧ union = none := by
      rcases hshape with h | h | h | h
      · exact absurd h.1 (by simp)
      · exact h.2
      · exact absurd h.2.1 (by simp)
      · exact absurd h.2.1 (by simp)
    have ih := visitInputs_readOnly g source s h1
    simp only [visitInput, Input.postOrder, postOrderSlice, List.append_nil, List.nil_append,
      ih, runUntil_append, runUntil_single]
    rcases hr : runUntil g (postOrderList source) s with ⟨r, s2⟩
    cases r <;> simp [readOnly]
  | Input.node pfs cron none none (some source) union, s, h => by
    obtain ⟨-, -, h1, -, hshape⟩ := oneList_node _ _ _ _ _ _ h
    obtain rfl : union = none := by
      rcases hshape with h | h | h | h
      · exact absurd h.2.1 (by simp)
      · exact absurd h.2.1 (by simp)
      · exact h.2.2
      · exact absurd h.2.2 (by simp)
    have ih := visitInputs_readOnly g source s h1
    simp only [visitInput, Input.postOrder, postOrderSlice, List.append_nil, List.nil_append,
      ih, runUntil_append, runUntil_single]
    rcases hr : runUntil g (postOrderList source) s with ⟨r, s2⟩
    cases r <;> simp [readOnly]
  | Input.node pfs cron none none none (some source), s, h => by
    obtain ⟨-, -, -, h1, -⟩ := oneList_node _ _ _ _ _ _ h
    have ih := visitInputs_readOnly g source s h1
    simp only [visitInput, Input.postOrder, postOrderSlice, List.append_nil, List.nil_append,
      ih, runUntil_append, runUntil_single]
    rcases hr : runUntil g (postOrderList source) s with ⟨r, s2⟩
    cases r <;> simp [readOnly]
  | Input.node pfs cron none none none none, s, _ => by
    simp only [visitInput, Input.postOrder, postOrderSlice, List.append_nil, List.nil_append,
      runUntil_single]
    rfl
theorem visitInputs_readOnly {σ : Type} (g : Input → σ → Option Err × σ) :
    ∀ (l : List Input) (s : σ), oneListList l = true →
      visitInputs (readOnly g) l s
        = ((runUntil g (postOrderList l) s).1, l, (runUntil g (postOrderList l) s).2)
  | [], s, _ => by simp [visitInputs, postOrderList, runUntil]
  | x :: xs, s, h => by
    simp only [oneListList, Bool.and_eq_true] at h
    have ih1 := visitInput_readOnly g x s h.1
    simp only [visitInputs, postOrderList, ih1, runUntil_append]
    rcases hr : runUntil g x.postOrder s with ⟨r, s2⟩
    cases r with
    | some e => simp
    | none =>
      have ih2 := visitInputs_readOnly g xs s2 h.2
      simp [ih2]
end

/-! ## `SortInput` -/

/-- The order in which `SortInputs` sorts: neither before the other when
the names are equal. -/
theorem sortRel_iff (a b : Input) :
    (decide (InputName b < InputName a) = false) ↔ InputName a ≤ InputName b := by
  simp

theorem sortInputs_perm (l : List Input) : (SortInputs l).Perm l :=
  List.perm_insertionSort _ l

theorem sortInputs_sorted (l : List Input) :
    (SortInputs l).Sorted (fun a b => InputName a ≤ InputName b) := by
  have htotal : IsTotal Input (fun a b => decide (InputName b < InputName a) = false) :=
    ⟨fun a b => by
      simp only [sortRel_iff]
      exact le_total _ _⟩
  have htrans : IsTrans Input (fun a b => decide (InputName b < InputName a) = false) :=
    ⟨fun a b c hab hbc => by
      simp only [sortRel_iff] at *
      exact le_trans hab hbc⟩
  have h := @List.sorted_insertionSort Input
    (fun a b => decide (InputName b < InputName a) = false) _ htotal htrans l
  exact List.Pairwise.imp (fun {a b} hab => (sortRel_iff a b).mp hab) h

/-- Stability: a sublist of the input whose names do not decrease is still a
sublist of the sorted list. -/
theorem sortInputs_sublist (l c : List Input)
    (hc : c.Pairwise (fun a b => InputName a ≤ InputName b)) (hsub : List.Sublist c l) :
    List.Sublist c (SortInputs l) :=
  List.sublist_insertionSort
    (List.Pairwise.imp (fun {a b} hab => (sortRel_iff a b).mpr hab) hc) hsub

/-- Stability: the elements of one name are in the sorted list in the order
they had before. -/
theorem sortInputs_filter_name (l : List Input) (k : String) :
    (SortInputs l).filter (fun x => decide (InputName x = k))
      = l.filter (fun x => decide (InputName x = k)) := by
  have hpair : (l.filter (fun x => decide (InputName x = k))).Pairwise
      (fun a b => InputName a ≤ InputName b) := by
    rw [List.pairwise_iff_forall_sublist]
    intro a b hab
    have ha : a ∈ l.filter (fun x => decide (InputName x = k)) :=
      hab.subset (List.mem_cons_self _ _)
    have hb : b ∈ l.filter (fun x => decide (InputName x = k)) :=
      hab.subset (List.mem_cons_of_mem _ (List.mem_cons_self _ _))
    simp only [List.mem_filter, decide_eq_true_eq] at ha hb
    rw [ha.2, hb.2]
  have hsub : List.Sublist (l.filter (fun x => decide (InputName x = k))) (SortInputs l) :=
    sortInputs_sublist l _ hpair (List.filter_sublist l)
  have hsub2 : List.Sublist (l.filter (fun x => decide (InputName x = k)))
      ((SortInputs l).filter (fun x => decide (InputName x = k))) := by
    have := hsub.filter (fun x => decide (InputName x = k))
    simpa only [List.filter_filter, Bool.and_self] using this
  have hlen : (l.filter (fun x => decide (InputName x = k))).length
      = ((SortInputs l).filter (fun x => decide (InputName x = k))).length :=
    ((sortInputs_perm l).filter _).length_eq.symm
  exact (hsub2.eq_of_length hlen).symm

mutual
theorem visitInput_sort_ok : ∀ (t : Input) (s : Unit),
    (visitInput sortVisitor t s).1 = none
  | Input.null, s => by simp [visitInput]
  | Input.node pfs cron (some source) join group union, s => by
    simp only [visitInput, visitInputs_sort source s]
    rfl
  | Input.node pfs cron none (some source) group union, s => by
    simp only [visitInput, visitInputs_sort source s]
    rfl
  | Input.node pfs cron none none (some source) union, s => by
    simp only [visitInput, visitInputs_sort source s]
    rfl
  | Input.node pfs cron none none none (some source), s => by
    simp only [visitInput, visitInputs_sort source s]
    rfl
  | Input.node pfs cron none none none none, s => by
    simp only [visitInput]
    rfl
theorem visitInputs_sort : ∀ (l : List Input) (s : Unit),
    visitInputs sortVisitor l s
      = (none, l.map (fun x => (visitInput sortVisitor x ()).2.1), ())
  | [], s => by simp [visitInputs]
  | x :: xs, s => by
    have h1 := visitInput_sort_ok x s
    have h2 := visitInputs_sort xs
    rcases hv : visitInput sortVisitor x s with ⟨r, x2, s2⟩
    rw [hv] at h1
    simp only at h1
    subst h1
    have hx : (visitInput sortVisitor x ()).2.1 = x2 := by
      have : s = () := rfl
      rw [← this, hv]
    simp only [visitInputs, hv, h2 s2, List.map_cons, hx]
end

theorem sortInput_eq (t : Input) : SortInput t = (visitInput sortVisitor t ()).2.1 := by
  unfold SortInput VisitInput
  have h := visitInput_sort_ok t ()
  rcases hv : visitInput sortVisitor t () with ⟨r, t2, s2⟩
  rw [hv] at h
  simp only at h
  subst h
  rfl

theorem visitInputs_sort_map (l : List Input) (s : Unit) :
    visitInputs sortVisitor l s = (none, l.map SortInput, ()) := by
  rw [visitInputs_sort]
  congr
  funext x
  exact (sortInput_eq x).symm

theorem sortInput_null : SortInput Input.null = Input.null := rfl

theorem sortInput_cross (pfs : Option PFSInput) (cron : Option CronInput)
    (l : List Input) (join group union : Option (List Input)) :
    SortInput (Input.node pfs cron (some l) join group union)
      = Input.node pfs cron (some (SortInputs (l.map SortInput))) join group union := by
  rw [sortInput_eq]
  simp only [visitInput, visitInputs_sort_map]
  rfl

theorem sortInput_join (pfs : Option PFSInput) (cron : Option CronInput)
    (l : List Input) (group union : Option (List Input)) :
    SortInput (Input.node pfs cron none (some l) group union)
      = Input.node pfs cron none (some (SortInputs (l.map SortInput))) group union := by
  rw [sortInput_eq]
  simp only [visitInput, visitInputs_sort_map]
  rfl

theorem sortInput_group (pfs : Option PFSInput) (cron : Option CronInput)
    (l : List Input) (union : Option (List Input)) :
    SortInput (Input.node pfs cron none none (some l) union)
      = Input.node pfs cron none none (some (SortInputs (l.map SortInput))) union := by
  rw [sortInput_eq]
  simp only [visitInput, visitInputs_sort_map]
  rfl

theorem sortInput_union (pfs : Option PFSInput) (cron : Option CronInput)
    (l : List Input) :
    SortInput (Input.node pfs cron none none none (some l))
      = Input.node pfs cron none none none (some (SortInputs (l.map SortInput))) := by
  rw [sortInput_eq]
  simp only [visitInput, visitInputs_sort_map]
  rfl

theorem sortInput_leaf (pfs : Option PFSInput) (cron : Option CronInput) :
    SortInput (Input.node pfs cron none none none none)
      = Input.node pfs cron none none none none := by
  rw [sortInput_eq]
  simp only [visitInput]
  rfl

theorem mem_postOrderList (m : Input) (l : List Input) :
    m ∈ postOrderList l ↔ ∃ x ∈ l, m ∈ x.postOrder := by
  induction l with
  | nil => simp [postOrderList]
  | cons x xs ih => simp [postOrderList, ih]

theorem postOrder_one_list (pfs : Option PFSInput) (cron : Option CronInput)
    (cross join group union : Option (List Input))
    (h : (Input.node pfs cron cross join group union).oneList = true) :
    (Input.node pfs cron cross join group union).postOrder
      = postOrderList (Input.node pfs cron cross join group union).children
        ++ [Input.node pfs cron cross join group union] ∧
    oneListList (Input.node pfs cron cross join group union).children = true := by
  obtain ⟨h1, h2, h3, h4, hshape⟩ := oneList_node _ _ _ _ _ _ h
  rcases hshape with ⟨rfl, rfl, rfl⟩ | ⟨rfl, rfl, rfl⟩ | ⟨rfl, rfl, rfl⟩ | ⟨rfl, rfl, rfl⟩
  · cases cross with
    | none => exact ⟨by simp [Input.postOrder, postOrderSlice, Input.children, postOrderList], rfl⟩
    | some l => exact ⟨by simp [Input.postOrder, postOrderSlice, Input.children], by simpa [Input.children, oneListSlice] using h1⟩
  · cases join with
    | none => exact ⟨by simp [Input.postOrder, postOrderSlice, Input.children, postOrderList], rfl⟩
    | some l => exact ⟨by simp [Input.postOrder, postOrderSlice, Input.children], by simpa [Input.children, oneListSlice] using h2⟩
  · cases group with
    | none => exact ⟨by simp [Input.postOrder, postOrderSlice, Input.children, postOrderList], rfl⟩
    | some l => exact ⟨by simp [Input.postOrder, postOrderSlice, Input.children], by simpa [Input.children, oneListSlice] using h3⟩
  · cases union with
    | none => exact ⟨by simp [Input.postOrder, postOrderSlice, Input.children, postOrderList], rfl⟩
    | some l => exact ⟨by simp [Input.postOrder, postOrderSlice, Input.children], by simpa [Input.children, oneListSlice] using h4⟩

/-- The children of a sorted node are the stable sort of the sorted children. -/
theorem sortInput_children (t : Input) (h : t.oneList = true) :
    (SortInput t).children = SortInputs (t.children.map SortInput) := by
  cases t with
  | null => rfl
  | node pfs cron cross join group union =>
    obtain ⟨-, -, -, -, hshape⟩ := oneList_node _ _ _ _ _ _ h
    rcases hshape with ⟨rfl, rfl, rfl⟩ | ⟨rfl, rfl, rfl⟩ | ⟨rfl, rfl, rfl⟩ | ⟨rfl, rfl, rfl⟩
    · cases cross with
      | none => rw [sortInput_leaf]; rfl
      | some l => rw [sortInput_cross]; simp [Input.children]
    · cases join with
      | none => rw [sortInput_leaf]; rfl
      | some l => rw [sortInput_join]; simp [Input.children]
    · cases group with
      | none => rw [sortInput_leaf]; rfl
      | some l => rw [sortInput_group]; simp [Input.children]
    · cases union with
      | none => rw [sortInput_leaf]; rfl
      | some l => rw [sortInput_union]; simp [Input.children]

/-- The post-order of a sorted node: the post-order of its sorted children and
then the node. -/
theorem sortInput_postOrder (pfs : Option PFSInput) (cron : Option CronInput)
    (cross join group union : Option (List Input))
    (h : (Input.node pfs cron cross join group union).oneList = true) :
    (SortInput (Input.node pfs cron cross join group union)).postOrder
      = postOrderList (SortInput (Input.node pfs cron cross join group union)).children
        ++ [SortInput (Input.node pfs cron cross join group union)] := by
  obtain ⟨-, -, -, -, hshape⟩ := oneList_node _ _ _ _ _ _ h
  rcases hshape with ⟨rfl, rfl, rfl⟩ | ⟨rfl, rfl, rfl⟩ | ⟨rfl, rfl, rfl⟩ | ⟨rfl, rfl, rfl⟩
  · cases cross with
    | none => rw [sortInput_leaf]; simp [Input.postOrder, postOrderSlice, Input.children, postOrderList]
    | some l => rw [sortInput_cross]; simp [Input.postOrder, postOrderSlice, Input.children]
  · cases join with
    | none => rw [sortInput_leaf]; simp [Input.postOrder, postOrderSlice, Input.children, postOrderList]
    | some l => rw [sortInput_join]; simp [Input.postOrder, postOrderSlice, Input.children]
  · cases group with
    | none => rw [sortInput_leaf]; simp [Input.postOrder, postOrderSlice, Input.children, postOrderList]
    | some l => rw [sortInput_group]; simp [Input.postOrder, postOrderSlice, Input.children]
  · cases union with
    | none => rw [sortInput_leaf]; simp [Input.postOrder, postOrderSlice, Input.children, postOrderList]
    | some l => rw [sortInput_union]; simp [Input.postOrder, postOrderSlice, Input.children]

mutual
theorem oneList_of_mem_postOrder : ∀ (t : Input), t.oneList = true →
    ∀ n ∈ t.postOrder, n.oneList = true
  | Input.null, _, n, hn => by simp [Input.postOrder] at hn
  | Input.node pfs cron cross join group union, h, n, hn => by
    obtain ⟨h1, h2, h3, h4, -⟩ := oneList_node _ _ _ _ _ _ h
    simp only [Input.postOrder, List.mem_append, List.mem_singleton] at hn
    rcases hn with (((hn | hn) | hn) | hn) | hn
    · exact oneList_of_mem_slice cross h1 n hn
    · exact oneList_of_mem_slice join h2 n hn
    · exact oneList_of_mem_slice group h3 n hn
    · exact oneList_of_mem_slice union h4 n hn
    · rw [hn]; exact h
theorem oneList_of_mem_slice : ∀ (sl : Option (List Input)), oneListSlice sl = true →
    ∀ n ∈ postOrderSlice sl, n.oneList = true
  | none, _, n, hn => by simp [postOrderSlice] at hn
  | some l, h, n, hn => oneList_of_mem_list l h n hn
theorem oneList_of_mem_list : ∀ (l : List Input), oneListList l = true →
    ∀ n ∈ postOrderList l, n.oneList = true
  | [], _, n, hn => by simp [postOrderList] at hn
  | x :: xs, h, n, hn => by
    simp only [oneListList, Bool.and_eq_true] at h
    simp only [postOrderList, List.mem_append] at hn
    rcases hn with hn | hn
    · exact oneList_of_mem_postOrder x h.1 n hn
    · exact oneList_of_mem_list xs h.2 n hn
end

mutual
theorem sortInput_nodes : ∀ (t : Input), t.oneList = true →
    ∀ m ∈ (SortInput t).postOrder, ∃ n ∈ t.postOrder, m = SortInput n
  | Input.null, _, m, hm => by simp [sortInput_null, Input.postOrder] at hm
  | Input.node pfs cron cross join group union, h, m, hm => by
    obtain ⟨hpo, hkids⟩ := postOrder_one_list _ _ _ _ _ _ h
    rw [sortInput_postOrder _ _ _ _ _ _ h, sortInput_children _ h] at hm
    simp only [List.mem_append] at hm
    rcases hm with hm | hm
    · have hm2 : m ∈ postOrderList
          ((Input.node pfs cron cross join group union).children.map SortInput) := by
        rw [mem_postOrderList] at hm ⊢
        obtain ⟨x, hx, hmx⟩ := hm
        exact ⟨x, (sortInputs_perm _).mem_iff.mp hx, hmx⟩
      obtain ⟨h1, h2, h3, h4, hshape⟩ := oneList_node _ _ _ _ _ _ h
      have key : ∃ n ∈ postOrderList (Input.node pfs cron cross join group union).children,
          m = SortInput n := by
        rcases hshape with ⟨rfl, rfl, rfl⟩ | ⟨rfl, rfl, rfl⟩ | ⟨rfl, rfl, rfl⟩ | ⟨rfl, rfl, rfl⟩
        · cases cross with
          | none => simp [Input.children, postOrderList] at hm2
          | some l =>
            have hl : oneListList l = true := h1
            have := sortInput_nodes_list l hl m (by simpa [Input.children] using hm2)
            simpa [Input.children] using this
        · cases join with
          | none => simp [Input.children, postOrderList] at hm2
          | some l =>
            have hl : oneListList l = true := h2
            have := sortInput_nodes_list l hl m (by simpa [Input.children] using hm2)
            simpa [Input.children] using this
        · cases group with
          | none => simp [Input.children, postOrderList] at hm2
          | some l =>
            have hl : oneListList l = true := h3
            have := sortInput_nodes_list l hl m (by simpa [Input.children] using hm2)
            simpa [Input.children] using this
        · cases union with
          | none => simp [Input.children, postOrderList] at hm2
          | some l =>
            have hl : oneListList l = true := h4
            have := sortInput_nodes_list l hl m (by simpa [Input.children] using hm2)
            simpa [Input.children] using this
      obtain ⟨n, hn, hmn⟩ := key
      exact ⟨n, by rw [hpo]; exact List.mem_append_left _ hn, hmn⟩
    · simp only [List.mem_singleton] at hm
      exact ⟨_, by rw [hpo]; exact List.mem_append_right _ (List.mem_singleton_self _), hm⟩
theorem sortInput_nodes_list : ∀ (l : List Input), oneListList l = true →
    ∀ m ∈ postOrderList (l.map SortInput), ∃ n ∈ postOrderList l, m = SortInput n
  | [], _, m, hm => by simp [postOrderList] at hm
  | x :: xs, h, m, hm => by
    simp only [oneListList, Bool.and_eq_true] at h
    simp only [List.map_cons, postOrderList, List.mem_append] at hm
    rcases hm with hm | hm
    · obtain ⟨n, hn, hmn⟩ := sortInput_nodes x h.1 m hm
      exact ⟨n, by simp only [postOrderList, List.mem_append]; exact Or.inl hn, hmn⟩
    · obtain ⟨n, hn, hmn⟩ := sortInput_nodes_list xs h.2 m hm
      exact ⟨n, by simp only [postOrderList, List.mem_append]; exact Or.inr hn, hmn⟩
end

/-! ## `VisitInput` -/

theorem runUntil_of_ok {σ : Type} (g : Input → σ → Option Err × σ)
    (hok : ∀ n st, (g n st).1 = none) (l : List Input) :
    ∀ s : σ, runUntil g l s = (none, l.foldl (fun st n => (g n st).2) s) := by
  induction l with
  | nil => intro s; rfl
  | cons x xs ih =>
    intro s
    have h := hok x s
    rcases hg : g x s with ⟨r, s2⟩
    rw [hg] at h
    simp only at h
    subst h
    simp only [runUntil, hg, List.foldl_cons, ih s2]

theorem visitInput_eq_runUntil {σ : Type} (g : Input → σ → Option Err × σ)
    (input : Input) (s : σ) (hone : input.oneList = true) :
    VisitInput (readOnly g) input s
      = ((match (runUntil g input.postOrder s).1 with
          | some err => if isErrBreak err then none else some err
          | none => none),
         input, (runUntil g input.postOrder s).2) := by
  unfold VisitInput
  rw [visitInput_readOnly g input s hone]
  rcases hr : runUntil g input.postOrder s with ⟨r, s2⟩
  cases r with
  | none => rfl
  | some err => by_cases hb : isErrBreak err = true <;> simp [hb]

/-- C24: let every node of `input` have at most one of the four lists set, and
let `f` never return an error. `VisitInput(input, f)` returns nil, leaves the
input as it was, and has called `f` on the nodes of `input.postOrder`, once
each and in that order: the non-nil nodes reachable through the child lists,
where the post-order of a node is the post-order of its children from left to
right followed by the node itself, so that the root comes last, and a nil
pointer contributes nothing. -/
theorem visitInput_calls_in_postOrder {σ : Type} (g : Input → σ → Option Err × σ)
    (input : Input) (s : σ)
    (hone : input.oneList = true)
    (hok : ∀ n st, (g n st).1 = none) :
    VisitInput (readOnly g) input s
      = (none, input, input.postOrder.foldl (fun st n => (g n st).2) s) ∧
    (∀ pfs cron cross join group union,
      input = Input.node pfs cron cross join group union →
      input.postOrder = postOrderList input.children ++ [input]) ∧
    (∀ (x : Input) (xs : List Input),
      postOrderList (x :: xs) = x.postOrder ++ postOrderList xs) ∧
    postOrderList [] = [] ∧
    Input.null.postOrder = [] := by
  refine ⟨?_, ?_, fun x xs => by simp [postOrderList], by simp [postOrderList],
    by simp [Input.postOrder]⟩
  · rw [visitInput_eq_runUntil g input s hone, runUntil_of_ok g hok]
  · intro pfs cron cross join group union hin
    subst hin
    exact (postOrder_one_list _ _ _ _ _ _ hone).1

/-- Witness of C24: a cross of `b`, `a`, a nil pointer and a union of `d`, `c`,
visited by a function that records the name of each node. -/
theorem visitInput_calls_in_postOrder_witness :
    VisitInput (readOnly (fun n log => (none, log ++ [InputName n]))) sampleInput []
      = (none, sampleInput, ["b", "a", "d", "c", "d", "b"]) :=
  (visitInput_calls_in_postOrder (fun n log => (none, log ++ [InputName n])) sampleInput []
    rfl (fun _ _ => rfl)).1

/-- C25: let every node of `input` have at most one of the four lists set, and
let `f` return nil on the nodes `pre` that come before a node `n` in the
post-order and an error `e` on `n`. Then `VisitInput` calls `f` on no node
after `n`: the state is the one `f` left at `n`. It returns nil when `e` is
or wraps `ErrBreak`, and `e` itself otherwise. -/
theorem visitInput_stops_at_error {σ : Type} (g : Input → σ → Option Err × σ)
    (input : Input) (s : σ) (pre post : List Input) (n : Input) (e : Err)
    (hone : input.oneList = true)
    (hsplit : input.postOrder = pre ++ n :: post)
    (hpre : (runUntil g pre s).1 = none)
    (herr : (g n (runUntil g pre s).2).1 = some e) :
    VisitInput (readOnly g) input s
      = ((if isErrBreak e then none else some e), input, (g n (runUntil g pre s).2).2) ∧
    (visitInput (readOnly g) input s).1 = some e ∧
    (isErrBreak e = true → (VisitInput (readOnly g) input s).1 = none) ∧
    (isErrBreak e = false → (VisitInput (readOnly g) input s).1 = some e) := by
  have hrun : runUntil g input.postOrder s = (some e, (g n (runUntil g pre s).2).2) := by
    rw [hsplit, runUntil_append, if_pos hpre]
    simp only [runUntil]
    rcases hg : g n (runUntil g pre s).2 with ⟨r, s2⟩
    rw [hg] at herr
    simp only at herr
    subst herr
    rfl
  have hV : VisitInput (readOnly g) input s
      = ((if isErrBreak e then none else some e), input,
          (g n (runUntil g pre s).2).2) := by
    rw [visitInput_eq_runUntil g input s hone, hrun]
  refine ⟨hV, ?_, ?_, ?_⟩
  · rw [visitInput_readOnly g input s hone, hrun]
  · intro hb
    rw [hV, if_pos hb]
  · intro hb
    rw [hV, hb]
    rfl

/-- Witness of C25: on the same input a function that fails on the node `d`
with an error wrapping `ErrBreak`: the visit ends there with nil, after `b`,
`a` and `d`. -/
theorem visitInput_stops_at_error_witness :
    VisitInput (readOnly (recordNames "d" (Err.wrap "stop" Err.ErrBreak))) sampleInput []
      = (none, sampleInput, ["b", "a", "d"]) :=
  (visitInput_stops_at_error (recordNames "d" (Err.wrap "stop" Err.ErrBreak)) sampleInput []
    [pfsNamed "b", pfsNamed "a"]
    [pfsNamed "c",
      Input.node none none none none none (some [pfsNamed "d", pfsNamed "c"]),
      sampleInput]
    (pfsNamed "d") (Err.wrap "stop" Err.ErrBreak) rfl rfl (by decide) (by decide)).1

/-- C26: let every node of `input` have at most one of the four lists set.
After `SortInput(input)` every node of the result is the sorted form
`SortInput n` of a node `n` of the input, and for every node `n` of the input
the child list of `SortInput n` is a permutation of the children of `n`, each
sorted in turn; it is in non-decreasing order of `InputName`, taken on these
sorted children; and children of equal name, more generally children whose
names do not decrease, keep their relative order. Hence the child list of
every node of the result is in non-decreasing order of `InputName`. -/
theorem sortInput_sorts_every_node (input : Input) (hone : input.oneList = true) :
    (∀ m ∈ (SortInput input).postOrder, ∃ n ∈ input.postOrder, m = SortInput n) ∧
    (∀ n ∈ input.postOrder,
      (SortInput n).children.Perm (n.children.map SortInput) ∧
      (SortInput n).children.Sorted (fun a b => InputName a ≤ InputName b) ∧
      (∀ k : String,
        (SortInput n).children.filter (fun x => decide (InputName x = k))
          = (n.children.map SortInput).filter (fun x => decide (InputName x = k))) ∧
      (∀ c : List Input, c.Pairwise (fun a b => InputName a ≤ InputName b) →
        List.Sublist c (n.children.map SortInput) →
        List.Sublist c (SortInput n).children)) ∧
    (∀ m ∈ (SortInput input).postOrder,
      m.children.Sorted (fun a b => InputName a ≤ InputName b)) := by
  have hnode : ∀ n ∈ input.postOrder,
      (SortInput n).children = SortInputs (n.children.map SortInput) :=
    fun n hn => sortInput_children n (oneList_of_mem_postOrder input hone n hn)
  refine ⟨sortInput_nodes input hone, ?_, ?_⟩
  · intro n hn
    rw [hnode n hn]
    exact ⟨sortInputs_perm _, sortInputs_sorted _, sortInputs_filter_name _,
      fun c hc hsub => sortInputs_sublist _ c hc hsub⟩
  · intro m hm
    obtain ⟨n, hn, rfl⟩ := sortInput_nodes input hone m hm
    rw [hnode n hn]
    exact sortInputs_sorted _

/-- Witness of C26: the sorted form of the cross of `b`, `a`, a nil pointer and
a union of `d`, `c`: the nil pointer (name "") first, then `a`, `b` and the
union, whose name after its own sorting is `c`. -/
theorem sortInput_sorts_every_node_witness :
    (SortInput sampleInput).children.Sorted (fun a b => InputName a ≤ InputName b) ∧
    (SortInput sampleInput).children.map InputName = ["", "a", "b", "c"] :=
  ⟨((sortInput_sorts_every_node sampleInput rfl).2.1 sampleInput
      (by simp [sampleInput, Input.postOrder, postOrderSlice])).2.1,
    by
      have hlt : ∀ a b : String, a < b ↔ a.toList < b.toList := fun a b => String.lt_iff_toList_lt
      simp +decide [SortInput, VisitInput, visitInput, visitInputs, sortVisitor, SortInputs, SliceStable,
        sampleInput, pfsNamed, InputName, InputNameFirst, Input.children, isErrBreak, hlt]⟩

/-! ## `SortInput`, applied twice -/

theorem sortInputs_of_fixed (l : List Input) (hfix : ∀ x ∈ l, SortInput x = x) :
    SortInputs ((SortInputs l).map SortInput) = SortInputs l := by
  have hmap : (SortInputs l).map SortInput = SortInputs l := by
    have h : ∀ x ∈ SortInputs l, SortInput x = id x :=
      fun x hx => hfix x ((sortInputs_perm l).mem_iff.mp hx)
    rw [List.map_congr_left h, List.map_id]
  rw [hmap]
  have hs : (SortInputs l).Sorted (fun a b => decide (InputName b < InputName a) = false) :=
    List.Pairwise.imp (fun {a b} hab => (sortRel_iff a b).mpr hab) (sortInputs_sorted l)
  exact List.Sorted.insertionSort_eq hs

theorem mem_map_sortInput_fixed (l : List Input)
    (h : ∀ x ∈ l, SortInput (SortInput x) = SortInput x) :
    ∀ y ∈ l.map SortInput, SortInput y = y := by
  intro y hy
  obtain ⟨x, hx, rfl⟩ := List.mem_map.mp hy
  exact h x hx

mutual
theorem sortInput_fixed : ∀ t : Input, SortInput (SortInput t) = SortInput t
  | Input.null => rfl
  | Input.node pfs cron (some l) join group union => by
    rw [sortInput_cross, sortInput_cross,
      sortInputs_of_fixed _ (mem_map_sortInput_fixed l (sortInput_fixed_list l))]
  | Input.node pfs cron none (some l) group union => by
    rw [sortInput_join, sortInput_join,
      sortInputs_of_fixed _ (mem_map_sortInput_fixed l (sortInput_fixed_list l))]
  | Input.node pfs cron none none (some l) union => by
    rw [sortInput_group, sortInput_group,
      sortInputs_of_fixed _ (mem_map_sortInput_fixed l (sortInput_fixed_list l))]
  | Input.node pfs cron none none none (some l) => by
    rw [sortInput_union, sortInput_union,
      sortInputs_of_fixed _ (mem_map_sortInput_fixed l (sortInput_fixed_list l))]
  | Input.node pfs cron none none none none => by
    rw [sortInput_leaf, sortInput_leaf]
theorem sortInput_fixed_list : ∀ l : List Input,
    ∀ x ∈ l, SortInput (SortInput x) = SortInput x
  | [], x, hx => by simp at hx
  | y :: ys, x, hx => by
    rcases List.mem_cons.mp hx with rfl | h
    · exact sortInput_fixed x
    · exact sortInput_fixed_list ys x h
end

/-- C35: `SortInput` is idempotent. For every input tree, whichever of its
lists are set, applying `SortInput` to the result of `SortInput` gives that
result again: the same tree, with the same order in every child list. -/
theorem sortInput_idempotent (input : Input) :
    SortInput (SortInput input) = SortInput input ∧
    (SortInput (SortInput input)).children = (SortInput input).children ∧
    (SortInput (SortInput input)).postOrder = (SortInput input).postOrder := by
  have h := sortInput_fixed input
  exact ⟨h, by rw [h], by rw [h]⟩

/-! ## Nil inputs -/

mutual
theorem visitInput_congr_nodes {σ : Type} (f g : Visitor σ)
    (h : ∀ pfs cron cross join group union s,
      f (Input.node pfs cron cross join group union) s
        = g (Input.node pfs cron cross join group union) s) :
    ∀ (t : Input) (s : σ), visitInput f t s = visitInput g t s
  | Input.null, s => by simp [visitInput]
  | Input.node pfs cron (some source) join group union, s => by
    simp only [visitInput, visitInputs_congr_nodes f g h source s, h]
  | Input.node pfs cron none (some source) group union, s => by
    simp only [visitInput, visitInputs_congr_nodes f g h source s, h]
  | Input.node pfs cron none none (some source) union, s => by
    simp only [visitInput, visitInputs_congr_nodes f g h source s, h]
  | Input.node pfs cron none none none (some source), s => by
    simp only [visitInput, visitInputs_congr_nodes f g h source s, h]
  | Input.node pfs cron none none none none, s => by
    simp only [visitInput, h]
theorem visitInputs_congr_nodes {σ : Type} (f g : Visitor σ)
    (h : ∀ pfs cron cross join group union s,
      f (Input.node pfs cron cross join group union) s
        = g (Input.node pfs cron cross join group union) s) :
    ∀ (l : List Input) (s : σ), visitInputs f l s = visitInputs g l s
  | [], s => by simp [visitInputs]
  | x :: xs, s => by
    simp only [visitInputs, visitInput_congr_nodes f g h x s]
    rcases visitInput g x s with ⟨r, x2, s2⟩
    cases r with
    | some err => rfl
    | none => simp only [visitInputs_congr_nodes f g h xs s2]
end

mutual
theorem null_not_mem_postOrder : ∀ t : Input, Input.null ∉ t.postOrder
  | Input.null => by simp [Input.postOrder]
  | Input.node pfs cron cross join group union => by
    simp only [Input.postOrder, List.mem_append, List.mem_singleton, not_or]
    exact ⟨⟨⟨⟨null_not_mem_slice cross, null_not_mem_slice join⟩,
      null_not_mem_slice group⟩, null_not_mem_slice union⟩, fun h => Input.noConfusion h⟩
theorem null_not_mem_slice : ∀ o : Option (List Input), Input.null ∉ postOrderSlice o
  | none => by simp [postOrderSlice]
  | some l => by
    simp only [postOrderSlice]
    exact null_not_mem_list l
theorem null_not_mem_list : ∀ l : List Input, Input.null ∉ postOrderList l
  | [] => by simp [postOrderList]
  | x :: xs => by
    simp only [postOrderList, List.mem_append, not_or]
    exact ⟨null_not_mem_postOrder x, null_not_mem_list xs⟩
end

/-- C36: no nil `Input` is dereferenced. For a nil root `VisitInput` returns
nil without calling `f` (whatever `f` is, the state is unchanged), `SortInput`
leaves nil, `InputBranches` returns the empty result, and `InputName` is the
empty string. A nil element of a child list is passed over: the visit goes on
with the rest of the list and the element stays nil. In general the result of
`VisitInput` is the same for two functions that agree on all non-nil nodes, so
what `f` would do with nil never matters; this holds of the functions of
`SortInput` and `InputBranches`, which read the fields of their argument; and
nil is not among the nodes of the post-order. -/
theorem nil_inputs_are_passed_over :
    (∀ (σ : Type) (f : Visitor σ) (s : σ), VisitInput f Input.null s = (none, Input.null, s)) ∧
    SortInput Input.null = Input.null ∧
    (∀ (U : String) (onNil : List Branch → Option Err × Input × List Branch),
      InputBranches U onNil Input.null = []) ∧
    InputName Input.null = "" ∧
    (∀ xs : List Input, InputNameFirst (Input.null :: xs) = "") ∧
    (∀ (σ : Type) (f : Visitor σ) (xs : List Input) (s : σ),
      visitInputs f (Input.null :: xs) s
        = ((visitInputs f xs s).1, Input.null :: (visitInputs f xs s).2.1,
            (visitInputs f xs s).2.2)) ∧
    (∀ (σ : Type) (f g : Visitor σ),
      (∀ pfs cron cross join group union s,
        f (Input.node pfs cron cross join group union) s
          = g (Input.node pfs cron cross join group union) s) →
      ∀ (t : Input) (s : σ), VisitInput f t s = VisitInput g t s) ∧
    (∀ (g : Visitor Unit),
      (∀ pfs cron cross join group union s,
        g (Input.node pfs cron cross join group union) s
          = sortVisitor (Input.node pfs cron cross join group union) s) →
      ∀ t : Input, SortInput t = (VisitInput g t ()).2.1) ∧
    (∀ (U : String) (onNil onNil2 : List Branch → Option Err × Input × List Branch)
      (t : Input), InputBranches U onNil t = InputBranches U onNil2 t) ∧
    (∀ t : Input, Input.null ∉ t.postOrder) ∧
    InputBranches "user" (fun r => (none, Input.null, r))
        (Input.node none none
          (some [Input.null, pfsNamed "a", Input.null, cronOn "tick"]) none none none)
      = [{ Repo := { Name := "a", Type_ := "user" }, Name := "master" },
         { Repo := { Name := "tick", Type_ := "user" }, Name := "master" }] := by
  have hcongr : ∀ (σ : Type) (f g : Visitor σ),
      (∀ pfs cron cross join group union s,
        f (Input.node pfs cron cross join group union) s
          = g (Input.node pfs cron cross join group union) s) →
      ∀ (t : Input) (s : σ), VisitInput f t s = VisitInput g t s := by
    intro σ f g h t s
    unfold VisitInput
    rw [visitInput_congr_nodes f g h t s]
  refine ⟨fun σ f s => rfl, rfl, fun U onNil => rfl, rfl, fun xs => rfl, ?_, hcongr, ?_, ?_,
    null_not_mem_postOrder, by decide⟩
  · intro σ f xs s
    simp only [visitInputs, visitInput]
  · intro g h t
    unfold SortInput
    rw [hcongr Unit sortVisitor g (fun pfs cron cross join group union s =>
      (h pfs cron cross join group union s).symm) t ()]
  · intro U onNil onNil2 t
    unfold InputBranches
    rw [hcongr (List Branch) (branchVisitor U onNil) (branchVisitor U onNil2)
      (fun pfs cron cross join group union s => rfl) t []]

end Pps

namespace Auth

open Go

theorem sentinel_error_contains_message (st : Status) :
    Contains st.Err.Error st.Message = true :=
  contains_right ("rpc error: code = " ++ st.code ++ " desc = ") st.message

theorem grpcify_embeds (e : GoError) : e.Error.data <:+: (grpcify e).Error.data :=
  (contains_iff _ _).mp (contains_right "rpc error: code = Unknown desc = " e.Error)

/-- C29: for each of the six sentinel errors `E` with its predicate `IsErrE`:
the predicate is false for nil; true for `E` itself; for a non-nil error `e`
it is true exactly when `e.Error()` contains the message text of `E`; hence it
is true for every error whose message embeds that of an error it accepts, such
as the re-wrapped `rpc error: code = Unknown desc = ...` of the tests. -/
theorem sentinel_predicates_match_message :
    ∀ p ∈ sentinelPredicates,
      p.2 none = false ∧
      p.2 (some p.1.Err) = true ∧
      (∀ e : GoError, p.2 (some e) = true ↔ p.1.Message.data <:+: e.Error.data) ∧
      (∀ e g : GoError, p.2 (some e) = true → e.Error.data <:+: g.Error.data →
        p.2 (some g) = true) ∧
      p.2 (some (grpcify p.1.Err)) = true := by
  have key : ∀ (st : Status) (q : Option GoError → Bool),
      q none = false →
      (∀ e : GoError, q (some e) = Contains e.Error st.Message) →
      q none = false ∧
      q (some st.Err) = true ∧
      (∀ e : GoError, q (some e) = true ↔ st.Message.data <:+: e.Error.data) ∧
      (∀ e g : GoError, q (some e) = true → e.Error.data <:+: g.Error.data →
        q (some g) = true) ∧
      q (some (grpcify st.Err)) = true := by
    intro st q h0 hq
    have hself : q (some st.Err) = true := by
      rw [hq]
      exact sentinel_error_contains_message st
    have hup : ∀ e g : GoError, q (some e) = true → e.Error.data <:+: g.Error.data →
        q (some g) = true := by
      intro e g he hemb
      rw [hq] at he ⊢
      exact contains_of_embeds g e st.Message hemb he
    refine ⟨h0, hself, ?_, hup, hup _ _ hself (grpcify_embeds _)⟩
    intro e
    rw [hq, contains_iff]
  intro p hp
  simp only [sentinelPredicates, List.mem_cons, List.mem_singleton, List.not_mem_nil,
    or_false] at hp
  rcases hp with rfl | rfl | rfl | rfl | rfl | rfl
  · exact key ErrNotActivated IsErrNotActivated rfl (fun _ => rfl)
  · exact key ErrAlreadyActivated IsErrAlreadyActivated rfl (fun _ => rfl)
  · exact key ErrNotSignedIn IsErrNotSignedIn rfl (fun _ => rfl)
  · exact key ErrNoMetadata IsErrNoMetadata rfl (fun _ => rfl)
  · exact key ErrBadToken IsErrBadToken rfl (fun _ => rfl)
  · exact key ErrExpiredToken IsErrExpiredToken rfl (fun _ => rfl)

/-- Witness of C29: `TestIsErrNotActivated`, the re-wrapped sentinel. -/
theorem sentinel_predicates_match_message_witness :
    IsErrNotActivated none = false ∧
    IsErrNotActivated (some ErrNotActivated.Err) = true ∧
    IsErrNotActivated (some (grpcify ErrNotActivated.Err)) = true :=
  ⟨(sentinel_predicates_match_message (ErrNotActivated, IsErrNotActivated)
      (List.mem_cons_self _ _)).1,
   (sentinel_predicates_match_message (ErrNotActivated, IsErrNotActivated)
      (List.mem_cons_self _ _)).2.1,
   (sentinel_predicates_match_message (ErrNotActivated, IsErrNotActivated)
      (List.mem_cons_self _ _)).2.2.2.2⟩

/-- C30: for every `ErrNotAuthorized` (any subject, resource and required
permissions), `ErrNoRoleBinding` (any resource), `ErrInvalidPrincipal` (any
principal) and `ErrTooShortTTL` (any two integers, negative included), the
matching predicate is true on the error, true on every error whose message
embeds the message of the error, and false on nil; whatever `%v` prints for
resource types and permission lists. -/
theorem structured_predicates_accept {ResourceType Permission : Type}
    (showType : ResourceType → String) (showPerms : List Permission → String) :
    (IsErrNotAuthorized none = false ∧
      ∀ x : ErrNotAuthorized ResourceType Permission,
        IsErrNotAuthorized (some ⟨x.Error showType showPerms⟩) = true ∧
        ∀ g : GoError, (x.Error showType showPerms).data <:+: g.Error.data →
          IsErrNotAuthorized (some g) = true) ∧
    (IsErrNoRoleBinding none = false ∧
      ∀ x : ErrNoRoleBinding ResourceType,
        IsErrNoRoleBinding (some ⟨x.Error showType⟩) = true ∧
        ∀ g : GoError, (x.Error showType).data <:+: g.Error.data →
          IsErrNoRoleBinding (some g) = true) ∧
    (IsErrInvalidPrincipal none = false ∧
      ∀ x : ErrInvalidPrincipal,
        IsErrInvalidPrincipal (some ⟨x.Error⟩) = true ∧
        ∀ g : GoError, x.Error.data <:+: g.Error.data →
          IsErrInvalidPrincipal (some g) = true) ∧
    (IsErrTooShortTTL none = false ∧
      ∀ x : ErrTooShortTTL,
        IsErrTooShortTTL (some ⟨x.Error⟩) = true ∧
        ∀ g : GoError, x.Error.data <:+: g.Error.data →
          IsErrTooShortTTL (some g) = true) := by
  refine ⟨⟨rfl, ?_⟩, ⟨rfl, ?_⟩, ⟨rfl, ?_⟩, ⟨rfl, ?_⟩⟩
  · intro x
    have h : Contains (x.Error showType showPerms) errNotAuthorizedMsg = true := by
      unfold ErrNotAuthorized.Error
      have := contains_mid (x.Subject ++ " is ") errNotAuthorizedMsg
        (" - needs permissions " ++ showPerms x.Required ++ " on "
          ++ showType x.Resource.Type_ ++ " " ++ x.Resource.Name
          ++ ". Run `datactl auth roles-for-permission` to find roles that grant a given permission.")
      simpa only [String.append_assoc] using this
    exact ⟨h, fun g hg => contains_of_embeds g ⟨_⟩ _ hg h⟩
  · intro x
    have h : Contains (x.Error showType) errNoRoleBindingMsg = true := by
      unfold ErrNoRoleBinding.Error
      simp only [String.append_assoc]
      exact contains_left errNoRoleBindingMsg _
    exact ⟨h, fun g hg => contains_of_embeds g ⟨_⟩ _ hg h⟩
  · intro x
    have h1 : Contains x.Error "invalid principal \"" = true := by
      unfold ErrInvalidPrincipal.Error
      simp only [String.append_assoc]
      exact contains_left _ _
    have h2 : Contains x.Error
        "\"; must start with one of \"pipeline:\", \"github:\", or \"robot:\", or have no \":\""
        = true := by
      unfold ErrInvalidPrincipal.Error
      exact contains_right _ _
    refine ⟨?_, fun g hg => ?_⟩
    · show (Contains _ _ && Contains _ _) = true
      rw [h1, h2]
      rfl
    · show (Contains _ _ && Contains _ _) = true
      rw [contains_of_embeds g ⟨x.Error⟩ _ hg h1, contains_of_embeds g ⟨x.Error⟩ _ hg h2]
      rfl
  · intro x
    have h1 : Contains x.Error "provided TTL (" = true := by
      unfold ErrTooShortTTL.Error
      simp only [String.append_assoc]
      exact contains_left _ _
    have h2 : Contains x.Error ") is shorter than token's existing TTL (" = true := by
      unfold ErrTooShortTTL.Error
      simp only [String.append_assoc]
      have := contains_mid ("provided TTL (" ++ toString x.RequestTTL)
        ") is shorter than token's existing TTL (" (toString x.ExistingTTL ++ ")")
      simpa only [String.append_assoc] using this
    have h3 : Contains x.Error ")" = true := by
      unfold ErrTooShortTTL.Error
      exact contains_right _ _
    refine ⟨?_, fun g hg => ?_⟩
    · show (Contains _ _ && Contains _ _ && Contains _ _) = true
      rw [h1, h2, h3]
      rfl
    · show (Contains _ _ && Contains _ _ && Contains _ _) = true
      rw [contains_of_embeds g ⟨x.Error⟩ _ hg h1, contains_of_embeds g ⟨x.Error⟩ _ hg h2,
        contains_of_embeds g ⟨x.Error⟩ _ hg h3]
      rfl

/-! ## `GetAuthToken` -/

/-- C31: `GetAuthToken` returns no error exactly when the context carries
incoming metadata with exactly one value under `authn-token`, and the token is
then that value. Without incoming metadata it returns the empty token and
`ErrNoMetadata` (passed through `EnsureStack`); with metadata that has no
value under the key, the empty token and `ErrNotSignedIn` (passed through
`EnsureStack`); with more than one value, the empty token and the error
`multiple authentication token keys found in context`. When `EnsureStack`
keeps the text of the error, the two sentinel predicates accept these
errors. -/
theorem getAuthToken_cases (EnsureStack : GoError → GoError) (Errorf : String → GoError)
    (ctx : Option MD) :
    ((GetAuthToken EnsureStack Errorf ctx).2 = none ↔
      ∃ md token, ctx = some md ∧ md ContextTokenKey = [token]) ∧
    (∀ md token, ctx = some md → md ContextTokenKey = [token] →
      GetAuthToken EnsureStack Errorf ctx = (token, none)) ∧
    (ctx = none →
      GetAuthToken EnsureStack Errorf ctx = ("", some (EnsureStack ErrNoMetadata.Err))) ∧
    (∀ md, ctx = some md → md ContextTokenKey = [] →
      GetAuthToken EnsureStack Errorf ctx = ("", some (EnsureStack ErrNotSignedIn.Err))) ∧
    (∀ md, ctx = some md → 1 < (md ContextTokenKey).length →
      GetAuthToken EnsureStack Errorf ctx
        = ("", some (Errorf "multiple authentication token keys found in context"))) ∧
    ((∀ e : GoError, (EnsureStack e).Error = e.Error) →
      IsErrNoMetadata (GetAuthToken EnsureStack Errorf none).2 = true ∧
      IsErrNotSignedIn (GetAuthToken EnsureStack Errorf (some (tokenMD []))).2 = true) ∧
    ContextTokenKey = "authn-token" := by
  have hone : ∀ md token, ctx = some md → md ContextTokenKey = [token] →
      GetAuthToken EnsureStack Errorf ctx = (token, none) := by
    intro md token hctx hmd
    subst hctx
    simp [GetAuthToken, hmd]
  refine ⟨?_, hone, ?_, ?_, ?_, ?_, rfl⟩
  · constructor
    · intro h
      cases ctx with
      | none => simp [GetAuthToken] at h
      | some md =>
        refine ⟨md, (md ContextTokenKey).headD "", rfl, ?_⟩
        unfold GetAuthToken at h
        simp only at h
        split_ifs at h with h1 h2
        obtain ⟨x, hx⟩ := List.length_eq_one.mp
          (show (md ContextTokenKey).length = 1 by omega)
        rw [hx]
        rfl
    · rintro ⟨md, token, hctx, hmd⟩
      rw [hone md token hctx hmd]
  · intro hctx
    subst hctx
    rfl
  · intro md hctx hmd
    subst hctx
    simp [GetAuthToken, hmd]
  · intro md hctx hmd
    subst hctx
    simp [GetAuthToken, hmd]
  · intro hkeep
    constructor
    · show Contains (EnsureStack ErrNoMetadata.Err).Error ErrNoMetadata.Message = true
      rw [hkeep]
      exact sentinel_error_contains_message _
    · show Contains (EnsureStack ErrNotSignedIn.Err).Error ErrNotSignedIn.Message = true
      rw [hkeep]
      exact sentinel_error_contains_message _

/-! ## The sentinel predicates on the sentinels -/

set_option maxRecDepth 100000 in
/-- C37: on the six sentinel errors the six predicates are mutually exclusive:
for sentinels `E` and `F` of the list, `IsErrE(F)` is true if and only if `E`
and `F` are the same sentinel. -/
theorem sentinel_predicates_exclusive :
    ∀ p ∈ sentinelPredicates, ∀ q ∈ sentinelPredicates,
      (p.2 (some q.1.Err) = true ↔ p.1 = q.1) := by
  decide

set_option maxRecDepth 100000 in
/-- Witness of C37: `IsErrNotActivated` accepts `ErrNotActivated` and rejects
`ErrAlreadyActivated`. -/
theorem sentinel_predicates_exclusive_witness :
    IsErrNotActivated (some ErrNotActivated.Err) = true ∧
    IsErrNotActivated (some ErrAlreadyActivated.Err) = false ∧
    IsErrAlreadyActivated (some ErrNotActivated.Err) = false :=
  ⟨(sentinel_predicates_exclusive (ErrNotActivated, IsErrNotActivated)
      (List.mem_cons_self _ _) (ErrNotActivated, IsErrNotActivated)
      (List.mem_cons_self _ _)).mpr rfl,
   Bool.eq_false_iff.mpr (fun h =>
     absurd ((sentinel_predicates_exclusive (ErrNotActivated, IsErrNotActivated)
       (List.mem_cons_self _ _) (ErrAlreadyActivated, IsErrAlreadyActivated)
       (List.mem_cons_of_mem _ (List.mem_cons_self _ _))).mp h) (by decide)),
   by decide⟩

end Auth

namespace Errors

/-! ## `As` -/

theorem type_obj (name : String) (val : Int) : (Val.obj name val).Type_ = Ty.named name := rfl

theorem type_ref (t : Ty) (pointee : Val) : (Val.ref t pointee).Type_ = Ty.ptr t := rfl

theorem type_nilPtr (t : Ty) : (Val.nilPtr t).Type_ = Ty.ptr t := rfl

/-- C32: for an error type `T` whose method `Error` has a value receiver, an
error that is a `T` or a pointer to a `T`, and a target that is a `*T`, a
`**T` whose inner pointer is not nil, or a pointer to an interface that the
type of the error implements, `As` returns true and stores the value of the
error through the target; for a target of another error type `U`, of either
shape, it returns false and leaves the target as it was. The same holds of a
type whose `Error` has a pointer receiver, held as a pointer.

The divergence is at a `**T` whose inner pointer is nil, as in
`var p *T; As(err, &p)`: when `Error` has a value receiver, `As` panics, for
the error held as `T` and for the error held as a pointer, while the library
`As` on the same arguments returns false and true. With a pointer receiver
`As` returns true there. -/
theorem as_on_values_and_pointers (d : Decls) (T U : String) (n m : Int)
    (hT : d.errorMethod T = Receiver.value) (hU : U ≠ T) :
    -- the error held as `T`
    As d (Val.obj T n) [] (Val.ref (Ty.named T) (Val.obj T m))
      = some (true, Val.ref (Ty.named T) (Val.obj T n)) ∧
    As d (Val.obj T n) [] (Val.ref (Ty.ptr (Ty.named T)) (Val.ref (Ty.named T) (Val.obj T m)))
      = some (true, Val.ref (Ty.ptr (Ty.named T)) (Val.ref (Ty.named T) (Val.obj T n))) ∧
    -- the error held as a pointer to `T`
    As d (Val.ref (Ty.named T) (Val.obj T n)) [] (Val.ref (Ty.named T) (Val.obj T m))
      = some (true, Val.ref (Ty.named T) (Val.obj T n)) ∧
    As d (Val.ref (Ty.named T) (Val.obj T n)) []
        (Val.ref (Ty.ptr (Ty.named T)) (Val.ref (Ty.named T) (Val.obj T m)))
      = some (true, Val.ref (Ty.ptr (Ty.named T)) (Val.ref (Ty.named T) (Val.obj T n))) ∧
    -- a pointer to an interface that the type of the error implements
    (∀ (e cur : Val) (I : String), cur.Type_ = Ty.iface I →
      d.implements e.Type_ I = true →
      As d e [] (Val.ref (Ty.iface I) cur) = some (true, Val.ref (Ty.iface I) (Val.ifaceOf I e))) ∧
    -- a target of another type
    (∀ e : Val, e = Val.obj T n ∨ e = Val.ref (Ty.named T) (Val.obj T n) →
      As d e [] (Val.ref (Ty.named U) (Val.obj U m))
        = some (false, Val.ref (Ty.named U) (Val.obj U m)) ∧
      As d e [] (Val.ref (Ty.ptr (Ty.named U)) (Val.ref (Ty.named U) (Val.obj U m)))
        = some (false, Val.ref (Ty.ptr (Ty.named U)) (Val.ref (Ty.named U) (Val.obj U m)))) ∧
    -- a type with a pointer receiver
    (∀ P : String, d.errorMethod P = Receiver.pointer →
      As d (Val.ref (Ty.named P) (Val.obj P n)) [] (Val.ref (Ty.named P) (Val.obj P m))
        = some (true, Val.ref (Ty.named P) (Val.obj P n)) ∧
      As d (Val.ref (Ty.named P) (Val.obj P n)) []
          (Val.ref (Ty.ptr (Ty.named P)) (Val.ref (Ty.named P) (Val.obj P m)))
        = some (true, Val.ref (Ty.ptr (Ty.named P)) (Val.ref (Ty.named P) (Val.obj P n))) ∧
      As d (Val.ref (Ty.named P) (Val.obj P n)) []
          (Val.ref (Ty.ptr (Ty.named P)) (Val.nilPtr (Ty.named P)))
        = some (true, Val.ref (Ty.ptr (Ty.named P)) (Val.ref (Ty.named P) (Val.obj P n)))) ∧
    -- the nil inner pointer
    As d (Val.obj T n) [] (Val.ref (Ty.ptr (Ty.named T)) (Val.nilPtr (Ty.named T))) = none ∧
    As d (Val.ref (Ty.named T) (Val.obj T n)) []
        (Val.ref (Ty.ptr (Ty.named T)) (Val.nilPtr (Ty.named T))) = none ∧
    stdAs d (Val.obj T n) [] (Val.ref (Ty.ptr (Ty.named T)) (Val.nilPtr (Ty.named T)))
      = some (false, Val.ref (Ty.ptr (Ty.named T)) (Val.nilPtr (Ty.named T))) ∧
    stdAs d (Val.ref (Ty.named T) (Val.obj T n)) []
        (Val.ref (Ty.ptr (Ty.named T)) (Val.nilPtr (Ty.named T)))
      = some (true, Val.ref (Ty.ptr (Ty.named T)) (Val.ref (Ty.named T) (Val.obj T n))) := by
  have hTU : Ty.named T ≠ Ty.named U := fun h => hU (Ty.named.inj h).symm
  have hpTU : Ty.ptr (Ty.named T) ≠ Ty.ptr (Ty.named U) :=
    fun h => hTU (Ty.ptr.inj h)
  refine ⟨?_, ?_, ?_, ?_, ?_, ?_, ?_, ?_, ?_, ?_, ?_⟩
  · simp [As, tryAs, stdAs, Val.elemKind, type_obj, type_ref, type_nilPtr, Ty.Kind, Decls.implementsError,
      Decls.assignable, stored, hT]
  · simp [As, tryAs, stdAs, Val.elemKind, type_obj, type_ref, type_nilPtr, Ty.Kind, Decls.implementsError,
      Decls.assignable, stored, hT]
  · simp [As, tryAs, stdAs, Val.elemKind, type_obj, type_ref, type_nilPtr, Ty.Kind, Decls.implementsError,
      Decls.assignable, stored, hT]
  · simp [As, tryAs, stdAs, Val.elemKind, type_obj, type_ref, type_nilPtr, Ty.Kind, Decls.implementsError,
      Decls.assignable, stored, hT]
  · intro e cur I hcur himpl
    simp [As, tryAs, stdAs, Val.elemKind, type_obj, type_ref, type_nilPtr, Ty.Kind, Decls.implementsError,
      Decls.assignable, stored, hcur, himpl]
  · intro e he
    rcases he with rfl | rfl
    · cases hr : d.errorMethod U <;>
        simp [As, tryAs, stdAs, Val.elemKind, type_obj, type_ref, type_nilPtr, Ty.Kind, Decls.implementsError,
          Decls.assignable, stored, hT, hr, hTU, hpTU]
    · cases hr : d.errorMethod U <;>
        simp [As, tryAs, stdAs, Val.elemKind, type_obj, type_ref, type_nilPtr, Ty.Kind, Decls.implementsError,
          Decls.assignable, stored, hT, hr, hTU, hpTU]
  · intro P hP
    simp [As, tryAs, stdAs, Val.elemKind, type_obj, type_ref, type_nilPtr, Ty.Kind, Decls.implementsError,
      Decls.assignable, stored, hP]
  · simp [As, tryAs, stdAs, Val.elemKind, type_obj, type_ref, type_nilPtr, Ty.Kind, Decls.implementsError,
      Decls.assignable, stored, hT]
  · simp [As, tryAs, stdAs, Val.elemKind, type_obj, type_ref, type_nilPtr, Ty.Kind, Decls.implementsError,
      Decls.assignable, stored, hT]
  · simp [As, tryAs, stdAs, Val.elemKind, type_obj, type_ref, type_nilPtr, Ty.Kind, Decls.implementsError,
      Decls.assignable, stored, hT]
  · simp [As, tryAs, stdAs, Val.elemKind, type_obj, type_ref, type_nilPtr, Ty.Kind, Decls.implementsError,
      Decls.assignable, stored, hT]

/-- Witness of C32: `TestAsFooErr`, where `err = FooErr{2}` is stored through
`fooerr`, a pointer to a `FooErr`; and the call `As(FooErr{1}, &p)` with
`var p *FooErr`, which panics. -/
theorem as_on_values_and_pointers_witness :
    As testDecls (fooErr 2) [] (addrOf (fooErr 0)) = some (true, addrOf (fooErr 2)) ∧
    As testDecls (fooErr 2) [] (addrOf (Val.obj "OtherErr" 0))
      = some (false, addrOf (Val.obj "OtherErr" 0)) ∧
    As testDecls (fooErr 1) [] (Val.ref (Ty.ptr (Ty.named "FooErr")) (nilOf "FooErr")) = none :=
  ⟨(as_on_values_and_pointers testDecls "FooErr" "OtherErr" 2 0 (by decide) (by decide)).1,
   ((as_on_values_and_pointers testDecls "FooErr" "OtherErr" 2 0 (by decide)
      (by decide)).2.2.2.2.2.1 (fooErr 2) (Or.inl rfl)).1,
   (as_on_values_and_pointers testDecls "FooErr" "OtherErr" 1 0 (by decide)
      (by decide)).2.2.2.2.2.2.2.1⟩

end Errors

namespace VersionPkg

/-! ## `IsAtLeast` and `IsCustomRelease` -/

/-- C33: `IsAtLeast(major, minor)` is true exactly when `(major, minor)` is at
most `(MajorVersion, MinorVersion) = (1, 2)` in the lexicographic order, that
is when `major < 1`, or `major = 1` and `minor ≤ 2`. Hence it is monotone: if
it holds of `(a, b)` it holds of every pair that is lexicographically at most
`(a, b)`. -/
theorem isAtLeast_iff_lex (major minor : Int) :
    (MajorVersion, MinorVersion) = (1, 2) ∧
    (IsAtLeast major minor = true ↔ major < 1 ∨ (major = 1 ∧ minor ≤ 2)) ∧
    (IsAtLeast major minor = true ↔
      toLex (major, minor) ≤ toLex (MajorVersion, MinorVersion)) ∧
    (∀ a b : Int, toLex (a, b) ≤ toLex (major, minor) → IsAtLeast major minor = true →
      IsAtLeast a b = true) := by
  have h1 : ∀ x y : Int, IsAtLeast x y = true ↔ x < 1 ∨ (x = 1 ∧ y ≤ 2) := by
    intro x y
    simp only [IsAtLeast, MajorVersion, MinorVersion, Bool.or_eq_true, Bool.and_eq_true,
      decide_eq_true_eq, gt_iff_lt, ge_iff_le]
    constructor
    · rintro (h | ⟨h, h2⟩)
      · exact Or.inl h
      · exact Or.inr ⟨h.symm, h2⟩
    · rintro (h | ⟨h, h2⟩)
      · exact Or.inl h
      · exact Or.inr ⟨h.symm, h2⟩
  have h2 : ∀ x y : Int, IsAtLeast x y = true ↔
      toLex (x, y) ≤ toLex (MajorVersion, MinorVersion) := by
    intro x y
    rw [h1, Prod.Lex.le_iff]
    simp only [MajorVersion, MinorVersion]
  refine ⟨rfl, h1 major minor, h2 major minor, ?_⟩
  intro a b hab h
  rw [h2] at h ⊢
  exact le_trans hab h

theorem matchRep_cls (ranges : List (Char × Char)) :
    ∀ (n : Nat) (s : List Char),
      matchRep (Regex.cls ranges).matchPrefix n s
        = if n ≤ s.length ∧ ∀ c ∈ s.take n, inRanges ranges c = true then [s.drop n] else [] := by
  intro n
  induction n with
  | zero => intro s; simp [matchRep]
  | succ n ih =>
    intro s
    cases s with
    | nil => simp [matchRep, Regex.matchPrefix]
    | cons c cs =>
      by_cases hc : inRanges ranges c = true
      · simp only [matchRep, Regex.matchPrefix, hc, if_true, List.flatMap_cons, List.flatMap_nil,
          List.append_nil, ih cs, List.length_cons, Nat.add_le_add_iff_right, List.take_succ_cons,
          List.mem_cons, forall_eq_or_imp, true_and, List.drop_succ_cons]
      · simp only [matchRep, Regex.matchPrefix, hc, List.flatMap_nil, List.take_succ_cons,
          List.mem_cons, forall_eq_or_imp, false_and, and_false, if_false]
        simp

theorem matchString_rep_cls (ranges : List (Char × Char)) (n : Nat) (s : String) :
    (Regex.rep (Regex.cls ranges) n).MatchString s = true ↔
      ∃ pre run post : List Char, s.data = pre ++ run ++ post ∧ run.length = n ∧
        ∀ c ∈ run, inRanges ranges c = true := by
  unfold Regex.MatchString
  simp only [List.any_eq_true, List.mem_tails, Regex.matchPrefix, matchRep_cls]
  constructor
  · rintro ⟨t, ⟨pre, hpre⟩, ht⟩
    by_cases hcond : n ≤ t.length ∧ ∀ c ∈ t.take n, inRanges ranges c = true
    · refine ⟨pre, t.take n, t.drop n, ?_, ?_, hcond.2⟩
      · rw [List.append_assoc, List.take_append_drop, hpre]
      · rw [List.length_take]
        omega
    · rw [if_neg hcond] at ht
      simp at ht
  · rintro ⟨pre, run, post, hs, hlen, hrun⟩
    refine ⟨run ++ post, ⟨pre, ?_⟩, ?_⟩
    · rw [hs, List.append_assoc]
    · have hcond : n ≤ (run ++ post).length ∧
          ∀ c ∈ (run ++ post).take n, inRanges ranges c = true := by
        refine ⟨by rw [List.length_append]; omega, ?_⟩
        rw [← hlen, List.take_left]
        exact hrun
      rw [if_pos hcond]
      simp

theorem inRanges_hex (c : Char) : inRanges [('0', '9'), ('a', 'f')] c = isLowerHex c := by
  simp [inRanges, isLowerHex]

/-- C38: `IsCustomRelease(v)` is true exactly when `v.Additional` contains,
at some position, forty consecutive characters of `[0-9a-f]`. So it is true
whenever such a run stands between any two texts, for instance in a string of
more than forty characters or with characters that are not hexadecimal around
the run; and it is false for the empty string, for the forty characters of a
hash written in upper case, and for every string with no character of
`[0-9a-f]`. -/
theorem isCustomRelease_iff_hex_run (v : Version) :
    (IsCustomRelease v = true ↔
      ∃ pre run post : List Char, v.Additional.data = pre ++ run ++ post ∧
        run.length = 40 ∧ ∀ c ∈ run, isLowerHex c = true) ∧
    (∀ pre post : String,
      IsCustomRelease { v with Additional := pre ++ sampleHash ++ post } = true) ∧
    IsCustomRelease { v with Additional := sampleHash ++ "0" } = true ∧
    IsCustomRelease { v with Additional := "v1.2.0-" ++ sampleHash ++ "+dirty" } = true ∧
    IsCustomRelease { v with Additional := "" } = false ∧
    IsCustomRelease { v with Additional := sampleUpperHash } = false ∧
    ((∀ c ∈ v.Additional.data, isLowerHex c = false) → IsCustomRelease v = false) := by
  have key : ∀ w : Version, IsCustomRelease w = true ↔
      ∃ pre run post : List Char, w.Additional.data = pre ++ run ++ post ∧
        run.length = 40 ∧ ∀ c ∈ run, isLowerHex c = true := by
    intro w
    have hm := matchString_rep_cls [('0', '9'), ('a', 'f')] 40 w.Additional
    simp only [inRanges_hex] at hm
    unfold IsCustomRelease customReleaseRegex
    constructor
    · intro h
      by_cases hc : w.Additional ≠ "" ∧
          (Regex.rep (Regex.cls [('0', '9'), ('a', 'f')]) 40).MatchString w.Additional = true
      · exact hm.mp hc.2
      · rw [if_neg hc] at h
        exact absurd h (by decide)
    · intro h
      have hne : w.Additional ≠ "" := by
        intro he
        obtain ⟨pre, run, post, hs, hlen, -⟩ := h
        rw [he] at hs
        have hl := congrArg List.length hs
        simp only [List.length_append, hlen] at hl
        change 0 = _ at hl
        omega
      rw [if_pos ⟨hne, hm.mpr h⟩]
  have hrun : ∀ pre post : String,
      IsCustomRelease { v with Additional := pre ++ sampleHash ++ post } = true := by
    intro pre post
    rw [key]
    refine ⟨pre.data, sampleHash.data, post.data, ?_, by decide, by decide⟩
    simp only [String.data_append]
  have hnone : ∀ w : Version, (∀ c ∈ w.Additional.data, isLowerHex c = false) →
      IsCustomRelease w = false := by
    intro w hw
    cases h : IsCustomRelease w with
    | false => rfl
    | true =>
      obtain ⟨pre, run, post, hs, hlen, hall⟩ := (key w).mp h
      cases run with
      | nil => simp at hlen
      | cons c cs =>
        have hc := hw c (by rw [hs]; simp)
        rw [hall c (List.mem_cons_self _ _)] at hc
        exact absurd hc (by decide)
  refine ⟨key v, hrun, ?_, ?_, ?_, ?_, hnone v⟩
  · have := hrun "" "0"
    simpa using this
  · exact hrun "v1.2.0-" "+dirty"
  · exact hnone { v with Additional := "" } (by simp)
  · show (if sampleUpperHash ≠ "" ∧ customReleaseRegex.MatchString sampleUpperHash = true
      then true else false) = false
    decide

end VersionPkg
